import Mathlib

/-!
# AsynLogSystem: elastic buffer and double-buffer worker

Shallow embedding of `log_sys/src/AsynBuffer.hpp` and `log_sys/src/AsynWorker.hpp`.

* `size_t` values are natural numbers; every `size_t` operation of the source is
  written with its reduction modulo `SIZE_MOD = 2^64`.
* `std::vector<char>` is a `List Char`; `resize` keeps the common prefix and
  fills new cells with the zero character.  Allocation is assumed to succeed.
* A member function that mutates the buffer is a function returning the fault it
  raised (if any) together with the buffer as the call left it.
-/

namespace asynlog

/-! ## Machine arithmetic -/

/-- Modulus of `size_t` arithmetic on the 64-bit target. -/
def SIZE_MOD : Nat := 18446744073709551616

/-- Addition of two `size_t` values. -/
def addSz (a b : Nat) : Nat := (a + b) % SIZE_MOD

/-- Subtraction of two `size_t` values (wraps around below zero). -/
def subSz (a b : Nat) : Nat := (a % SIZE_MOD + (SIZE_MOD - b % SIZE_MOD)) % SIZE_MOD

/-- Multiplication of two `size_t` values. -/
def mulSz (a b : Nat) : Nat := (a * b) % SIZE_MOD

/-! ## Configuration (`Util::JsonData`) -/

/-- The data members of `JsonData`: `int64_t buffer_size`, `size_t threshold`,
`size_t linear_growth` (read by the buffer), then `size_t flush_log`,
`std::string backup_addr`, `uint16_t backup_port`, `size_t thread_count`. -/
structure JsonData where
  buffer_size : Int
  threshold : Nat
  linear_growth : Nat
  flush_log : Nat := 0
  backup_addr : List Char := []
  backup_port : Nat := 0
  thread_count : Nat := 0
  deriving DecidableEq, Repr

/-! ## Elastic buffer (`class Buffer`) -/

/-- Ways a call can go wrong: a failed `assert`, a copy that runs past the end
of the storage, or a stdio call on a null `FILE*`. -/
inductive Fault where
  | assertion
  | outOfBounds
  | nullStream
  deriving DecidableEq, Repr

/-- Data members of `class Buffer`. -/
structure Buffer where
  write_pos_ : Nat
  read_pos_ : Nat
  buffer_ : List Char
  deriving DecidableEq, Repr

/-- The call `std::vector<char>::resize(n)`. -/
def vresize (v : List Char) (n : Nat) : List Char :=
  v.take n ++ List.replicate (n - v.length) (Char.ofNat 0)

/-- The call `std::copy(data, data + len, &v[pos])`, restricted to the cells that
belong to the vector: bytes that would land past the end are not stored. -/
def vcopy (v : List Char) (pos : Nat) (data : List Char) : List Char :=
  v.take pos ++ data.take (v.length - pos) ++ v.drop (pos + data.length)

/-- The constructor `Buffer::Buffer()`: both cursors 0, storage resized to
`conf_data->buffer_size` (converted from `int64_t` to `size_t`). -/
def Buffer.create (conf : JsonData) : Buffer :=
  { write_pos_ := 0
    read_pos_ := 0
    buffer_ := vresize [] (conf.buffer_size % (SIZE_MOD : Int)).toNat }

/-- The capacity `buffer_.size()`. -/
def Buffer.capacity (b : Buffer) : Nat := b.buffer_.length

/-- The method `Buffer::WriteableSize`. -/
def Buffer.WriteableSize (b : Buffer) : Nat := subSz b.buffer_.length b.write_pos_

/-- The method `Buffer::ReadableSize`. -/
def Buffer.ReadableSize (b : Buffer) : Nat := subSz b.write_pos_ b.read_pos_

/-- The method `Buffer::IsEmpty`. -/
def Buffer.IsEmpty (b : Buffer) : Bool := b.write_pos_ == b.read_pos_

/-- The method `Buffer::Begin`: the storage as seen from `&buffer_[read_pos_]`. -/
def Buffer.Begin (b : Buffer) : List Char := b.buffer_.drop b.read_pos_

/-- The slice `(Begin(), ReadableSize())` handed to sinks. -/
def Buffer.readable (b : Buffer) : List Char := b.Begin.take b.ReadableSize

/-- The method `Buffer::ReadBegin`. -/
def Buffer.ReadBegin (b : Buffer) (len : Nat) : Except Fault (List Char) :=
  if len ≤ b.ReadableSize then .ok (b.buffer_.drop b.read_pos_) else .error .assertion

/-- The method `Buffer::ToBeEnough`. -/
def Buffer.ToBeEnough (conf : JsonData) (b : Buffer) (len : Nat) : Buffer :=
  let buffer_size := b.buffer_.length
  if len ≥ b.WriteableSize then
    if b.buffer_.length < conf.threshold then
      { b with buffer_ := vresize b.buffer_ (addSz (mulSz 2 b.buffer_.length) buffer_size) }
    else
      { b with buffer_ := vresize b.buffer_ (addSz conf.linear_growth buffer_size) }
  else b

/-- The method `Buffer::Push`, with `len = data.length`.  When the copy does not
fit in the storage left by `ToBeEnough` the call is flagged `outOfBounds`; the
cursor is advanced all the same, as the source does. -/
def Buffer.Push (conf : JsonData) (b : Buffer) (data : List Char) : Option Fault × Buffer :=
  let len := data.length
  let b1 := b.ToBeEnough conf len
  let b2 : Buffer :=
    { b1 with
      buffer_ := vcopy b1.buffer_ b1.write_pos_ data
      write_pos_ := addSz b1.write_pos_ len }
  if b1.write_pos_ + len ≤ b1.buffer_.length then (none, b2) else (some .outOfBounds, b2)

/-- The method `Buffer::Swap`: the pair is `(this, buf)` after the call. -/
def Buffer.Swap (b buf : Buffer) : Buffer × Buffer :=
  ({ buffer_ := buf.buffer_, read_pos_ := buf.read_pos_, write_pos_ := buf.write_pos_ },
   { buffer_ := b.buffer_, read_pos_ := b.read_pos_, write_pos_ := b.write_pos_ })

/-- The method `Buffer::Reset`. -/
def Buffer.Reset (b : Buffer) : Buffer :=
  { b with write_pos_ := 0, read_pos_ := 0 }

/-- The method `Buffer::MoveReadPos`. -/
def Buffer.MoveReadPos (b : Buffer) (len : Nat) : Option Fault × Buffer :=
  if len ≤ b.ReadableSize then (none, { b with read_pos_ := addSz b.read_pos_ len })
  else (some .assertion, b)

/-- The method `Buffer::MoveWritePos`. -/
def Buffer.MoveWritePos (b : Buffer) (len : Nat) : Option Fault × Buffer :=
  if len ≤ b.WriteableSize then (none, { b with write_pos_ := addSz b.write_pos_ len })
  else (some .assertion, b)

/-- The cursor invariant `0 ≤ read_pos ≤ write_pos ≤ capacity`. -/
def Buffer.CursorInv (b : Buffer) : Prop :=
  b.read_pos_ ≤ b.write_pos_ ∧ b.write_pos_ ≤ b.buffer_.length

instance (b : Buffer) : Decidable b.CursorInv := by
  unfold Buffer.CursorInv; infer_instance

/-! ## Double-buffer worker (`class AsynWorker`)

The mutex and the two condition variables are rendered by atomicity: `Push` and
the locked section of `ThreadEntry` are single steps, and a `wait` with
predicate `p` is a step that can only be taken in a state satisfying `p`. -/

/-- The enumeration `AsynType`. -/
inductive AsynType where
  | ASYNC_SAFE
  | ASYNC_UNSAFE
  deriving DecidableEq, Repr

/-- Program points of the consumer thread inside `ThreadEntry`. -/
inductive ConsumerPc where
  /-- Top of the loop: about to take the lock and wait on `cond_consumer_`. -/
  | waiting
  /-- Lock released: about to test `buffer_consumer_.ReadableSize() > 0`. -/
  | flushing
  /-- About to test `stop_ && buffer_producer_.IsEmpty()`. -/
  | checking
  /-- Function `ThreadEntry` has returned. -/
  | returned
  deriving DecidableEq, Repr

/-- Data members of `class AsynWorker` that carry state, the program point of
the consumer thread, and two histories: the slices `callback_` was called with,
and the records `Push` was called with. -/
structure AsynWorker where
  asyn_type_ : AsynType
  stop_ : Bool
  buffer_producer_ : Buffer
  buffer_consumer_ : Buffer
  pc : ConsumerPc
  delivered : List (List Char)
  pushed : List (List Char)
  deriving DecidableEq, Repr

/-- The constructor `AsynWorker::AsynWorker`: `stop_` false, two fresh buffers,
consumer thread started at the top of `ThreadEntry`. -/
def AsynWorker.create (conf : JsonData) (type : AsynType) : AsynWorker :=
  { asyn_type_ := type
    stop_ := false
    buffer_producer_ := Buffer.create conf
    buffer_consumer_ := Buffer.create conf
    pc := .waiting
    delivered := []
    pushed := [] }

/-- The condition under which a producer gets past the `cond_producer_.wait` of
`AsynWorker::Push`: no wait at all in unsafe mode, the predicate
`len <= buffer_producer_.WriteableSize()` in safe mode. -/
def AsynWorker.pushReady (w : AsynWorker) (len : Nat) : Bool :=
  if w.asyn_type_ = AsynType.ASYNC_SAFE then decide (len ≤ w.buffer_producer_.WriteableSize)
  else true

/-- The body of `AsynWorker::Push` after the wait: `buffer_producer_.Push`. -/
def AsynWorker.Push (conf : JsonData) (w : AsynWorker) (data : List Char) :
    Option Fault × AsynWorker :=
  let r := w.buffer_producer_.Push conf data
  (r.1, { w with buffer_producer_ := r.2, pushed := w.pushed ++ [data] })

/-- The flag assignment of `AsynWorker::Stop`. -/
def AsynWorker.Stop (w : AsynWorker) : AsynWorker := { w with stop_ := true }

/-- The predicate of `cond_consumer_.wait` in `ThreadEntry`. -/
def AsynWorker.consumerReady (w : AsynWorker) : Bool :=
  w.stop_ || !w.buffer_producer_.IsEmpty

/-- The locked section of `ThreadEntry` after the wait: swap the two buffers. -/
def AsynWorker.lockedSection (w : AsynWorker) : AsynWorker :=
  let r := w.buffer_producer_.Swap w.buffer_consumer_
  { w with buffer_producer_ := r.1, buffer_consumer_ := r.2, pc := .flushing }

/-- The statement `if (buffer_consumer_.ReadableSize() > 0) { callback_(...); Reset(); }`:
the callback receives the readable slice of the consumer buffer. -/
def AsynWorker.flushSection (w : AsynWorker) : AsynWorker :=
  if w.buffer_consumer_.ReadableSize > 0 then
    { w with
      delivered := w.delivered ++ [w.buffer_consumer_.readable]
      buffer_consumer_ := w.buffer_consumer_.Reset
      pc := .checking }
  else { w with pc := .checking }

/-- The statement `if (stop_ && buffer_producer_.IsEmpty()) return;`. -/
def AsynWorker.exitCheck (w : AsynWorker) : AsynWorker :=
  if w.stop_ && w.buffer_producer_.IsEmpty then { w with pc := .returned }
  else { w with pc := .waiting }

/-- One step of the consumer thread; `none` when it is blocked in the wait or
has already returned. -/
def AsynWorker.consumerStep (w : AsynWorker) : Option AsynWorker :=
  match w.pc with
  | .waiting => if w.consumerReady then some w.lockedSection else none
  | .flushing => some w.flushSection
  | .checking => some w.exitCheck
  | .returned => none

/-- What the threads around one worker can do next. -/
inductive Event where
  /-- A producer completes `Push(data, data.length)`. -/
  | push (data : List Char)
  /-- Some thread sets `stop_` in `Stop`. -/
  | stop
  /-- The consumer thread takes its next step. -/
  | consumer
  deriving DecidableEq, Repr

/-- One atomic step of the worker.  The result is `none` when the event cannot
happen in this state: a producer or the consumer is held by its wait, or the
pushed record does not fit in the producer buffer. -/
def AsynWorker.step (conf : JsonData) (w : AsynWorker) : Event → Option AsynWorker
  | .push data =>
    if w.pushReady data.length then
      match w.Push conf data with
      | (none, w1) => some w1
      | (some _, _) => none
    else none
  | .stop => some w.Stop
  | .consumer => w.consumerStep

/-- Run a schedule of events from a state. -/
def AsynWorker.run (conf : JsonData) : List Event → AsynWorker → Option AsynWorker
  | [], w => some w
  | e :: es, w =>
    match w.step conf e with
    | some w1 => AsynWorker.run conf es w1
    | none => none

/-- Let the consumer thread run alone for at most `fuel` steps. -/
def AsynWorker.drain : Nat → AsynWorker → AsynWorker
  | 0, w => w
  | fuel + 1, w =>
    match w.consumerStep with
    | some w1 => AsynWorker.drain fuel w1
    | none => w

/-- All bytes of a history, in order. -/
def bytesOf (h : List (List Char)) : List Char := h.flatten

/-- The records pushed by a schedule, in push order. -/
def pushesOf : List Event → List (List Char)
  | [] => []
  | .push data :: es => data :: pushesOf es
  | .stop :: es => pushesOf es
  | .consumer :: es => pushesOf es

/-- Invariant of the worker: both buffers satisfy the cursor invariant with a
capacity representable in `size_t` and a read cursor at 0, the consumer buffer
is reset except between the swap and the flush, the push history is the one
recorded in `hist`, and delivered bytes, consumer batch and producer batch make
up the pushed bytes in order. -/
structure AsynWorker.Inv (w : AsynWorker) (hist : List (List Char)) : Prop where
  pInv : w.buffer_producer_.CursorInv
  pCap : w.buffer_producer_.buffer_.length < SIZE_MOD
  pRead : w.buffer_producer_.read_pos_ = 0
  cInv : w.buffer_consumer_.CursorInv
  cCap : w.buffer_consumer_.buffer_.length < SIZE_MOD
  cRead : w.buffer_consumer_.read_pos_ = 0
  cReset : w.pc ≠ ConsumerPc.flushing → w.buffer_consumer_.write_pos_ = 0
  hist_eq : w.pushed = hist
  order : bytesOf w.delivered ++ w.buffer_consumer_.readable ++ w.buffer_producer_.readable
    = bytesOf w.pushed

/-- Bound on the number of consumer steps left before `ThreadEntry` returns,
once `stop_` is set and no more pushes arrive. -/
def AsynWorker.stepsToReturn (w : AsynWorker) : Nat :=
  match w.pc with
  | .waiting => 3
  | .flushing => if w.buffer_producer_.IsEmpty then 2 else 5
  | .checking => if w.buffer_producer_.IsEmpty then 1 else 4
  | .returned => 0

/-- State of affairs at the return of `ThreadEntry`: if the consumer has
returned, `stop_` is set and the producer buffer is empty. -/
def AsynWorker.ExitedClean (w : AsynWorker) : Prop :=
  w.pc = ConsumerPc.returned → w.stop_ = true ∧ w.buffer_producer_.IsEmpty = true

/-- A configuration used in examples: 4-byte initial capacity. -/
def confSmall : JsonData := { buffer_size := 4, threshold := 64, linear_growth := 4 }

/-- A configuration used in examples: 8-byte initial capacity, large threshold. -/
def confWide : JsonData := { buffer_size := 8, threshold := 1024, linear_growth := 8 }

/-- The buffer of `test_asynbuffer.cpp` after `Push("hello", 5)`, under `confSmall`. -/
def bufHello : Buffer := (Buffer.Push confSmall (Buffer.create confSmall) "hello".toList).2

/-- A schedule used in examples: two pushes, a swap, a push while the first
batch is being flushed, a second round of the loop, a stop while the consumer
holds the second batch. -/
def demoSchedule : List Event :=
  [.push "ab".toList, .push "cd".toList, .consumer, .push "ef".toList, .consumer, .consumer,
   .consumer, .stop]

/-- The worker state `demoSchedule` leads to under `confSmall` in safe mode. -/
def demoStopped : AsynWorker :=
  { asyn_type_ := .ASYNC_SAFE
    stop_ := true
    buffer_producer_ :=
      { write_pos_ := 0, read_pos_ := 0,
        buffer_ := "abcd".toList ++ List.replicate 8 (Char.ofNat 0) }
    buffer_consumer_ :=
      { write_pos_ := 2, read_pos_ := 0,
        buffer_ := "ef".toList ++ List.replicate 2 (Char.ofNat 0) }
    pc := .flushing
    delivered := ["abcd".toList]
    pushed := ["ab".toList, "cd".toList, "ef".toList] }

/-- The state one consumer step after `demoStopped`: the second batch flushed. -/
def demoFlushed : AsynWorker :=
  { demoStopped with
    buffer_consumer_ :=
      { write_pos_ := 0, read_pos_ := 0,
        buffer_ := "ef".toList ++ List.replicate 2 (Char.ofNat 0) }
    pc := .checking
    delivered := ["abcd".toList, "ef".toList] }

/-! ## The worker object and its thread handle -/

/-- Errors raised by the `std::thread` member: `join()` on a thread that is not
joinable throws `std::system_error`; an exception leaving a destructor ends the
process through `std::terminate`. -/
inductive ThreadFault where
  | system_error
  | terminate
  deriving DecidableEq, Repr

/-- An `AsynWorker` object: the worker state together with the state of its
`std::thread thread_` member (`joinable()` holds from construction until the
first `join()`). -/
structure AsynWorkerObj where
  state : AsynWorker
  thread_joinable : Bool
  deriving DecidableEq, Repr

/-- The constructor `AsynWorker::AsynWorker`, thread handle included. -/
def AsynWorkerObj.create (conf : JsonData) (type : AsynType) : AsynWorkerObj :=
  { state := AsynWorker.create conf type, thread_joinable := true }

/-- The method `AsynWorker::Stop` called while no producer is pushing:
`stop_ = true`, `notify_all`, then `thread_.join()`.  A joinable thread is joined
once the consumer has run to its return (at most 5 steps with `stop_` set); on a
thread that was already joined `join()` throws. -/
def AsynWorkerObj.Stop (o : AsynWorkerObj) : Option ThreadFault × AsynWorkerObj :=
  let w1 := o.state.Stop
  if o.thread_joinable then
    (none, { state := w1.drain 5, thread_joinable := false })
  else
    (some .system_error, { o with state := w1 })

/-- The destructor `AsynWorker::~AsynWorker`, which calls `Stop()`; an exception
escaping it terminates the process. -/
def AsynWorkerObj.destroy (o : AsynWorkerObj) : Option ThreadFault × AsynWorkerObj :=
  match o.Stop with
  | (none, o1) => (none, o1)
  | (some _, o1) => (some .terminate, o1)

/-- The configuration of the backpressure scenario: all three sizes 64. -/
def conf64 : JsonData := { buffer_size := 64, threshold := 64, linear_growth := 64 }

/-- A 128-byte record. -/
def record128 : List Char := List.replicate 128 (Char.ofNat 120)

/-- The safe-mode worker of `conf64` right after a stop request and the swap. -/
def demoSwapped64 : AsynWorker :=
  (AsynWorker.run conf64 [.stop, .consumer] (AsynWorker.create conf64 .ASYNC_SAFE)).getD
    (AsynWorker.create conf64 .ASYNC_SAFE)

/-- The worker invariant of the scenario `conf64`, safe mode, no push accepted
so far: both buffers are untouched 64-byte buffers and nothing was delivered. -/
structure AsynWorker.Untouched64 (w : AsynWorker) : Prop where
  safe : w.asyn_type_ = AsynType.ASYNC_SAFE
  pCap : w.buffer_producer_.buffer_.length = 64
  pWrite : w.buffer_producer_.write_pos_ = 0
  pRead : w.buffer_producer_.read_pos_ = 0
  cCap : w.buffer_consumer_.buffer_.length = 64
  cWrite : w.buffer_consumer_.write_pos_ = 0
  cRead : w.buffer_consumer_.read_pos_ = 0
  noPush : w.pushed = []
  noFlush : w.delivered = []

/-! ## Thread pool (`class ThreadPool`)

The queue mutex is rendered by atomicity: `enqueue` and the locked section of a
worker are single steps.  Callables are pure functions; the value type of the
futures is a parameter. -/

/-- A queued task, the closure around a `std::packaged_task`: `call` is the bound
callable `std::bind(f, args...)`, `id` names the shared state of its future. -/
structure PoolTask (α : Type) where
  id : Nat
  call : Unit → α

/-- Program points of one worker thread of the pool. -/
inductive PoolWorker (α : Type) where
  /-- Top of the loop: about to take the lock and wait on `condition`. -/
  | waiting
  /-- Lock released with `task` moved out of the queue: about to call `task()`. -/
  | running (task : PoolTask α)
  /-- The thread function has returned. -/
  | exited

/-- Data members of `class ThreadPool` (one program point per worker thread),
and three histories: the tasks accepted by `enqueue`, the tasks removed from the
queue, and the task runs with the value each stored in its future. -/
structure ThreadPool (α : Type) where
  workers : List (PoolWorker α)
  tasks : List (PoolTask α)
  stop : Bool
  accepted : List (PoolTask α)
  popped : List (PoolTask α)
  completed : List (PoolTask α × α)

/-- The exception `std::runtime_error("enqueue on stopped ThreadPool")`. -/
inductive PoolError where
  | runtime_error
  deriving DecidableEq, Repr

/-- The constructor `ThreadPool::ThreadPool(thread_size)`. -/
def ThreadPool.create {α : Type} (thread_size : Nat) : ThreadPool α :=
  { workers := List.replicate thread_size PoolWorker.waiting
    tasks := []
    stop := false
    accepted := []
    popped := []
    completed := [] }

/-- The method `ThreadPool::enqueue`: throws on a stopped pool, otherwise puts
the task at the back of the queue and returns the handle of its future. -/
def ThreadPool.enqueue {α : Type} (p : ThreadPool α) (f : Unit → α) :
    Except PoolError (ThreadPool α × Nat) :=
  let task : PoolTask α := { id := p.accepted.length, call := f }
  if p.stop then .error .runtime_error
  else .ok ({ p with tasks := p.tasks ++ [task], accepted := p.accepted ++ [task] }, task.id)

/-- One step of worker thread `i`: from `waiting`, the locked section (wait for
`stop || !tasks.empty()`, return if `stop && tasks.empty()`, else move the front
task out and pop it); from `running`, the call `task()`, which stores the value
in the future.  The result is `none` when the thread is held by the wait, has
exited, or does not exist. -/
def ThreadPool.workerStep {α : Type} (p : ThreadPool α) (i : Nat) : Option (ThreadPool α) :=
  match p.workers[i]? with
  | some .waiting =>
    if p.stop || !p.tasks.isEmpty then
      if p.stop && p.tasks.isEmpty then
        some { p with workers := p.workers.set i .exited }
      else
        match p.tasks with
        | t :: rest =>
          some { p with
            workers := p.workers.set i (.running t)
            tasks := rest
            popped := p.popped ++ [t] }
        | [] => none
    else none
  | some (.running t) =>
    some { p with
      workers := p.workers.set i .waiting
      completed := p.completed ++ [(t, t.call ())] }
  | some .exited => none
  | none => none

/-- The first statement of the destructor `ThreadPool::~ThreadPool`: `stop = true`. -/
def ThreadPool.shutdown {α : Type} (p : ThreadPool α) : ThreadPool α :=
  { p with stop := true }

/-- Whether a worker thread has returned. -/
def PoolWorker.isExited {α : Type} : PoolWorker α → Bool
  | .exited => true
  | _ => false

/-- The condition under which the destructor returns: `stop` is set and every
`worker.join()` has returned. -/
def ThreadPool.destroyed {α : Type} (p : ThreadPool α) : Bool :=
  p.stop && p.workers.all PoolWorker.isExited

/-- What the threads around one pool can do next. -/
inductive PoolEvent (α : Type) where
  /-- Some thread calls `enqueue` with this bound callable. -/
  | enqueue (f : Unit → α)
  /-- Worker thread `i` takes its next step. -/
  | worker (i : Nat)
  /-- The destructor starts: `stop = true`. -/
  | destroy

/-- One atomic step of the pool.  A rejected `enqueue` throws to its caller and
leaves the pool as it was. -/
def ThreadPool.step {α : Type} (p : ThreadPool α) : PoolEvent α → Option (ThreadPool α)
  | .enqueue f =>
    match p.enqueue f with
    | .ok (p1, _) => some p1
    | .error _ => some p
  | .worker i => p.workerStep i
  | .destroy => some p.shutdown

/-- Run a schedule of pool events from a state. -/
def ThreadPool.run {α : Type} : List (PoolEvent α) → ThreadPool α → Option (ThreadPool α)
  | [], p => some p
  | e :: es, p =>
    match p.step e with
    | some p1 => ThreadPool.run es p1
    | none => none

/-- The tasks held by worker threads that have popped but not yet run them. -/
def runningTasks {α : Type} : List (PoolWorker α) → List (PoolTask α)
  | [] => []
  | .running t :: ws => t :: runningTasks ws
  | .waiting :: ws => runningTasks ws
  | .exited :: ws => runningTasks ws

/-- Invariant of the pool: the accepted tasks are the popped ones followed by
the queue; future handles are numbered in acceptance order; every popped task is
either held by a worker or completed, once; a completed run stored the value of
its callable; and once a worker has exited, `stop` is set and the queue is empty. -/
structure ThreadPool.Inv {α : Type} (p : ThreadPool α) (n : Nat) : Prop where
  size : p.workers.length = n
  fifo : p.accepted = p.popped ++ p.tasks
  ids : p.accepted.map PoolTask.id = List.range p.accepted.length
  once : List.Perm p.popped (p.completed.map Prod.fst ++ runningTasks p.workers)
  value : ∀ x ∈ p.completed, x.2 = x.1.call ()
  exit : (∃ w ∈ p.workers, w.isExited = true) → p.stop = true ∧ p.tasks = []

/-- The pool of `test_threadpool.cpp`: 4 workers, the two submissions made. -/
def poolTwoTasks : List (PoolEvent Int) :=
  [.enqueue (fun _ => 1 + 2), .enqueue (fun _ => 3 * 4)]

/-- The test's pool after both submissions and one pop by worker 1. -/
def poolAfterPop : ThreadPool Int :=
  (ThreadPool.run (poolTwoTasks ++ [PoolEvent.worker 1]) (ThreadPool.create 4)).getD
    (ThreadPool.create 4)

/-- A schedule that runs both tasks of the test on two workers, then destroys
the pool and lets the 4 workers exit. -/
def poolTestSchedule : List (PoolEvent Int) :=
  poolTwoTasks ++ [.worker 0, .worker 1, .worker 1, .worker 0, .destroy,
    .worker 0, .worker 1, .worker 2, .worker 3]

/-- The test's pool at the end of `poolTestSchedule`. -/
def poolTestFinal : ThreadPool Int :=
  (ThreadPool.run poolTestSchedule (ThreadPool.create 4)).getD (ThreadPool.create 4)

/-! ## Log levels and records (`LogLevel`, `LogMessage`) -/

/-- The enumeration `LogLevel::value`. -/
inductive LogLevel where
  | DEBUG
  | INFO
  | WARN
  | ERROR
  | FATAL
  deriving DecidableEq, Repr

/-- The function `LogLevel::ToString`. -/
def LogLevel.ToString : LogLevel → List Char
  | .DEBUG => "DEBUG".toList
  | .INFO => "INFO ".toList
  | .WARN => "WARN ".toList
  | .ERROR => "ERROR".toList
  | .FATAL => "FATAL".toList

/-- The fields of `struct tm` read by the format `%H:%M:%S` and by
`RollFileFlush::CreateFilename` (`tm_year` counts from 1900, `tm_mon` from 0). -/
structure Tm where
  tm_hour : Nat
  tm_min : Nat
  tm_sec : Nat
  tm_mday : Nat := 1
  tm_mon : Nat := 0
  tm_year : Nat := 70
  deriving DecidableEq, Repr

/-- A number printed in decimal, as by `std::to_string` on a `size_t`. -/
def to_string (n : Nat) : List Char := Nat.toDigits 10 n

/-- A number printed as by the conversion `%02d`. -/
def twoDigits (n : Nat) : List Char :=
  if n < 10 then Char.ofNat 48 :: Nat.toDigits 10 n else Nat.toDigits 10 n

/-- The call `strftime(buf, sizeof(buf), "%H:%M:%S", &t)`. -/
def strftimeHMS (t : Tm) : List Char :=
  twoDigits t.tm_hour ++ ":".toList ++ twoDigits t.tm_min ++ ":".toList ++ twoDigits t.tm_sec

/-- What the platform supplies to `LogMessage::format`: the conversion
`localtime_r` of the process, and the text `operator<<` prints for a thread id. -/
structure Runtime where
  localtime : Nat → Tm
  showTid : Nat → List Char

/-- What one log call reads from its environment: the clock (`Util::Date::Now()`)
and the identity of the calling thread (`std::this_thread::get_id()`). -/
structure CallContext where
  now : Nat
  tid : Nat
  deriving DecidableEq, Repr

/-- Data members of `class LogMessage`. -/
structure LogMessage where
  line_ : Nat
  ctime_ : Nat
  file_name_ : List Char
  name_ : List Char
  payload_ : List Char
  tid_ : Nat
  level_ : LogLevel
  deriving DecidableEq, Repr

/-- The constructor `LogMessage::LogMessage(level, filename, line, name, payload)`. -/
def LogMessage.create (cx : CallContext) (level : LogLevel) (filename : List Char) (line : Nat)
    (name payload : List Char) : LogMessage :=
  { name_ := name
    file_name_ := filename
    line_ := line
    level_ := level
    payload_ := payload
    ctime_ := cx.now
    tid_ := cx.tid }

/-- The method `LogMessage::format`. -/
def LogMessage.format (rt : Runtime) (m : LogMessage) : List Char :=
  let t := rt.localtime m.ctime_
  let buf := strftimeHMS t
  let tmp1 := '[' :: buf ++ "][".toList
  let tmp2 := "][".toList ++ LogLevel.ToString m.level_ ++ "][".toList ++ m.name_ ++ "][".toList
    ++ m.file_name_ ++ ":".toList ++ to_string m.line_ ++ "]\t".toList ++ m.payload_
    ++ "\n".toList
  tmp1 ++ rt.showTid m.tid_ ++ tmp2

/-- The conversion of a `char*` to `std::string`: the bytes before the first
zero byte. -/
def cString (ret : List Char) : List Char := ret.takeWhile (fun c => c != Char.ofNat 0)

/-! ## Logger facade (`class AsynLogger`) -/

/-- Data members of `class AsynLogger` read by the log calls. -/
structure AsynLogger where
  logger_name_ : List Char
  asyntype_ : AsynType
  deriving DecidableEq, Repr

/-- The record a log call formats: `msg.format()` for the message built from the
logger name, the call's level and origin, and the rendered text. -/
def AsynLogger.record (rt : Runtime) (lg : AsynLogger) (cx : CallContext) (level : LogLevel)
    (file : List Char) (line : Nat) (ret : List Char) : List Char :=
  (LogMessage.create cx level file line lg.logger_name_ (cString ret)).format rt

/-- What `AsynLogger::serialize` leaves behind: the formatted record `data`, the
global pool `tp` after the call, the future on which `ret.get()` blocked (if a
task was accepted), and whether the closed-pool message was printed. -/
structure Serialized (β : Type) where
  data : List Char
  tp : ThreadPool β
  awaited : Option Nat
  reported : Bool

/-- The method `AsynLogger::serialize`.  The function `ship` stands for
`start_log_backup`; `ret` is the text rendered by `vasprintf`.  An exception
that the `catch` clause does not handle would be the `error` result. -/
def AsynLogger.serialize {β : Type} (rt : Runtime) (ship : List Char → β) (lg : AsynLogger)
    (tp : ThreadPool β) (cx : CallContext) (level : LogLevel) (file : List Char) (line : Nat)
    (ret : List Char) : Except PoolError (Serialized β) :=
  let msg := LogMessage.create cx level file line lg.logger_name_ (cString ret)
  let data := msg.format rt
  if level = LogLevel.FATAL ∨ level = LogLevel.ERROR then
    match tp.enqueue (fun _ => ship data) with
    | .ok (tp1, fut) => .ok { data := data, tp := tp1, awaited := some fut, reported := false }
    | .error .runtime_error => .ok { data := data, tp := tp, awaited := none, reported := true }
  else .ok { data := data, tp := tp, awaited := none, reported := false }

/-- Whether `ret.get()` in `serialize` can return in pool state `now`: the
awaited future has been fulfilled by a run of its task. -/
def Serialized.mayReturn {β : Type} (s : Serialized β) (now : ThreadPool β) : Bool :=
  match s.awaited with
  | none => true
  | some fut => now.completed.any (fun x => x.1.id == fut)

/-- What one log call leaves behind: the outcome of `serialize`, and the
arguments of the calls `worker_->Push` it made, in order. -/
structure LogCall (β : Type) where
  ser : Serialized β
  pushes : List (List Char)

/-- The common body of the five log methods after `vasprintf`: `serialize` with
the method's level, then `worker_->Push(single_log_data)`. -/
def AsynLogger.logAt {β : Type} (level : LogLevel) (rt : Runtime) (ship : List Char → β)
    (lg : AsynLogger) (tp : ThreadPool β) (cx : CallContext) (file : List Char) (line : Nat)
    (ret : List Char) : Except PoolError (LogCall β) :=
  match lg.serialize rt ship tp cx level file line ret with
  | .ok s => .ok { ser := s, pushes := [s.data] }
  | .error e => .error e

/-- The method `AsynLogger::Info`. -/
def AsynLogger.Info {β : Type} (rt : Runtime) (ship : List Char → β) (lg : AsynLogger)
    (tp : ThreadPool β) (cx : CallContext) (file : List Char) (line : Nat) (ret : List Char) :
    Except PoolError (LogCall β) :=
  AsynLogger.logAt LogLevel.INFO rt ship lg tp cx file line ret

/-- The method `AsynLogger::Error`. -/
def AsynLogger.Error {β : Type} (rt : Runtime) (ship : List Char → β) (lg : AsynLogger)
    (tp : ThreadPool β) (cx : CallContext) (file : List Char) (line : Nat) (ret : List Char) :
    Except PoolError (LogCall β) :=
  AsynLogger.logAt LogLevel.ERROR rt ship lg tp cx file line ret

/-- The method `AsynLogger::Warn`. -/
def AsynLogger.Warn {β : Type} (rt : Runtime) (ship : List Char → β) (lg : AsynLogger)
    (tp : ThreadPool β) (cx : CallContext) (file : List Char) (line : Nat) (ret : List Char) :
    Except PoolError (LogCall β) :=
  AsynLogger.logAt LogLevel.WARN rt ship lg tp cx file line ret

/-- The method `AsynLogger::Fatal`. -/
def AsynLogger.Fatal {β : Type} (rt : Runtime) (ship : List Char → β) (lg : AsynLogger)
    (tp : ThreadPool β) (cx : CallContext) (file : List Char) (line : Nat) (ret : List Char) :
    Except PoolError (LogCall β) :=
  AsynLogger.logAt LogLevel.FATAL rt ship lg tp cx file line ret

/-- The method `AsynLogger::Debug`. -/
def AsynLogger.Debug {β : Type} (rt : Runtime) (ship : List Char → β) (lg : AsynLogger)
    (tp : ThreadPool β) (cx : CallContext) (file : List Char) (line : Nat) (ret : List Char) :
    Except PoolError (LogCall β) :=
  AsynLogger.logAt LogLevel.DEBUG rt ship lg tp cx file line ret

/-- The log method of a level. -/
def AsynLogger.call {β : Type} (level : LogLevel) (rt : Runtime) (ship : List Char → β)
    (lg : AsynLogger) (tp : ThreadPool β) (cx : CallContext) (file : List Char) (line : Nat)
    (ret : List Char) : Except PoolError (LogCall β) :=
  match level with
  | .DEBUG => lg.Debug rt ship tp cx file line ret
  | .INFO => lg.Info rt ship tp cx file line ret
  | .WARN => lg.Warn rt ship tp cx file line ret
  | .ERROR => lg.Error rt ship tp cx file line ret
  | .FATAL => lg.Fatal rt ship tp cx file line ret

/-- A platform used in examples: the clock value is a number of seconds since
midnight, thread ids are printed in decimal. -/
def demoRuntime : Runtime :=
  { localtime := fun c => { tm_hour := c / 3600 % 24, tm_min := c / 60 % 60, tm_sec := c % 60 }
    showTid := fun n => to_string n }

/-- The message of `test_logmessage.cpp`, created at 23:56:27 by thread 140677926471488. -/
def demoMessage : LogMessage :=
  LogMessage.create { now := 86187, tid := 140677926471488 } LogLevel.INFO
    "test_logmessage.cpp".toList 8 "log".toList "This is a test log message".toList

/-- A logger used in examples. -/
def demoLogger : AsynLogger := { logger_name_ := "L1".toList, asyntype_ := .ASYNC_SAFE }

/-! ## Sinks (`LogFlush`, `RollFileFlush`) and the fan-out callback

Whether a call of `fopen` succeeds is given by an oracle; `fwrite` on an open
file appends all its bytes; when written bytes reach the disk (`flush_log`) is
not modelled. -/

/-- The loop of `AsynLogger::RealFlush` from sink number `i` on: each non-null
sink gets `Flush(data)`.  The result is the sinks after the calls and the calls
made, in order, as pairs of sink number and bytes passed. -/
def flushSinks {σ : Type} (flush : σ → List Char → σ) (data : List Char) :
    Nat → List (Option σ) → List (Option σ) × List (Nat × List Char)
  | _, [] => ([], [])
  | i, none :: es =>
    let r := flushSinks flush data (i + 1) es
    (none :: r.1, r.2)
  | i, some e :: es =>
    let r := flushSinks flush data (i + 1) es
    (some (flush e data) :: r.1, (i, data) :: r.2)

/-- The method `AsynLogger::RealFlush` on the sink list `flushes_` (a null
handle is `none`), where `flush` is the virtual method `LogFlush::Flush`: the
sinks after the call, the `Flush` calls made, and the buffer as it is left. -/
def AsynLogger.RealFlush {σ : Type} (flush : σ → List Char → σ) (flushes_ : List (Option σ))
    (buffer : Buffer) : List (Option σ) × List (Nat × List Char) × Buffer :=
  if flushes_.isEmpty then (flushes_, [], buffer)
  else
    let r := flushSinks flush (buffer.Begin.take buffer.ReadableSize) 0 flushes_
    (r.1, r.2, buffer)

/-- A file opened by a rolling sink: its name and the records written to it
through that `FILE*`, in order. -/
structure RolledFile where
  name : List Char
  records : List (List Char)
  deriving DecidableEq, Repr

/-- The number of bytes written to a file. -/
def RolledFile.size (f : RolledFile) : Nat := (f.records.map List.length).sum

/-- Data members of `class RollFileFlush`; `fs_` is the number of the open file
in `files` (`none` for `NULL`), and `files` is the history of the files the sink
has opened, in order. -/
structure RollFileFlush where
  cnt_ : Nat
  cur_size_ : Nat
  max_size_ : Nat
  basename_ : List Char
  fs_ : Option Nat
  files : List RolledFile
  deriving DecidableEq, Repr

/-- The constructor `RollFileFlush::RollFileFlush(filename, max_size)`. -/
def RollFileFlush.create (filename : List Char) (max_size : Nat) : RollFileFlush :=
  { cnt_ := 1, cur_size_ := 0, max_size_ := max_size, basename_ := filename, fs_ := none,
    files := [] }

/-- The number a string of decimal digits stands for. -/
def ofDigits (l : List Char) : Nat := l.foldl (fun acc c => 10 * acc + (c.toNat - 48)) 0

/-- The date and time digits `CreateFilename` puts in a name. -/
def dateDigits (t : Tm) : List Char :=
  to_string (t.tm_year + 1900) ++ to_string (t.tm_mon + 1) ++ to_string t.tm_mday
    ++ to_string (t.tm_hour + 1) ++ to_string (t.tm_min + 1) ++ to_string (t.tm_sec + 1)

/-- The name `CreateFilename` builds from the base name, the local time and the
value of `cnt_`. -/
def rollName (basename : List Char) (t : Tm) (cnt : Nat) : List Char :=
  basename ++ dateDigits t ++ ('-' :: to_string cnt) ++ ".log".toList

/-- The method `RollFileFlush::CreateFilename` at clock value `now`: the name,
and the sink with `cnt_` incremented. -/
def RollFileFlush.CreateFilename (rt : Runtime) (now : Nat) (s : RollFileFlush) :
    List Char × RollFileFlush :=
  (rollName s.basename_ (rt.localtime now) s.cnt_, { s with cnt_ := addSz s.cnt_ 1 })

/-- The method `RollFileFlush::InitLogFile` at clock value `now`; `fopen now name`
tells whether the call `fopen(name, "ab")` made then succeeds.  When it fails
the method prints, and `fs_` stays null. -/
def RollFileFlush.InitLogFile (rt : Runtime) (fopen : Nat → List Char → Bool) (now : Nat)
    (s : RollFileFlush) : RollFileFlush :=
  if s.fs_ = none ∨ s.cur_size_ ≥ s.max_size_ then
    let r := s.CreateFilename rt now
    if fopen now r.1 then
      { r.2 with
        fs_ := some r.2.files.length
        files := r.2.files ++ [{ name := r.1, records := [] }]
        cur_size_ := 0 }
    else
      { r.2 with
        fs_ := none
        cur_size_ := 0 }
  else s

/-- The call `fwrite(data, 1, len, fs)` on the file with number `i`. -/
def fwriteAt : List RolledFile → Nat → List Char → List RolledFile
  | [], _, _ => []
  | f :: fs, 0, data => { f with records := f.records ++ [data] } :: fs
  | f :: fs, i + 1, data => f :: fwriteAt fs i data

/-- The method `RollFileFlush::Flush` at clock value `now`.  When `fs_` is null
after `InitLogFile`, the call `fwrite(data, 1, len, fs_)` is made on a null
stream: the call is flagged `nullStream`, and the sink is given as
`InitLogFile` left it. -/
def RollFileFlush.Flush (rt : Runtime) (fopen : Nat → List Char → Bool) (now : Nat)
    (s : RollFileFlush) (data : List Char) : Option Fault × RollFileFlush :=
  let s1 := s.InitLogFile rt fopen now
  match s1.fs_ with
  | some i =>
    (none,
      { s1 with
        files := fwriteAt s1.files i data
        cur_size_ := addSz s1.cur_size_ data.length })
  | none => (some .nullStream, s1)

/-- A sequence of `Flush` calls, each with its clock value and its bytes, up to
the first call that is flagged. -/
def RollFileFlush.flushAll (rt : Runtime) (fopen : Nat → List Char → Bool)
    (s : RollFileFlush) : List (Nat × List Char) → Option Fault × RollFileFlush
  | [] => (none, s)
  | c :: cs =>
    match s.Flush rt fopen c.1 c.2 with
    | (none, s1) => RollFileFlush.flushAll rt fopen s1 cs
    | (some f, s1) => (some f, s1)

/-- Invariant of a rolling sink with base name `base`, as long as no `fopen` has
failed: the counter is one more than the number of files opened, the open file
is the last one opened, and the file number `i` was named with counter value
`i + 1`. -/
structure RollFileFlush.Inv (rt : Runtime) (base : List Char) (s : RollFileFlush) : Prop where
  base_eq : s.basename_ = base
  cnt_eq : s.cnt_ = (s.files.length + 1) % SIZE_MOD
  open_last : s.fs_ = if s.files.length = 0 then none else some (s.files.length - 1)
  names : ∀ (i : Nat) (f : RolledFile), s.files[i]? = some f →
    ∃ now, f.name = rollName base (rt.localtime now) ((i + 1) % SIZE_MOD)

/-- Size accounting of a rolling sink: `cur_size_` is the size of the open file,
and in every file the records before the last one stay below `max_size_`. -/
structure RollFileFlush.SizeInv (s : RollFileFlush) : Prop where
  cur : ∀ f, s.files.getLast? = some f → s.cur_size_ = f.size
  below : ∀ f ∈ s.files, ∀ (init : List (List Char)) (last : List Char),
    f.records = init ++ [last] → (init.map List.length).sum < s.max_size_

/-- A file system in which every `fopen` succeeds. -/
def alwaysOpens : Nat → List Char → Bool := fun _ _ => true

/-- The test's rolling sink: base name `jzq/`, `max_size` 1000. -/
def rollDemo : RollFileFlush := RollFileFlush.create "jzq/".toList 1000

/-- Three `Flush` calls on a sink with `max_size` 10: a 12-byte record, then
two short ones. -/
def rollCalls : List (Nat × List Char) :=
  [(86187, "0123456789ab".toList), (86188, "x".toList), (86189, "y".toList)]

/-- The sink with base name `jzq/` and `max_size` 10 after `rollCalls`, every
`fopen` succeeding. -/
def rollAfterCalls : RollFileFlush :=
  (RollFileFlush.flushAll demoRuntime alwaysOpens (RollFileFlush.create "jzq/".toList 10)
    rollCalls).2

/-- The test's record: 10,000 times the letter `a`. -/
def record10000 : List Char := List.replicate 10000 (Char.ofNat 97)

/-! ## Remote backup client (`start_log_backup`) -/

/-- What one run of `start_log_backup` did with its socket: the number of
`connect` calls, the arguments of the `write` calls, the number of `close` calls. -/
structure BackupRun where
  attempts : Nat
  writes : List (List Char)
  closes : Nat
  deriving DecidableEq, Repr

/-- The loop `while (connect(...) == -1) { retry--; if (retry <= 0) give up }`
of `start_log_backup`, entered with `made` attempts behind it and the counter at
`retry`; `connect k` tells whether attempt number `k` (from 0) succeeds.  The
result is the number of attempts made and whether the socket is connected. -/
def connectLoop (connect : Nat → Bool) (made : Nat) : Nat → Nat × Bool
  | 0 => if connect made then (made + 1, true) else (made + 1, false)
  | r + 1 =>
    if connect made then (made + 1, true)
    else if r ≤ 0 then (made + 1, false)
    else connectLoop connect (made + 1) r

/-- The function `start_log_backup(msg)`: `retry = 5`, the connect loop, then
either `close` and return, or `write(msg)` and `close`. -/
def start_log_backup (connect : Nat → Bool) (msg : List Char) : BackupRun :=
  let r := connectLoop connect 0 5
  if r.2 then { attempts := r.1, writes := [msg], closes := 1 }
  else { attempts := r.1, writes := [], closes := 1 }

/-! ## Logger registry (`class LoggerManager`) -/

/-- The assignment `m[k] = v` on a `std::unordered_map`, kept as an association
list with one entry per key. -/
def mapAssign {V : Type} : List (List Char × V) → List Char → V → List (List Char × V)
  | [], k, v => [(k, v)]
  | (k1, v1) :: rest, k, v =>
    if k1 = k then (k, v) :: rest else (k1, v1) :: mapAssign rest k v

/-- The lookup `m.find(k)` on a `std::unordered_map`. -/
def mapFind {V : Type} : List (List Char × V) → List Char → Option V
  | [], _ => none
  | (k1, v1) :: rest, k => if k1 = k then some v1 else mapFind rest k

/-- Data members of `class LoggerManager` (a logger handle is the logger). -/
structure LoggerManager where
  default_logger_ : AsynLogger
  loggers_ : List (List Char × AsynLogger)
  deriving DecidableEq, Repr

/-- The method `AsynLogger::Name`. -/
def AsynLogger.Name (lg : AsynLogger) : List Char := lg.logger_name_

/-- The constructor `LoggerManager::LoggerManager`: the default logger, built
by a `LoggerBuilder` named `default_logger` (safe mode), is registered. -/
def LoggerManager.create : LoggerManager :=
  { default_logger_ := { logger_name_ := "default_logger".toList, asyntype_ := .ASYNC_SAFE }
    loggers_ := mapAssign [] "default_logger".toList
      { logger_name_ := "default_logger".toList, asyntype_ := .ASYNC_SAFE } }

/-- The method `LoggerManager::LoggerExists`. -/
def LoggerManager.LoggerExists (r : LoggerManager) (name : List Char) : Bool :=
  (mapFind r.loggers_ name).isSome

/-- The method `LoggerManager::AddLogger`. -/
def LoggerManager.AddLogger (r : LoggerManager) (logger : AsynLogger) : LoggerManager :=
  if r.LoggerExists logger.Name then r
  else { r with loggers_ := mapAssign r.loggers_ logger.Name logger }

/-- The method `LoggerManager::GetLogger`; `none` is the null handle. -/
def LoggerManager.GetLogger (r : LoggerManager) (name : List Char) : Option AsynLogger :=
  mapFind r.loggers_ name

/-- A sequence of `AddLogger` calls. -/
def LoggerManager.addAll (r : LoggerManager) : List AsynLogger → LoggerManager
  | [] => r
  | l :: ls => LoggerManager.addAll (r.AddLogger l) ls

/-- The logger of `test_manager.cpp`. -/
def testLogger : AsynLogger := { logger_name_ := "test_logger".toList, asyntype_ := .ASYNC_SAFE }

/-! ## Configuration loader (`JsonData::JsonData`)

The JSON library is modelled by what the loader uses of it: a member that is
missing from an object reads as the null value, and the conversions `asInt64`,
`asInt` and `asString` of the null value are 0, 0 and the empty string. -/

/-- A member value of the configuration object. -/
inductive JsonScalar where
  | null
  | int (v : Int)
  | str (s : List Char)
  deriving DecidableEq, Repr

/-- The exception a conversion throws on a value of the wrong kind or range. -/
inductive JsonError where
  | logic_error
  deriving DecidableEq, Repr

/-- The member access `root[key]`. -/
def jsonMember (root : List (List Char × JsonScalar)) (key : List Char) : JsonScalar :=
  (mapFind root key).getD JsonScalar.null

/-- The conversion `Json::Value::asInt64`. -/
def JsonScalar.asInt64 : JsonScalar → Except JsonError Int
  | .null => .ok 0
  | .int v => if -9223372036854775808 ≤ v ∧ v ≤ 9223372036854775807 then .ok v
    else .error .logic_error
  | .str _ => .error .logic_error

/-- The conversion `Json::Value::asInt`. -/
def JsonScalar.asInt : JsonScalar → Except JsonError Int
  | .null => .ok 0
  | .int v => if -2147483648 ≤ v ∧ v ≤ 2147483647 then .ok v else .error .logic_error
  | .str _ => .error .logic_error

/-- The conversion `Json::Value::asString`. -/
def JsonScalar.asString : JsonScalar → Except JsonError (List Char)
  | .null => .ok []
  | .int v => .ok (toString v).toList
  | .str s => .ok s

/-- What the loader finds at the configuration path. -/
inductive ConfigFile where
  /-- The call `GetContent` fails. -/
  | unreadable
  /-- The content is not JSON: `parse` fails, and `root` holds the members the
  parser stored before the error (none when `root` stays the null value). -/
  | unparsable (root : List (List Char × JsonScalar))
  /-- The content is a JSON object with these members. -/
  | object (members : List (List Char × JsonScalar))
  deriving DecidableEq, Repr

/-- What the constructor leaves behind: whether an error message was printed
(`read config.json error` by the constructor, `unserialize json error` by
`JsonUtil::UnSerialize`), the data members (`none` when they were left
uninitialised or the constructor threw), and the exception thrown, if any. -/
structure LoadOutcome where
  reported : Bool
  data : Option JsonData
  thrown : Option JsonError
  deriving DecidableEq, Repr

/-- The assignments of `JsonData::JsonData` from the parsed `root`. -/
def JsonData.fromRoot (root : List (List Char × JsonScalar)) : Except JsonError JsonData := do
  let buffer_size ← (jsonMember root "buffer_size".toList).asInt64
  let threshold ← (jsonMember root "threshold".toList).asInt64
  let linear_growth ← (jsonMember root "linear_growth".toList).asInt64
  let flush_log ← (jsonMember root "flush_log".toList).asInt64
  let backup_addr ← (jsonMember root "backup_addr".toList).asString
  let backup_port ← (jsonMember root "backup_port".toList).asInt
  let thread_count ← (jsonMember root "thread_count".toList).asInt
  pure
    { buffer_size := buffer_size
      threshold := (threshold % (SIZE_MOD : Int)).toNat
      linear_growth := (linear_growth % (SIZE_MOD : Int)).toNat
      flush_log := (flush_log % (SIZE_MOD : Int)).toNat
      backup_addr := backup_addr
      backup_port := (backup_port % 65536).toNat
      thread_count := (thread_count % (SIZE_MOD : Int)).toNat }

/-- The constructor `JsonData::JsonData`.  When `GetContent` fails it prints and
returns.  Otherwise it calls `JsonUtil::UnSerialize`, which prints when `parse`
fails and whose result the constructor ignores, and assigns the data members
from `root`. -/
def JsonData.load : ConfigFile → LoadOutcome
  | .unreadable => { reported := true, data := none, thrown := none }
  | .unparsable root =>
    match JsonData.fromRoot root with
    | .ok d => { reported := true, data := some d, thrown := none }
    | .error e => { reported := true, data := none, thrown := some e }
  | .object members =>
    match JsonData.fromRoot members with
    | .ok d => { reported := false, data := some d, thrown := none }
    | .error e => { reported := false, data := none, thrown := some e }

/-- The seven configuration keys. -/
def configKeys : List (List Char) :=
  ["buffer_size".toList, "threshold".toList, "linear_growth".toList, "flush_log".toList,
   "backup_addr".toList, "backup_port".toList, "thread_count".toList]

/-- A configuration object in which `thread_count` is missing. -/
def configNoThreads : List (List Char × JsonScalar) :=
  [("buffer_size".toList, .int 4096), ("threshold".toList, .int 65536),
   ("linear_growth".toList, .int 4096), ("flush_log".toList, .int 2),
   ("backup_addr".toList, .str "127.0.0.1".toList), ("backup_port".toList, .int 8080)]

/-! ## The second variant of the consumer loop, and batches -/

/-- One step of the consumer thread in the variant `src/src/AsynWorker.hpp` of
`ThreadEntry`, where the wait on `cond_consumer_` stands inside
`if (buffer_producer_.IsEmpty() && stop_)`; the rest of the loop is the same. -/
def AsynWorker.consumerStepB (w : AsynWorker) : Option AsynWorker :=
  match w.pc with
  | .waiting =>
    if w.buffer_producer_.IsEmpty && w.stop_ then
      if w.consumerReady then some w.lockedSection else none
    else some w.lockedSection
  | .flushing => some w.flushSection
  | .checking => some w.exitCheck
  | .returned => none

/-- Let the consumer thread of the second variant run alone for at most `fuel`
steps, counting the swaps it performs. -/
def AsynWorker.drainB : Nat → AsynWorker → Nat → AsynWorker × Nat
  | 0, w, swaps => (w, swaps)
  | fuel + 1, w, swaps =>
    match w.consumerStepB with
    | some w1 => AsynWorker.drainB fuel w1 (if w.pc = ConsumerPc.waiting then swaps + 1 else swaps)
    | none => (w, swaps)

/-- The records pushed since the last swap, after event `e` has taken place in
state `w`: a push adds its record, the swap starts a new batch. -/
def AsynWorker.nextBatch (w : AsynWorker) (e : Event) (b : List (List Char)) :
    List (List Char) :=
  match e with
  | .push d => b ++ [d]
  | .consumer => if w.pc = ConsumerPc.waiting then [] else b
  | .stop => b

/-- Run a schedule while keeping the records pushed since the last swap (since
construction, before the first swap). -/
def AsynWorker.runBatch (conf : JsonData) :
    List Event → AsynWorker → List (List Char) → Option (AsynWorker × List (List Char))
  | [], w, b => some (w, b)
  | e :: es, w, b =>
    match w.step conf e with
    | none => none
    | some w1 => AsynWorker.runBatch conf es w1 (w.nextBatch e b)

/-- Whether a resize of the producer buffer from this state computes its new
size without wrapping around in `size_t`. -/
def AsynWorker.growthInRange (conf : JsonData) (w : AsynWorker) : Bool :=
  decide (3 * w.buffer_producer_.capacity < SIZE_MOD ∧
    w.buffer_producer_.capacity + conf.linear_growth < SIZE_MOD)

/-- Whether every state a schedule goes through satisfies `growthInRange`. -/
def AsynWorker.runInRange (conf : JsonData) : List Event → AsynWorker → Bool
  | [], _ => true
  | e :: es, w =>
    w.growthInRange conf &&
      (match w.step conf e with
        | some w1 => AsynWorker.runInRange conf es w1
        | none => true)

/-- A schedule that ends with the consumer back at the top of its loop, two
records pushed since the last swap. -/
def demoBatchSchedule : List Event :=
  [.push "ab".toList, .consumer, .push "cd".toList, .consumer, .push "ef".toList, .consumer]

/-- The state and batch `demoBatchSchedule` leads to under `confSmall`. -/
def demoBatchState : AsynWorker × List (List Char) :=
  (AsynWorker.runBatch confSmall demoBatchSchedule (AsynWorker.create confSmall .ASYNC_SAFE)
    []).getD (AsynWorker.create confSmall .ASYNC_SAFE, [])

/-! ## Backup server (`TCP_Server::service`, `threadRoutine`) -/

/-- The size of the receive buffer `char buf[1024]`. -/
def BUF_SIZE : Nat := 1024

/-- What `read(sock, buf, sizeof(buf))` returns: -1, 0, or the number of bytes
received (at most `sizeof(buf)`), given here by the bytes themselves. -/
inductive ReadResult where
  | error
  | eof
  | bytes (data : List Char)
  deriving DecidableEq, Repr

/-- The method `TCP_Server::service`.  The list `stack` is the content of `buf`
before the read.  The result is the fault raised (the store `buf[r_ret] = 0`
outside the array) and the string passed to `func_`, if it is called; after an
out-of-bounds store the string is built as if the store had landed behind the
array. -/
def TCP_Server.service (stack : List Char) (r : ReadResult) (client_info : List Char) :
    Option Fault × Option (List Char) :=
  match r with
  | .error => (none, none)
  | .eof => (none, none)
  | .bytes data =>
    if 0 < data.length then
      let buf := data ++ stack.drop data.length
      if data.length < buf.length then
        let buf1 := buf.set data.length (Char.ofNat 0)
        (none, some (client_info ++ cString buf1))
      else
        (some .outOfBounds, some (client_info ++ cString (buf ++ [Char.ofNat 0])))
    else (none, none)

/-- The function `TCP_Server::threadRoutine` for one connection: the client
information is `client_ip:client_port`. -/
def TCP_Server.threadRoutine (stack : List Char) (r : ReadResult) (client_ip : List Char)
    (client_port : Nat) : Option Fault × Option (List Char) :=
  let client_info := client_ip ++ ":".toList ++ to_string client_port
  TCP_Server.service stack r client_info

/-- A receive buffer full of the letter `x` before the read. -/
def demoStack : List Char := List.replicate 1024 (Char.ofNat 120)

/-- A message of 1024 bytes, the size of the receive buffer. -/
def record1024 : List Char := List.replicate 1024 (Char.ofNat 97)

/-! ## Lemmas on the vector operations -/

theorem vresize_length (v : List Char) (n : Nat) : (vresize v n).length = n := by
  simp only [vresize, List.length_append, List.length_take, List.length_replicate]
  omega

theorem vresize_take (v : List Char) (n k : Nat) (hk : k ≤ v.length) (hn : k ≤ n) :
    (vresize v n).take k = v.take k := by
  have h1 : k ≤ (v.take n).length := by
    simp only [List.length_take]; omega
  simp only [vresize]
  rw [List.take_append_of_le_length h1, List.take_take]
  congr 1
  omega

theorem vcopy_length (v : List Char) (pos : Nat) (data : List Char) :
    (vcopy v pos data).length = v.length := by
  simp only [vcopy, List.length_append, List.length_take, List.length_drop]
  omega

theorem vcopy_fit (v : List Char) (pos : Nat) (data : List Char)
    (h : pos + data.length ≤ v.length) :
    vcopy v pos data = v.take pos ++ data ++ v.drop (pos + data.length) := by
  have h1 : data.take (v.length - pos) = data := List.take_of_length_le (by omega)
  simp only [vcopy, h1]

theorem vcopy_take (v : List Char) (pos : Nat) (data : List Char) (h : pos ≤ v.length) :
    (vcopy v pos data).take pos = v.take pos := by
  have h1 : (v.take pos).length = pos := by
    simp only [List.length_take]; omega
  simp only [vcopy, List.append_assoc]
  rw [List.take_append_of_le_length (by omega)]
  rw [List.take_of_length_le (by omega)]

/-! ## Lemmas on the buffer -/

theorem subSz_of_le (a b : Nat) (h : b ≤ a) (ha : a < SIZE_MOD) : subSz a b = a - b := by
  simp only [subSz, SIZE_MOD] at *
  omega

theorem addSz_of_lt (a b : Nat) (h : a + b < SIZE_MOD) : addSz a b = a + b := by
  simp only [addSz, SIZE_MOD] at *
  omega

theorem addSz_lt (a b : Nat) : addSz a b < SIZE_MOD := by
  simp only [addSz, SIZE_MOD]
  omega

theorem Buffer.ToBeEnough_write_pos (conf : JsonData) (b : Buffer) (len : Nat) :
    (b.ToBeEnough conf len).write_pos_ = b.write_pos_ := by
  simp only [Buffer.ToBeEnough]
  split_ifs <;> rfl

theorem Buffer.ToBeEnough_read_pos (conf : JsonData) (b : Buffer) (len : Nat) :
    (b.ToBeEnough conf len).read_pos_ = b.read_pos_ := by
  simp only [Buffer.ToBeEnough]
  split_ifs <;> rfl

theorem Buffer.ToBeEnough_capacity_lt (conf : JsonData) (b : Buffer) (len : Nat)
    (h : b.buffer_.length < SIZE_MOD) : (b.ToBeEnough conf len).buffer_.length < SIZE_MOD := by
  simp only [Buffer.ToBeEnough]
  split_ifs
  · simp only [vresize_length]; exact addSz_lt _ _
  · simp only [vresize_length]; exact addSz_lt _ _
  · exact h

theorem Buffer.ToBeEnough_take (conf : JsonData) (b : Buffer) (len k : Nat)
    (hk : k ≤ b.buffer_.length) (hk1 : k ≤ (b.ToBeEnough conf len).buffer_.length) :
    (b.ToBeEnough conf len).buffer_.take k = b.buffer_.take k := by
  simp only [Buffer.ToBeEnough] at hk1 ⊢
  split_ifs at hk1 ⊢
  · simp only [vresize_length] at hk1
    exact vresize_take _ _ _ hk hk1
  · simp only [vresize_length] at hk1
    exact vresize_take _ _ _ hk hk1
  · rfl

theorem Buffer.readable_eq (b : Buffer) (h : b.CursorInv) (hc : b.buffer_.length < SIZE_MOD) :
    b.readable = (b.buffer_.take b.write_pos_).drop b.read_pos_ := by
  obtain ⟨h1, h2⟩ := h
  simp only [Buffer.readable, Buffer.Begin, Buffer.ReadableSize]
  rw [subSz_of_le _ _ h1 (by omega), List.drop_take]

theorem Buffer.Push_fault (conf : JsonData) (b : Buffer) (data : List Char) :
    (b.Push conf data).1 = none ↔
      b.write_pos_ + data.length ≤ (b.ToBeEnough conf data.length).buffer_.length := by
  simp only [Buffer.Push, Buffer.ToBeEnough_write_pos]
  split_ifs with h <;> simp [h]

theorem Buffer.Push_read_pos (conf : JsonData) (b : Buffer) (data : List Char) :
    (b.Push conf data).2.read_pos_ = b.read_pos_ := by
  simp only [Buffer.Push]
  split_ifs <;> exact Buffer.ToBeEnough_read_pos conf b data.length

theorem Buffer.Push_write_pos (conf : JsonData) (b : Buffer) (data : List Char) :
    (b.Push conf data).2.write_pos_ = addSz b.write_pos_ data.length := by
  simp only [Buffer.Push]
  split_ifs <;> simp only [Buffer.ToBeEnough_write_pos]

theorem Buffer.Push_buffer (conf : JsonData) (b : Buffer) (data : List Char) :
    (b.Push conf data).2.buffer_ =
      vcopy (b.ToBeEnough conf data.length).buffer_ b.write_pos_ data := by
  simp only [Buffer.Push]
  split_ifs <;> simp only [Buffer.ToBeEnough_write_pos]

theorem Buffer.Push_capacity (conf : JsonData) (b : Buffer) (data : List Char) :
    (b.Push conf data).2.buffer_.length = (b.ToBeEnough conf data.length).buffer_.length := by
  rw [Buffer.Push_buffer, vcopy_length]

/-- What a push that fits does to a buffer satisfying the cursor invariant. -/
theorem Buffer.Push_fits (conf : JsonData) (b : Buffer) (data : List Char)
    (hinv : b.CursorInv) (hc : b.buffer_.length < SIZE_MOD)
    (hok : (b.Push conf data).1 = none) :
    (b.Push conf data).2.read_pos_ = b.read_pos_ ∧
    (b.Push conf data).2.write_pos_ = b.write_pos_ + data.length ∧
    (b.Push conf data).2.CursorInv ∧
    (b.Push conf data).2.buffer_.length < SIZE_MOD ∧
    (b.Push conf data).2.buffer_.take b.write_pos_ = b.buffer_.take b.write_pos_ ∧
    (b.Push conf data).2.readable = b.readable ++ data := by
  have hfit := (Buffer.Push_fault conf b data).1 hok
  have hlt := Buffer.ToBeEnough_capacity_lt conf b data.length hc
  obtain ⟨h1, h2⟩ := hinv
  have hwp : (b.Push conf data).2.write_pos_ = b.write_pos_ + data.length := by
    rw [Buffer.Push_write_pos, addSz_of_lt _ _ (by omega)]
  have hcap := Buffer.Push_capacity conf b data
  have hrp := Buffer.Push_read_pos conf b data
  have hinv2 : (b.Push conf data).2.CursorInv := by
    refine ⟨?_, ?_⟩
    · rw [hrp, hwp]; omega
    · rw [hwp, hcap]; exact hfit
  have htake : (b.Push conf data).2.buffer_.take b.write_pos_ = b.buffer_.take b.write_pos_ := by
    rw [Buffer.Push_buffer, vcopy_take _ _ _ (by omega)]
    exact Buffer.ToBeEnough_take conf b data.length b.write_pos_ h2 (by omega)
  refine ⟨hrp, hwp, hinv2, by rw [hcap]; exact hlt, htake, ?_⟩
  rw [Buffer.readable_eq _ hinv2 (by rw [hcap]; exact hlt), Buffer.readable_eq b ⟨h1, h2⟩ hc]
  rw [hrp, hwp, Buffer.Push_buffer, vcopy_fit _ _ _ hfit]
  have hlen : ((b.ToBeEnough conf data.length).buffer_.take b.write_pos_).length
      = b.write_pos_ := by
    simp only [List.length_take]; omega
  rw [List.append_assoc, List.take_append_eq_append_take, hlen]
  rw [List.take_of_length_le (by omega), List.take_append_eq_append_take]
  rw [List.take_of_length_le (by omega : data.length ≤ b.write_pos_ + data.length - b.write_pos_)]
  have h0 : List.take (b.write_pos_ + data.length - b.write_pos_ - data.length)
      (List.drop (b.write_pos_ + data.length) (b.ToBeEnough conf data.length).buffer_) = [] := by
    have : b.write_pos_ + data.length - b.write_pos_ - data.length = 0 := by omega
    rw [this, List.take_zero]
  rw [h0, List.append_nil, List.drop_append_of_le_length (by omega)]
  rw [Buffer.ToBeEnough_take conf b data.length b.write_pos_ h2 (by omega)]

/-! ## Lemmas on the worker -/

theorem bytesOf_append (h : List (List Char)) (d : List Char) :
    bytesOf (h ++ [d]) = bytesOf h ++ d := by
  simp [bytesOf]

theorem pushesOf_append (es : List Event) (e : Event) :
    pushesOf (es ++ [e]) = pushesOf es ++ pushesOf [e] := by
  induction es with
  | nil => simp [pushesOf]
  | cons x xs ih => cases x <;> simp [pushesOf, ih]

theorem Buffer.readable_of_empty (b : Buffer) (h : b.write_pos_ = b.read_pos_) :
    b.readable = [] := by
  have h0 : b.ReadableSize = 0 := by
    simp only [Buffer.ReadableSize, subSz, SIZE_MOD, h]
    omega
  simp only [Buffer.readable, h0, List.take_zero]

theorem Buffer.create_spec (conf : JsonData) :
    (Buffer.create conf).CursorInv ∧ (Buffer.create conf).buffer_.length < SIZE_MOD ∧
    (Buffer.create conf).read_pos_ = 0 ∧ (Buffer.create conf).write_pos_ = 0 := by
  refine ⟨⟨Nat.le_refl _, Nat.zero_le _⟩, ?_, rfl, rfl⟩
  simp only [Buffer.create, vresize_length, SIZE_MOD]
  omega

theorem AsynWorker.create_inv (conf : JsonData) (type : AsynType) :
    (AsynWorker.create conf type).Inv [] := by
  obtain ⟨h1, h2, h3, h4⟩ := Buffer.create_spec conf
  refine ⟨h1, h2, h3, h1, h2, h3, fun _ => h4, rfl, ?_⟩
  simp only [AsynWorker.create]
  rw [Buffer.readable_of_empty _ (h4.trans h3.symm)]
  simp [bytesOf]

theorem AsynWorker.consumerStep_inv (w w1 : AsynWorker) (hist : List (List Char))
    (hi : w.Inv hist) (hs : w.consumerStep = some w1) : w1.Inv hist := by
  obtain ⟨pInv, pCap, pRead, cInv, cCap, cRead, cReset, hist_eq, order⟩ := hi
  unfold AsynWorker.consumerStep at hs
  cases hpc : w.pc <;> rw [hpc] at hs <;> simp only at hs
  · -- waiting: the locked section swaps the buffers
    split_ifs at hs
    cases hs
    have hw := cReset (by rw [hpc]; decide)
    have hc : w.buffer_consumer_.readable = [] :=
      Buffer.readable_of_empty _ (hw.trans cRead.symm)
    refine ⟨cInv, cCap, cRead, pInv, pCap, pRead, ?_, hist_eq, ?_⟩
    · intro h; exact absurd rfl h
    · show bytesOf w.delivered ++ w.buffer_producer_.readable ++ w.buffer_consumer_.readable
          = bytesOf w.pushed
      rw [← order, hc]; simp
  · -- flushing: the callback and the reset
    cases hs
    unfold AsynWorker.flushSection
    split_ifs with hr
    · refine ⟨pInv, pCap, pRead, ⟨Nat.le_refl _, Nat.zero_le _⟩, cCap, rfl, fun _ => rfl,
        hist_eq, ?_⟩
      show bytesOf (w.delivered ++ [w.buffer_consumer_.readable])
          ++ (w.buffer_consumer_.Reset).readable ++ w.buffer_producer_.readable = bytesOf w.pushed
      rw [bytesOf_append, Buffer.readable_of_empty (w.buffer_consumer_.Reset) rfl, ← order]
      simp
    · have hw : w.buffer_consumer_.write_pos_ = 0 := by
        have h1 := cInv.2
        simp only [Buffer.ReadableSize, subSz, SIZE_MOD, cRead] at hr
        simp only [SIZE_MOD] at cCap
        omega
      exact ⟨pInv, pCap, pRead, cInv, cCap, cRead, fun _ => hw, hist_eq, order⟩
  · -- checking: only the program point changes
    cases hs
    have hw := cReset (by rw [hpc]; decide)
    unfold AsynWorker.exitCheck
    split_ifs <;> exact ⟨pInv, pCap, pRead, cInv, cCap, cRead, fun _ => hw, hist_eq, order⟩
  · cases hs

theorem AsynWorker.step_inv (conf : JsonData) (w w1 : AsynWorker) (e : Event)
    (hist : List (List Char)) (hi : w.Inv hist) (hs : w.step conf e = some w1) :
    w1.Inv (hist ++ pushesOf [e]) := by
  cases e with
  | push data =>
    obtain ⟨pInv, pCap, pRead, cInv, cCap, cRead, cReset, hist_eq, order⟩ := hi
    simp only [AsynWorker.step] at hs
    split_ifs at hs
    simp only [AsynWorker.Push] at hs
    split at hs
    · rename_i w2 heq
      cases hs
      simp only [Prod.mk.injEq] at heq
      obtain ⟨hok, hw⟩ := heq
      obtain ⟨h1, -, h3, h4, -, h6⟩ := Buffer.Push_fits conf _ data pInv pCap hok
      subst hw
      refine ⟨h3, h4, h1.trans pRead, cInv, cCap, cRead, cReset, ?_, ?_⟩
      · show w.pushed ++ [data] = hist ++ pushesOf [Event.push data]
        rw [hist_eq]; rfl
      · show bytesOf w.delivered ++ w.buffer_consumer_.readable
            ++ (w.buffer_producer_.Push conf data).2.readable = bytesOf (w.pushed ++ [data])
        rw [h6, bytesOf_append, ← order]; simp
    · cases hs
  | stop =>
    simp only [AsynWorker.step] at hs
    cases hs
    obtain ⟨pInv, pCap, pRead, cInv, cCap, cRead, cReset, hist_eq, order⟩ := hi
    exact ⟨pInv, pCap, pRead, cInv, cCap, cRead, cReset, by simpa [pushesOf] using hist_eq, order⟩
  | consumer =>
    simp only [AsynWorker.step] at hs
    simpa [pushesOf] using AsynWorker.consumerStep_inv w w1 hist hi hs

theorem AsynWorker.run_inv (conf : JsonData) (es : List Event) :
    ∀ (w w1 : AsynWorker) (hist : List (List Char)), w.Inv hist →
      AsynWorker.run conf es w = some w1 → w1.Inv (hist ++ pushesOf es) := by
  induction es with
  | nil =>
    intro w w1 hist hi hr
    simp only [AsynWorker.run, Option.some.injEq] at hr
    subst hr
    simpa [pushesOf] using hi
  | cons e es ih =>
    intro w w1 hist hi hr
    simp only [AsynWorker.run] at hr
    split at hr
    · rename_i w2 hstep
      have h2 := AsynWorker.step_inv conf w w2 e hist hi hstep
      have h3 := ih w2 w1 _ h2 hr
      have h4 : hist ++ pushesOf [e] ++ pushesOf es = hist ++ pushesOf (e :: es) := by
        cases e <;> simp [pushesOf]
      rw [h4] at h3
      exact h3
    · cases hr

/-- Every state reached from a fresh worker satisfies the invariant. -/
theorem AsynWorker.reachable_inv (conf : JsonData) (type : AsynType) (es : List Event)
    (w : AsynWorker) (hr : AsynWorker.run conf es (AsynWorker.create conf type) = some w) :
    w.Inv (pushesOf es) := by
  simpa using AsynWorker.run_inv conf es _ w [] (AsynWorker.create_inv conf type) hr

theorem Buffer.ReadableSize_eq (b : Buffer) (h : b.CursorInv) (hc : b.buffer_.length < SIZE_MOD) :
    b.ReadableSize = b.write_pos_ - b.read_pos_ :=
  subSz_of_le _ _ h.1 (Nat.lt_of_le_of_lt h.2 hc)

theorem Buffer.WriteableSize_eq (b : Buffer) (h : b.CursorInv) (hc : b.buffer_.length < SIZE_MOD) :
    b.WriteableSize = b.buffer_.length - b.write_pos_ :=
  subSz_of_le _ _ h.2 hc

theorem AsynWorker.run_append (conf : JsonData) (es : List Event) (e : Event) :
    ∀ (w w1 : AsynWorker), AsynWorker.run conf (es ++ [e]) w = some w1 →
      ∃ w0, AsynWorker.run conf es w = some w0 ∧ w0.step conf e = some w1 := by
  induction es with
  | nil =>
    intro w w1 h
    simp only [List.nil_append, AsynWorker.run] at h
    split at h
    · rename_i w2 hs
      simp only [Option.some.injEq] at h
      subst h
      exact ⟨w, rfl, hs⟩
    · cases h
  | cons x xs ih =>
    intro w w1 h
    cases hs : w.step conf x with
    | none => simp [AsynWorker.run, hs] at h
    | some w2 =>
      simp only [List.cons_append, AsynWorker.run, hs] at h ⊢
      exact ih w2 w1 h

theorem AsynWorker.consumerStep_frame (w w1 : AsynWorker) (hs : w.consumerStep = some w1) :
    w1.stop_ = w.stop_ ∧ w.pc ≠ ConsumerPc.returned ∧
    (∃ x, w1.delivered = w.delivered ++ x) ∧
    (w1.pc = ConsumerPc.returned →
      w.stop_ = true ∧ w1.buffer_producer_.IsEmpty = true) := by
  unfold AsynWorker.consumerStep at hs
  cases hpc : w.pc <;> rw [hpc] at hs <;> simp only at hs
  · split_ifs at hs
    cases hs
    exact ⟨rfl, by decide, ⟨[], by simp [AsynWorker.lockedSection]⟩,
      fun h => by simp [AsynWorker.lockedSection] at h⟩
  · cases hs
    unfold AsynWorker.flushSection
    split_ifs
    · exact ⟨rfl, by decide, ⟨[w.buffer_consumer_.readable], rfl⟩, fun h => by simp at h⟩
    · exact ⟨rfl, by decide, ⟨[], by simp⟩, fun h => by simp at h⟩
  · cases hs
    unfold AsynWorker.exitCheck
    split_ifs with hc
    · simp only [Bool.and_eq_true] at hc
      exact ⟨rfl, by decide, ⟨[], by simp⟩, fun _ => hc⟩
    · exact ⟨rfl, by decide, ⟨[], by simp⟩, fun h => by simp at h⟩
  · cases hs

theorem AsynWorker.consumerStep_progress (w : AsynWorker) (hist : List (List Char))
    (hi : w.Inv hist) (hstop : w.stop_ = true) (hpc : w.pc ≠ ConsumerPc.returned) :
    ∃ w1, w.consumerStep = some w1 ∧ w1.stepsToReturn < w.stepsToReturn := by
  unfold AsynWorker.consumerStep
  cases h : w.pc
  · have hready : w.consumerReady = true := by simp [AsynWorker.consumerReady, hstop]
    have hw := hi.cReset (by rw [h]; decide)
    have he : w.lockedSection.buffer_producer_.IsEmpty = true := by
      show (w.buffer_consumer_.write_pos_ == w.buffer_consumer_.read_pos_) = true
      rw [hw, hi.cRead]; rfl
    refine ⟨w.lockedSection, by simp [hready], ?_⟩
    have h1 : w.lockedSection.stepsToReturn = 2 := by
      have hp : w.lockedSection.pc = ConsumerPc.flushing := rfl
      unfold AsynWorker.stepsToReturn
      rw [hp]
      simp [he]
    rw [h1]
    unfold AsynWorker.stepsToReturn
    rw [h]
    simp only
    omega
  · refine ⟨w.flushSection, rfl, ?_⟩
    have h1 : w.flushSection.stepsToReturn
        = if w.buffer_producer_.IsEmpty then 1 else 4 := by
      unfold AsynWorker.flushSection
      split_ifs <;> simp [AsynWorker.stepsToReturn, *]
    rw [h1]
    unfold AsynWorker.stepsToReturn
    rw [h]
    simp only
    split_ifs <;> decide
  · refine ⟨w.exitCheck, rfl, ?_⟩
    unfold AsynWorker.exitCheck
    simp only [hstop, Bool.true_and]
    split_ifs with he <;> simp [AsynWorker.stepsToReturn, h, he]
  · exact absurd h hpc

theorem AsynWorker.drain_spec (hist : List (List Char)) :
    ∀ (n : Nat) (w : AsynWorker), w.Inv hist → w.stop_ = true → w.ExitedClean →
      w.stepsToReturn ≤ n →
      (w.drain n).Inv hist ∧ (w.drain n).pc = ConsumerPc.returned ∧ (w.drain n).ExitedClean ∧
      ∃ x, (w.drain n).delivered = w.delivered ++ x := by
  intro n
  induction n with
  | zero =>
    intro w hi _ hx hr
    have hpc : w.pc = ConsumerPc.returned := by
      unfold AsynWorker.stepsToReturn at hr
      cases h : w.pc <;> rw [h] at hr <;> simp only at hr
      · omega
      · split_ifs at hr <;> omega
      · split_ifs at hr <;> omega
    exact ⟨hi, hpc, hx, ⟨[], by simp [AsynWorker.drain]⟩⟩
  | succ n ih =>
    intro w hi hstop hx hr
    by_cases hpc : w.pc = ConsumerPc.returned
    · have hnone : w.consumerStep = none := by
        simp [AsynWorker.consumerStep, hpc]
      simp only [AsynWorker.drain, hnone]
      exact ⟨hi, hpc, hx, ⟨[], by simp⟩⟩
    · obtain ⟨w1, hs, hlt⟩ := AsynWorker.consumerStep_progress w hist hi hstop hpc
      obtain ⟨f1, -, ⟨x, hxd⟩, f4⟩ := AsynWorker.consumerStep_frame w w1 hs
      have hi1 := AsynWorker.consumerStep_inv w w1 hist hi hs
      have hx1 : w1.ExitedClean := fun h => ⟨by rw [f1]; exact (f4 h).1, (f4 h).2⟩
      obtain ⟨g1, g2, g3, ⟨y, hy⟩⟩ := ih w1 hi1 (by rw [f1]; exact hstop) hx1 (by omega)
      simp only [AsynWorker.drain, hs]
      exact ⟨g1, g2, g3, ⟨x ++ y, by rw [hy, hxd, List.append_assoc]⟩⟩

theorem AsynWorker.stepsToReturn_le (w : AsynWorker) : w.stepsToReturn ≤ 5 := by
  unfold AsynWorker.stepsToReturn
  cases w.pc <;> simp only <;> first | omega | (split_ifs <;> omega)

/-- In a state where the consumer buffer is reset and the producer buffer is
empty, everything pushed has been delivered. -/
theorem AsynWorker.Inv.all_delivered (w : AsynWorker) (hist : List (List Char))
    (hi : w.Inv hist) (hpc : w.pc ≠ ConsumerPc.flushing)
    (he : w.buffer_producer_.IsEmpty = true) :
    w.buffer_producer_.readable = [] ∧ w.buffer_consumer_.readable = [] ∧
    bytesOf w.delivered = bytesOf hist := by
  have hp : w.buffer_producer_.readable = [] :=
    Buffer.readable_of_empty _ (by simpa [Buffer.IsEmpty] using he)
  have hc : w.buffer_consumer_.readable = [] :=
    Buffer.readable_of_empty _ ((hi.cReset hpc).trans hi.cRead.symm)
  refine ⟨hp, hc, ?_⟩
  have := hi.order
  rw [hp, hc, hi.hist_eq] at this
  simpa using this

/-! ## The elastic buffer: claims -/

/-- C1 (the cursor invariant `0 ≤ read_pos ≤ write_pos ≤ capacity` after every
call sequence, for every configuration and push length): evaluated on a fresh
buffer of capacity 4 with threshold 64, a single `Push` of the 13 bytes
`Hello, World!` triples the capacity to 12, copies past the end of the storage
and leaves `write_pos = 13 > 12 = capacity`, so the invariant is broken. -/
theorem C1_push_overruns_storage :
    (Buffer.create confSmall).CursorInv ∧
    (Buffer.Push confSmall (Buffer.create confSmall) "Hello, World!".toList).1
      = some Fault.outOfBounds ∧
    (Buffer.Push confSmall (Buffer.create confSmall) "Hello, World!".toList).2.write_pos_ = 13 ∧
    (Buffer.Push confSmall (Buffer.create confSmall) "Hello, World!".toList).2.capacity = 12 ∧
    ¬ (Buffer.Push confSmall (Buffer.create confSmall) "Hello, World!".toList).2.CursorInv := by
  decide

/-- C4: a push of `n` bytes that does not fit in the writable space
(`n > WriteableSize()`) resizes once, to `3 * capacity` when
`capacity < threshold` and to `capacity + linear_growth` otherwise (the new size
being representable in `size_t`); in particular a growing push at or above the
threshold adds exactly `linear_growth`. -/
theorem C4_growth_policy (conf : JsonData) (b : Buffer) (data : List Char)
    (hgrow : b.WriteableSize < data.length)
    (h3 : b.capacity < conf.threshold → 3 * b.capacity < SIZE_MOD)
    (hl : conf.threshold ≤ b.capacity → b.capacity + conf.linear_growth < SIZE_MOD) :
    (b.ToBeEnough conf data.length).capacity
      = (if b.capacity < conf.threshold then 3 * b.capacity
         else b.capacity + conf.linear_growth) ∧
    (b.Push conf data).2.capacity = (b.ToBeEnough conf data.length).capacity ∧
    (conf.threshold ≤ b.capacity →
      (b.Push conf data).2.capacity = b.capacity + conf.linear_growth) := by
  have hT : (b.ToBeEnough conf data.length).capacity
      = (if b.capacity < conf.threshold then 3 * b.capacity
         else b.capacity + conf.linear_growth) := by
    simp only [Buffer.capacity] at h3 hl ⊢
    simp only [Buffer.ToBeEnough]
    rw [if_pos (Nat.le_of_lt hgrow)]
    split_ifs with ht
    · have := h3 ht
      simp only [vresize_length, addSz, mulSz, SIZE_MOD] at this ⊢
      omega
    · have := hl (Nat.le_of_not_lt ht)
      simp only [vresize_length, addSz, SIZE_MOD] at this ⊢
      omega
  have hP : (b.Push conf data).2.capacity = (b.ToBeEnough conf data.length).capacity :=
    Buffer.Push_capacity conf b data
  refine ⟨hT, hP, fun hge => ?_⟩
  rw [hP, hT, if_neg (Nat.not_lt.mpr hge)]

/-- Witness for C4: capacity 4 below the threshold 64, a 5-byte push. -/
theorem C4_growth_policy_witness :
    ((Buffer.create confSmall).ToBeEnough confSmall "hello".toList.length).capacity
      = (if (Buffer.create confSmall).capacity < confSmall.threshold
         then 3 * (Buffer.create confSmall).capacity
         else (Buffer.create confSmall).capacity + confSmall.linear_growth) ∧
    (Buffer.Push confSmall (Buffer.create confSmall) "hello".toList).2.capacity
      = ((Buffer.create confSmall).ToBeEnough confSmall "hello".toList.length).capacity ∧
    (confSmall.threshold ≤ (Buffer.create confSmall).capacity →
      (Buffer.Push confSmall (Buffer.create confSmall) "hello".toList).2.capacity
        = (Buffer.create confSmall).capacity + confSmall.linear_growth) :=
  C4_growth_policy confSmall (Buffer.create confSmall) "hello".toList
    (by decide) (by decide) (by decide)

/-- C5 (a push of exactly `WriteableSize()` bytes succeeds without growth):
evaluated on a fresh buffer of capacity 4 with threshold 64, `Push` of the 4
bytes `abcd` (exactly the writable size) stores the bytes, but `ToBeEnough`
tests `len >= WriteableSize()` and triples the capacity to 12, so `write_pos`
(4) does not reach the capacity. -/
theorem C5_exact_fit_grows :
    (Buffer.create confSmall).WriteableSize = "abcd".toList.length ∧
    (Buffer.Push confSmall (Buffer.create confSmall) "abcd".toList).1 = none ∧
    (Buffer.Push confSmall (Buffer.create confSmall) "abcd".toList).2.readable = "abcd".toList ∧
    (Buffer.create confSmall).capacity = 4 ∧
    (Buffer.Push confSmall (Buffer.create confSmall) "abcd".toList).2.capacity = 12 ∧
    (Buffer.Push confSmall (Buffer.create confSmall) "abcd".toList).2.write_pos_ = 4 := by
  decide

/-- C6 (a push of `n` bytes with `c < n < threshold` on a buffer of initial
capacity `c` is covered by the single tripling): evaluated on a fresh buffer of
capacity 8 with threshold 1024, `Push` of a 30-byte record triples the capacity
to 24 only, so `write_pos + n = 30 > 24` and the copy runs past the storage. -/
theorem C6_single_resize_too_small :
    (Buffer.create confWide).capacity = 8 ∧
    (8 < "012345678901234567890123456789".toList.length ∧
      "012345678901234567890123456789".toList.length < confWide.threshold) ∧
    ((Buffer.create confWide).ToBeEnough confWide 30).capacity = 24 ∧
    ¬ ((Buffer.create confWide).write_pos_ + 30
        ≤ ((Buffer.create confWide).ToBeEnough confWide 30).capacity) ∧
    (Buffer.Push confWide (Buffer.create confWide) "012345678901234567890123456789".toList).1
      = some Fault.outOfBounds := by
  decide

/-- C7: on a buffer satisfying the cursor invariant (capacity representable in
`size_t`), a `Push` of `n` bytes that fits after the resize leaves `read_pos`
unchanged, makes `ReadableSize` grow by exactly `n`, keeps the bytes stored
below the old `write_pos` at their offsets, and makes the readable region the
previous readable bytes followed by the pushed bytes; on a fresh buffer,
`ReadBegin(n)` then succeeds and the `n` bytes it points at are the data. -/
theorem C7_push_appends_to_readable (conf : JsonData) (b : Buffer) (data : List Char)
    (hinv : b.CursorInv) (hc : b.capacity < SIZE_MOD)
    (hok : (b.Push conf data).1 = none) :
    (b.Push conf data).2.read_pos_ = b.read_pos_ ∧
    (b.Push conf data).2.ReadableSize = b.ReadableSize + data.length ∧
    (b.Push conf data).2.buffer_.take b.write_pos_ = b.buffer_.take b.write_pos_ ∧
    (b.Push conf data).2.readable = b.readable ++ data ∧
    (b = Buffer.create conf →
      ((b.Push conf data).2.ReadBegin data.length).map (List.take data.length)
        = Except.ok data) := by
  obtain ⟨h1, h2, h3, h4, h5, h6⟩ := Buffer.Push_fits conf b data hinv hc hok
  have hrs : (b.Push conf data).2.ReadableSize = b.ReadableSize + data.length := by
    rw [Buffer.ReadableSize_eq _ h3 h4, Buffer.ReadableSize_eq _ hinv hc, h1, h2]
    have := hinv.1
    omega
  refine ⟨h1, hrs, h5, h6, fun hb => ?_⟩
  have hr0 : b.readable = [] := by
    rw [hb]; exact Buffer.readable_of_empty _ rfl
  have hs0 : b.ReadableSize = 0 := by
    rw [Buffer.ReadableSize_eq _ hinv hc, hb]; rfl
  have hlen : (b.Push conf data).2.ReadableSize = data.length := by
    rw [hrs, hs0, Nat.zero_add]
  have hrd : ((b.Push conf data).2.buffer_.drop (b.Push conf data).2.read_pos_).take data.length
      = data := by
    have := h6
    rw [hr0, List.nil_append] at this
    simpa only [Buffer.readable, Buffer.Begin, hlen] using this
  simp only [Buffer.ReadBegin, hlen, Nat.le_refl, if_true, Except.map, hrd]

/-- Witness for C7: the test's `Push("hello", 5)` on a fresh buffer. -/
theorem C7_push_appends_to_readable_witness :
    (Buffer.Push confSmall (Buffer.create confSmall) "hello".toList).2.read_pos_
      = (Buffer.create confSmall).read_pos_ ∧
    (Buffer.Push confSmall (Buffer.create confSmall) "hello".toList).2.ReadableSize
      = (Buffer.create confSmall).ReadableSize + "hello".toList.length ∧
    (Buffer.Push confSmall (Buffer.create confSmall) "hello".toList).2.buffer_.take
        (Buffer.create confSmall).write_pos_
      = (Buffer.create confSmall).buffer_.take (Buffer.create confSmall).write_pos_ ∧
    (Buffer.Push confSmall (Buffer.create confSmall) "hello".toList).2.readable
      = (Buffer.create confSmall).readable ++ "hello".toList ∧
    (Buffer.create confSmall = Buffer.create confSmall →
      ((Buffer.Push confSmall (Buffer.create confSmall) "hello".toList).2.ReadBegin
          "hello".toList.length).map (List.take "hello".toList.length)
        = Except.ok "hello".toList) :=
  C7_push_appends_to_readable confSmall (Buffer.create confSmall) "hello".toList
    (by decide) (by decide) (by decide)

/-- C8: `MoveReadPos(n)` raises the assertion exactly when `n > ReadableSize()`
and `MoveWritePos(n)` exactly when `n > WriteableSize()`; a failing call leaves
the buffer as it was; on a buffer satisfying the cursor invariant a successful
call moves only its own cursor, by `n`, so `ReadableSize` drops by `n` after
`MoveReadPos` and rises by `n` after `MoveWritePos`. -/
theorem C8_move_cursors (b : Buffer) (n : Nat) :
    ((b.MoveReadPos n).1 = some Fault.assertion ↔ b.ReadableSize < n) ∧
    ((b.MoveWritePos n).1 = some Fault.assertion ↔ b.WriteableSize < n) ∧
    ((b.MoveReadPos n).1 ≠ none → (b.MoveReadPos n).2 = b) ∧
    ((b.MoveWritePos n).1 ≠ none → (b.MoveWritePos n).2 = b) ∧
    (b.CursorInv → b.capacity < SIZE_MOD → n ≤ b.ReadableSize →
      (b.MoveReadPos n).1 = none ∧
      (b.MoveReadPos n).2 = { b with read_pos_ := b.read_pos_ + n } ∧
      (b.MoveReadPos n).2.ReadableSize = b.ReadableSize - n) ∧
    (b.CursorInv → b.capacity < SIZE_MOD → n ≤ b.WriteableSize →
      (b.MoveWritePos n).1 = none ∧
      (b.MoveWritePos n).2 = { b with write_pos_ := b.write_pos_ + n } ∧
      (b.MoveWritePos n).2.ReadableSize = b.ReadableSize + n) := by
  refine ⟨?_, ?_, ?_, ?_, ?_, ?_⟩
  · simp only [Buffer.MoveReadPos]
    split_ifs with h <;> simp <;> omega
  · simp only [Buffer.MoveWritePos]
    split_ifs with h <;> simp <;> omega
  · simp only [Buffer.MoveReadPos]
    split_ifs with h <;> simp
  · simp only [Buffer.MoveWritePos]
    split_ifs with h <;> simp
  · intro hinv hc hn
    have hrs := Buffer.ReadableSize_eq b hinv hc
    obtain ⟨h1, h2⟩ := hinv
    simp only [Buffer.capacity] at hc
    have hadd : addSz b.read_pos_ n = b.read_pos_ + n := addSz_of_lt _ _ (by omega)
    have hinv1 : ({ b with read_pos_ := b.read_pos_ + n } : Buffer).CursorInv :=
      ⟨by show b.read_pos_ + n ≤ b.write_pos_; omega, h2⟩
    simp only [Buffer.MoveReadPos, if_pos hn, hadd, true_and]
    rw [Buffer.ReadableSize_eq _ hinv1 hc, hrs]
    show b.write_pos_ - (b.read_pos_ + n) = b.write_pos_ - b.read_pos_ - n
    omega
  · intro hinv hc hn
    have hrs := Buffer.ReadableSize_eq b hinv hc
    have hws := Buffer.WriteableSize_eq b hinv hc
    obtain ⟨h1, h2⟩ := hinv
    simp only [Buffer.capacity] at hc
    have hadd : addSz b.write_pos_ n = b.write_pos_ + n := addSz_of_lt _ _ (by omega)
    have hinv1 : ({ b with write_pos_ := b.write_pos_ + n } : Buffer).CursorInv :=
      ⟨by show b.read_pos_ ≤ b.write_pos_ + n; omega,
       by show b.write_pos_ + n ≤ b.buffer_.length; omega⟩
    simp only [Buffer.MoveWritePos, if_pos hn, hadd, true_and]
    rw [Buffer.ReadableSize_eq _ hinv1 hc, hrs]
    show b.write_pos_ + n - b.read_pos_ = b.write_pos_ - b.read_pos_ + n
    omega

/-- Witness for C8: the test's buffer with 5 readable bytes: `MoveReadPos(1)`
gives 4 readable bytes, then `MoveWritePos(1)` gives 5 again, and
`MoveReadPos(6)` fails. -/
theorem C8_move_cursors_witness :
    bufHello.ReadableSize = 5 ∧
    (bufHello.MoveReadPos 1).2.ReadableSize = 4 ∧
    ((bufHello.MoveReadPos 1).2.MoveWritePos 1).2.ReadableSize = 5 ∧
    (bufHello.MoveReadPos 6).2 = bufHello :=
  ⟨by decide,
   by rw [((C8_move_cursors bufHello 1).2.2.2.2.1 (by decide) (by decide) (by decide)).2.2]
      decide,
   by rw [((C8_move_cursors (bufHello.MoveReadPos 1).2 1).2.2.2.2.2
        (by decide) (by decide) (by decide)).2.2]
      decide,
   (C8_move_cursors bufHello 6).2.2.1 (by decide)⟩

/-- C9: `a.Swap(b)` exchanges storage, `read_pos` and `write_pos`: afterwards
`a` is the old `b` and `b` is the old `a` (so the capacities are exchanged too),
swapping twice restores both, and swapping a non-empty buffer with an empty one
leaves the first empty and the second not. -/
theorem C9_swap_exchanges (a b : Buffer) :
    a.Swap b = (b, a) ∧
    (a.Swap b).1.capacity = b.capacity ∧ (a.Swap b).2.capacity = a.capacity ∧
    (a.Swap b).1.Swap (a.Swap b).2 = (a, b) ∧
    (a.IsEmpty = false → b.IsEmpty = true →
      (a.Swap b).1.IsEmpty = true ∧ (a.Swap b).2.IsEmpty = false) :=
  ⟨rfl, rfl, rfl, rfl, fun ha hb => ⟨hb, ha⟩⟩

/-- Witness for C9: the test's swap of the buffer holding `hello` with a fresh one. -/
theorem C9_swap_exchanges_witness :
    (bufHello.Swap (Buffer.create confSmall)).1.IsEmpty = true ∧
    (bufHello.Swap (Buffer.create confSmall)).2.IsEmpty = false :=
  (C9_swap_exchanges bufHello (Buffer.create confSmall)).2.2.2.2 (by decide) (by decide)

/-- C10: `Reset` sets both cursors to 0 and leaves the storage, hence the
capacity, unchanged; afterwards `IsEmpty()` holds, `ReadableSize()` is 0 and
`WriteableSize()` is the capacity (a capacity representable in `size_t`). -/
theorem C10_reset (b : Buffer) :
    b.Reset.read_pos_ = 0 ∧ b.Reset.write_pos_ = 0 ∧
    b.Reset.buffer_ = b.buffer_ ∧ b.Reset.capacity = b.capacity ∧
    b.Reset.IsEmpty = true ∧ b.Reset.ReadableSize = 0 ∧
    (b.capacity < SIZE_MOD → b.Reset.WriteableSize = b.capacity) := by
  have hr : b.Reset.ReadableSize = 0 := by
    simp only [Buffer.ReadableSize, Buffer.Reset, subSz, SIZE_MOD]
  refine ⟨rfl, rfl, rfl, rfl, rfl, hr, fun hc => ?_⟩
  simp only [Buffer.capacity] at hc
  exact subSz_of_le _ _ (Nat.zero_le _) hc

/-- Witness for C10: the test's `Reset` of the buffer holding `hello`. -/
theorem C10_reset_witness :
    bufHello.capacity < SIZE_MOD ∧ bufHello.Reset.WriteableSize = bufHello.capacity :=
  have hc : bufHello.capacity < SIZE_MOD := by
    have h : bufHello.capacity = 12 := by decide
    rw [h]; decide
  ⟨hc, (C10_reset bufHello).2.2.2.2.2.2 hc⟩

/-! ## The double-buffer worker: claims -/

theorem Buffer.readable_length (b : Buffer) (h : b.CursorInv) (hc : b.buffer_.length < SIZE_MOD) :
    b.readable.length = b.write_pos_ - b.read_pos_ := by
  rw [Buffer.readable_eq b h hc]
  simp only [List.length_drop, List.length_take]
  have := h.2
  omega

/-- C2: with `Push` and the locked swap section as atomic steps, after every
schedule of pushes (each fitting in the producer buffer), stop requests and
consumer steps of one worker, the bytes passed to the callback so far, followed
by the readable bytes of the consumer buffer and then those of the producer
buffer, are the concatenation of the pushed records in push order; so what the
sink has received is an initial segment of the pushed byte stream. -/
theorem C2_delivery_order (conf : JsonData) (type : AsynType) (es : List Event)
    (w : AsynWorker)
    (hr : AsynWorker.run conf es (AsynWorker.create conf type) = some w) :
    bytesOf w.delivered ++ w.buffer_consumer_.readable ++ w.buffer_producer_.readable
      = bytesOf (pushesOf es) ∧
    bytesOf w.delivered <+: bytesOf (pushesOf es) := by
  have hi := AsynWorker.reachable_inv conf type es w hr
  have ho := hi.order
  rw [hi.hist_eq] at ho
  refine ⟨ho, ?_⟩
  rw [← ho, List.append_assoc]
  exact List.prefix_append _ _

/-- Witness for C2: `demoSchedule` leaves `abcd` delivered, `ef` in the consumer
buffer and nothing in the producer buffer. -/
theorem C2_delivery_order_witness :
    AsynWorker.run confSmall demoSchedule (AsynWorker.create confSmall .ASYNC_SAFE)
      = some demoStopped ∧
    bytesOf demoStopped.delivered ++ demoStopped.buffer_consumer_.readable
        ++ demoStopped.buffer_producer_.readable = "abcdef".toList ∧
    bytesOf demoStopped.delivered <+: bytesOf (pushesOf demoSchedule) :=
  ⟨by decide,
   (C2_delivery_order confSmall .ASYNC_SAFE demoSchedule demoStopped (by decide)).1.trans
     (by decide),
   (C2_delivery_order confSmall .ASYNC_SAFE demoSchedule demoStopped (by decide)).2⟩

/-- C3: in every reachable worker state, (1) if the next consumer step makes
`ThreadEntry` return, then `stop_` is set, neither buffer holds readable bytes
and every byte pushed so far has been passed to the callback; (2) if `stop_` is
set and the consumer has not returned, the consumer running on its own returns
within 5 steps, having passed to the callback exactly the batch of the consumer
buffer followed by the batch of the producer buffer, and at least one more slice
when the producer buffer held data. -/
theorem C3_drain_on_stop (conf : JsonData) (type : AsynType) (es : List Event)
    (w : AsynWorker)
    (hr : AsynWorker.run conf es (AsynWorker.create conf type) = some w) :
    (∀ w1, w.step conf Event.consumer = some w1 → w1.pc = ConsumerPc.returned →
      w1.stop_ = true ∧ w1.buffer_producer_.IsEmpty = true ∧
      w1.buffer_producer_.readable = [] ∧ w1.buffer_consumer_.readable = [] ∧
      bytesOf w1.delivered = bytesOf (pushesOf es)) ∧
    (w.stop_ = true → w.pc ≠ ConsumerPc.returned →
      (w.drain 5).pc = ConsumerPc.returned ∧ (w.drain 5).stop_ = true ∧
      (w.drain 5).buffer_producer_.readable = [] ∧
      (w.drain 5).buffer_consumer_.readable = [] ∧
      bytesOf (w.drain 5).delivered = bytesOf (pushesOf es) ∧
      ∃ x, (w.drain 5).delivered = w.delivered ++ x ∧
        bytesOf x = w.buffer_consumer_.readable ++ w.buffer_producer_.readable ∧
        (w.buffer_producer_.IsEmpty = false → x ≠ [])) := by
  have hi := AsynWorker.reachable_inv conf type es w hr
  constructor
  · intro w1 hs hret
    simp only [AsynWorker.step] at hs
    obtain ⟨f1, -, -, f4⟩ := AsynWorker.consumerStep_frame w w1 hs
    have hi1 := AsynWorker.consumerStep_inv w w1 _ hi hs
    obtain ⟨g1, g2⟩ := f4 hret
    obtain ⟨a1, a2, a3⟩ := AsynWorker.Inv.all_delivered w1 _ hi1 (by rw [hret]; decide) g2
    exact ⟨by rw [f1]; exact g1, g2, a1, a2, a3⟩
  · intro hstop hpc
    obtain ⟨d1, d2, d3, ⟨x, hx⟩⟩ := AsynWorker.drain_spec _ 5 w hi hstop
      (fun h => absurd h hpc) (AsynWorker.stepsToReturn_le w)
    obtain ⟨e1, e2⟩ := d3 d2
    obtain ⟨a1, a2, a3⟩ := AsynWorker.Inv.all_delivered _ _ d1 (by rw [d2]; decide) e2
    have hb : bytesOf x = w.buffer_consumer_.readable ++ w.buffer_producer_.readable := by
      have ho := hi.order
      rw [hi.hist_eq, ← a3, hx] at ho
      simp only [bytesOf, List.flatten_append, List.append_assoc] at ho ⊢
      exact (List.append_cancel_left ho).symm
    refine ⟨d2, e1, a1, a2, a3, x, hx, hb, fun hne hx0 => ?_⟩
    rw [hx0] at hb
    have hlen := Buffer.readable_length _ hi.pInv hi.pCap
    have hp : w.buffer_producer_.readable = [] := by
      have h0 : ([] : List Char) = w.buffer_consumer_.readable ++ w.buffer_producer_.readable := by
        simpa [bytesOf] using hb
      exact (List.append_eq_nil.mp h0.symm).2
    rw [hp] at hlen
    have h1 := hi.pInv.1
    have h2 : w.buffer_producer_.write_pos_ ≠ w.buffer_producer_.read_pos_ := by
      simpa [Buffer.IsEmpty] using hne
    simp only [List.length_nil] at hlen
    omega

/-- Witness for C3: after `demoSchedule` (stop set while the consumer holds
`ef`) one consumer step later the loop is at its exit test, and the next step
returns with `abcdef` delivered; from the stopped state the consumer alone
returns within 5 steps. -/
theorem C3_drain_on_stop_witness :
    (demoFlushed.exitCheck.stop_ = true ∧
      demoFlushed.exitCheck.buffer_producer_.IsEmpty = true ∧
      demoFlushed.exitCheck.buffer_producer_.readable = [] ∧
      demoFlushed.exitCheck.buffer_consumer_.readable = [] ∧
      bytesOf demoFlushed.exitCheck.delivered
        = bytesOf (pushesOf (demoSchedule ++ [Event.consumer]))) ∧
    (demoStopped.drain 5).pc = ConsumerPc.returned ∧
    bytesOf (demoStopped.drain 5).delivered = "abcdef".toList :=
  ⟨(C3_drain_on_stop confSmall .ASYNC_SAFE (demoSchedule ++ [Event.consumer]) demoFlushed
      (by decide)).1 demoFlushed.exitCheck (by decide) (by decide),
   ((C3_drain_on_stop confSmall .ASYNC_SAFE demoSchedule demoStopped (by decide)).2
      (by decide) (by decide)).1,
   ((C3_drain_on_stop confSmall .ASYNC_SAFE demoSchedule demoStopped (by decide)).2
      (by decide) (by decide)).2.2.2.2.1.trans (by decide)⟩

/-! ## Backpressure and stop: claims -/

theorem subSz_zero (a : Nat) (h : a < SIZE_MOD) : subSz a 0 = a := by
  simp only [subSz, SIZE_MOD] at *
  omega

/-- C11 (a waiting safe-mode producer is released by `len <= WriteableSize(P)`
OR `stop`): after `Push("ab")` and a stop request on a 4-byte safe-mode worker,
`stop_` is set and 2 bytes are writable, yet the wait predicate of a 3-byte push
is false and the push cannot take place. -/
theorem C11_stop_does_not_release :
    (AsynWorker.run confSmall [.push "ab".toList, .stop]
        (AsynWorker.create confSmall .ASYNC_SAFE)).map
      (fun w => (w.asyn_type_, w.stop_, w.buffer_producer_.WriteableSize, w.pushReady 3,
        (w.step confSmall (.push "xyz".toList)).isSome))
      = some (AsynType.ASYNC_SAFE, true, 2, false, false) := by
  decide

/-- C11, amended: in safe mode `Push` is held exactly while
`len > WriteableSize(P)`, whether or not `stop_` is set (the condition that
releases a waiting producer is `len <= WriteableSize(P)` alone, and a held push
does not take place); in unsafe mode `Push` never waits. -/
theorem C11_push_wait_predicate (w : AsynWorker) (len : Nat) :
    (w.asyn_type_ = AsynType.ASYNC_SAFE →
      (w.pushReady len = false ↔ w.buffer_producer_.WriteableSize < len)) ∧
    (w.asyn_type_ = AsynType.ASYNC_UNSAFE → w.pushReady len = true) ∧
    w.Stop.pushReady len = w.pushReady len ∧
    (∀ (conf : JsonData) (data : List Char),
      w.pushReady data.length = false → w.step conf (.push data) = none) := by
  refine ⟨fun hs => ?_, fun hu => ?_, rfl, fun conf data hb => ?_⟩
  · simp [AsynWorker.pushReady, hs]
  · simp [AsynWorker.pushReady, hu]
  · simp [AsynWorker.step, hb]

/-- Witness for C11: the fresh 4-byte safe-mode worker holds a 5-byte push. -/
theorem C11_push_wait_predicate_witness :
    (AsynWorker.create confSmall .ASYNC_SAFE).pushReady 5 = false ∧
    (AsynWorker.create confSmall .ASYNC_UNSAFE).pushReady 5 = true ∧
    (AsynWorker.create confSmall .ASYNC_SAFE).step confSmall (.push "hello".toList) = none :=
  ⟨((C11_push_wait_predicate (AsynWorker.create confSmall .ASYNC_SAFE) 5).1 rfl).2 (by decide),
   (C11_push_wait_predicate (AsynWorker.create confSmall .ASYNC_UNSAFE) 5).2.1 rfl,
   (C11_push_wait_predicate (AsynWorker.create confSmall .ASYNC_SAFE) 5).2.2.2 confSmall
     "hello".toList (by decide)⟩

/-- C12 (a safe-mode worker keeps both buffers at the initial capacity):
on a fresh safe-mode worker with `buffer_size = 4`, `Push("abcd", 4)` passes the
wait predicate (4 bytes are writable) and `ToBeEnough`, testing
`len >= WriteableSize()`, resizes the producer buffer to 12 bytes. -/
theorem C12_safe_mode_resizes :
    (AsynWorker.create confSmall .ASYNC_SAFE).buffer_producer_.capacity = 4 ∧
    (AsynWorker.create confSmall .ASYNC_SAFE).pushReady "abcd".toList.length = true ∧
    (AsynWorker.run confSmall [.push "abcd".toList]
        (AsynWorker.create confSmall .ASYNC_SAFE)).map
      (fun w => (w.asyn_type_, w.buffer_producer_.capacity))
      = some (AsynType.ASYNC_SAFE, 12) := by
  decide

theorem AsynWorker.Untouched64.writable (w : AsynWorker) (h : w.Untouched64) :
    w.buffer_producer_.WriteableSize = 64 := by
  simp only [Buffer.WriteableSize, h.pCap, h.pWrite]
  exact subSz_zero 64 (by simp [SIZE_MOD])

theorem AsynWorker.Untouched64.step_preserved (w w1 : AsynWorker) (e : Event) (h : w.Untouched64)
    (he : ∀ d ∈ pushesOf [e], d.length = 128)
    (hs : w.step conf64 e = some w1) : w1.Untouched64 ∧ pushesOf [e] = [] := by
  have hw := AsynWorker.Untouched64.writable w h
  obtain ⟨safe, pCap, pWrite, pRead, cCap, cWrite, cRead, noPush, noFlush⟩ := h
  cases e with
  | push d =>
    have hd : d.length = 128 := he d (by simp [pushesOf])
    have hb : w.pushReady d.length = false := by
      simp [AsynWorker.pushReady, safe, hw, hd]
    simp [AsynWorker.step, hb] at hs
  | stop =>
    simp only [AsynWorker.step, Option.some.injEq] at hs
    subst hs
    exact ⟨⟨safe, pCap, pWrite, pRead, cCap, cWrite, cRead, noPush, noFlush⟩, rfl⟩
  | consumer =>
    simp only [AsynWorker.step, AsynWorker.consumerStep] at hs
    refine ⟨?_, rfl⟩
    cases hpc : w.pc <;> rw [hpc] at hs <;> simp only at hs
    · split_ifs at hs
      cases hs
      exact ⟨safe, cCap, cWrite, cRead, pCap, pWrite, pRead, noPush, noFlush⟩
    · cases hs
      have hr : ¬ w.buffer_consumer_.ReadableSize > 0 := by
        simp [Buffer.ReadableSize, cWrite, cRead, subSz, SIZE_MOD]
      unfold AsynWorker.flushSection
      rw [if_neg hr]
      exact ⟨safe, pCap, pWrite, pRead, cCap, cWrite, cRead, noPush, noFlush⟩
    · cases hs
      unfold AsynWorker.exitCheck
      split_ifs <;> exact ⟨safe, pCap, pWrite, pRead, cCap, cWrite, cRead, noPush, noFlush⟩
    · cases hs

theorem AsynWorker.Untouched64.run_preserved (es : List Event) :
    ∀ (w w1 : AsynWorker), w.Untouched64 → (∀ d ∈ pushesOf es, d.length = 128) →
      AsynWorker.run conf64 es w = some w1 → w1.Untouched64 ∧ pushesOf es = [] := by
  induction es with
  | nil =>
    intro w w1 h _ hr
    simp only [AsynWorker.run, Option.some.injEq] at hr
    subst hr
    exact ⟨h, rfl⟩
  | cons e es ih =>
    intro w w1 h he hr
    have hsplit : pushesOf (e :: es) = pushesOf [e] ++ pushesOf es := by
      cases e <;> simp [pushesOf]
    cases hs : w.step conf64 e with
    | none => simp [AsynWorker.run, hs] at hr
    | some w2 =>
      simp only [AsynWorker.run, hs] at hr
      obtain ⟨h2, e2⟩ := AsynWorker.Untouched64.step_preserved w w2 e h
        (fun d hd => he d (by rw [hsplit]; exact List.mem_append_left _ hd)) hs
      obtain ⟨h3, e3⟩ := ih w2 w1 h2
        (fun d hd => he d (by rw [hsplit]; exact List.mem_append_right _ hd)) hr
      exact ⟨h3, by rw [hsplit, e2, e3]; rfl⟩

theorem AsynWorker.create_untouched64 : (AsynWorker.create conf64 .ASYNC_SAFE).Untouched64 := by
  refine ⟨rfl, ?_, rfl, rfl, ?_, rfl, rfl, rfl, rfl⟩ <;> decide

set_option maxRecDepth 20000 in
/-- C13 (with `buffer_size = threshold = linear_growth = 64` in safe mode every
128-byte record is accepted, in particular right after a swap): the fresh worker
does not accept a 128-byte push, and neither does the state right after a swap,
where the producer buffer is empty with 64 writable bytes. -/
theorem C13_oversized_record_never_accepted :
    (AsynWorker.create conf64 .ASYNC_SAFE).step conf64 (.push record128) = none ∧
    (AsynWorker.run conf64 [.stop, .consumer] (AsynWorker.create conf64 .ASYNC_SAFE)).map
      (fun w => (w.pc, w.buffer_producer_.IsEmpty, w.buffer_producer_.WriteableSize,
        w.pushReady record128.length, (w.step conf64 (.push record128)).isSome))
      = some (ConsumerPc.flushing, true, 64, false, false) := by
  decide

/-- C13, amended: with `buffer_size = threshold = linear_growth = 64` in safe
mode, a producer that pushes only 128-byte records has no record accepted: in
every worker state reached by a schedule whose pushes are all 128 bytes long
(the state right after a swap included) the producer buffer has 64 writable
bytes, so the wait predicate holds exactly for pushes of at most 64 bytes, a
128-byte push does not take place, and nothing has been pushed or passed to the
callback. -/
theorem C13_oversized_record_blocks (es : List Event) (w : AsynWorker) (d : List Char)
    (hes : ∀ x ∈ pushesOf es, x.length = 128) (hd : d.length = 128)
    (hr : AsynWorker.run conf64 es (AsynWorker.create conf64 .ASYNC_SAFE) = some w) :
    w.buffer_producer_.WriteableSize = 64 ∧ (∀ k, w.pushReady k = true ↔ k ≤ 64) ∧
    w.pushReady d.length = false ∧
    w.step conf64 (.push d) = none ∧ pushesOf es = [] ∧ w.delivered = [] := by
  obtain ⟨h, hp⟩ := AsynWorker.Untouched64.run_preserved es _ w AsynWorker.create_untouched64 hes hr
  have hw := AsynWorker.Untouched64.writable w h
  have hb : w.pushReady d.length = false := by
    simp [AsynWorker.pushReady, h.safe, hw, hd]
  exact ⟨hw, fun k => by simp [AsynWorker.pushReady, h.safe, hw], hb,
    by simp [AsynWorker.step, hb], hp, h.noFlush⟩

set_option maxRecDepth 20000 in
/-- Witness for C13: after a stop request and the swap, a 128-byte push is held. -/
theorem C13_oversized_record_blocks_witness :
    demoSwapped64.pc = ConsumerPc.flushing ∧
    demoSwapped64.buffer_producer_.WriteableSize = 64 ∧
    demoSwapped64.step conf64 (.push record128) = none :=
  ⟨by decide,
   (C13_oversized_record_blocks [.stop, .consumer] demoSwapped64 record128
      (fun x hx => by simp [pushesOf] at hx) (by simp [record128]) (by decide)).1,
   (C13_oversized_record_blocks [.stop, .consumer] demoSwapped64 record128
      (fun x hx => by simp [pushesOf] at hx) (by simp [record128]) (by decide)).2.2.2.1⟩

/-- C14 (calling `Stop` twice behaves as calling it once and the second call
completes normally): on a fresh worker the first `Stop()` joins the consumer
thread, which has returned; a second `Stop()` calls `join()` on a thread that is
no longer joinable and throws `std::system_error`, and when the second call is
the destructor's the exception terminates the process. -/
theorem C14_second_stop_throws :
    (AsynWorkerObj.create confSmall .ASYNC_SAFE).Stop.1 = none ∧
    (AsynWorkerObj.create confSmall .ASYNC_SAFE).Stop.2.state.pc = ConsumerPc.returned ∧
    (AsynWorkerObj.create confSmall .ASYNC_SAFE).Stop.2.thread_joinable = false ∧
    (AsynWorkerObj.create confSmall .ASYNC_SAFE).Stop.2.Stop.1
      = some ThreadFault.system_error ∧
    (AsynWorkerObj.create confSmall .ASYNC_SAFE).Stop.2.destroy.1
      = some ThreadFault.terminate := by
  decide

/-! ## Lemmas on the thread pool -/

theorem runningTasks_replicate {α : Type} (n : Nat) :
    runningTasks (List.replicate n (PoolWorker.waiting : PoolWorker α)) = [] := by
  induction n with
  | zero => rfl
  | succ n ih => simpa [List.replicate_succ, runningTasks] using ih

theorem runningTasks_all_exited {α : Type} (ws : List (PoolWorker α))
    (h : ws.all PoolWorker.isExited = true) : runningTasks ws = [] := by
  induction ws with
  | nil => rfl
  | cons w ws ih =>
    simp only [List.all_cons, Bool.and_eq_true] at h
    cases w with
    | waiting => simp [PoolWorker.isExited] at h
    | running t => simp [PoolWorker.isExited] at h
    | exited => simpa [runningTasks] using ih h.2

theorem runningTasks_set_exited {α : Type} (ws : List (PoolWorker α)) :
    ∀ (i : Nat), ws[i]? = some PoolWorker.waiting →
      runningTasks (ws.set i PoolWorker.exited) = runningTasks ws := by
  induction ws with
  | nil => intro i h; simp at h
  | cons w ws ih =>
    intro i h
    cases i with
    | zero =>
      simp only [List.getElem?_cons_zero, Option.some.injEq] at h
      subst h
      simp [runningTasks]
    | succ i =>
      simp only [List.getElem?_cons_succ] at h
      cases w <;> simp [runningTasks, ih i h]

theorem runningTasks_set_running {α : Type} (t : PoolTask α) (ws : List (PoolWorker α)) :
    ∀ (i : Nat), ws[i]? = some PoolWorker.waiting →
      List.Perm (runningTasks (ws.set i (PoolWorker.running t))) (t :: runningTasks ws) := by
  induction ws with
  | nil => intro i h; simp at h
  | cons w ws ih =>
    intro i h
    cases i with
    | zero =>
      simp only [List.getElem?_cons_zero, Option.some.injEq] at h
      subst h
      simp [runningTasks]
    | succ i =>
      simp only [List.getElem?_cons_succ] at h
      cases w with
      | waiting => simpa [runningTasks] using ih i h
      | exited => simpa [runningTasks] using ih i h
      | running u =>
        simp only [List.set_cons_succ, runningTasks]
        exact ((ih i h).cons u).trans (List.Perm.swap t u _)

theorem runningTasks_set_waiting {α : Type} (t : PoolTask α) (ws : List (PoolWorker α)) :
    ∀ (i : Nat), ws[i]? = some (PoolWorker.running t) →
      List.Perm (runningTasks ws) (t :: runningTasks (ws.set i PoolWorker.waiting)) := by
  induction ws with
  | nil => intro i h; simp at h
  | cons w ws ih =>
    intro i h
    cases i with
    | zero =>
      simp only [List.getElem?_cons_zero, Option.some.injEq] at h
      subst h
      simp [runningTasks]
    | succ i =>
      simp only [List.getElem?_cons_succ] at h
      cases w with
      | waiting => simpa [runningTasks] using ih i h
      | exited => simpa [runningTasks] using ih i h
      | running u =>
        simp only [List.set_cons_succ, runningTasks]
        exact ((ih i h).cons u).trans (List.Perm.swap t u _)

theorem ThreadPool.pool_create_inv {α : Type} (n : Nat) : (ThreadPool.create n : ThreadPool α).Inv n := by
  refine ⟨by simp [ThreadPool.create], rfl, rfl, ?_, ?_, ?_⟩
  · simp [ThreadPool.create, runningTasks_replicate]
  · intro x hx; simp [ThreadPool.create] at hx
  · rintro ⟨w, hw, he⟩
    simp only [ThreadPool.create] at hw
    rw [List.eq_of_mem_replicate hw] at he
    simp [PoolWorker.isExited] at he

theorem ThreadPool.enqueue_inv {α : Type} (p p1 : ThreadPool α) (n id : Nat) (f : Unit → α)
    (hi : p.Inv n) (he : p.enqueue f = .ok (p1, id)) : p1.Inv n := by
  obtain ⟨size, fifo, ids, once, value, exit⟩ := hi
  simp only [ThreadPool.enqueue] at he
  split_ifs at he with hstop
  simp only [Except.ok.injEq, Prod.mk.injEq] at he
  obtain ⟨rfl, -⟩ := he
  refine ⟨size, ?_, ?_, once, value, ?_⟩
  · show p.accepted ++ [_] = p.popped ++ (p.tasks ++ [_])
    rw [fifo, List.append_assoc]
  · show List.map PoolTask.id (p.accepted ++ [_]) = List.range (p.accepted ++ [_]).length
    simp [List.range_succ, ids]
  · intro hex
    exact absurd (exit hex).1 hstop

theorem ThreadPool.workerStep_inv {α : Type} (p p1 : ThreadPool α) (n i : Nat)
    (hi : p.Inv n) (hs : p.workerStep i = some p1) : p1.Inv n := by
  obtain ⟨size, fifo, ids, once, value, exit⟩ := hi
  unfold ThreadPool.workerStep at hs
  split at hs
  · rename_i hw
    split_ifs at hs with h1 h2
    · -- the worker returns
      cases hs
      simp only [Bool.and_eq_true, List.isEmpty_iff] at h2
      refine ⟨by simpa using size, fifo, ids, ?_, value, fun _ => h2⟩
      show List.Perm p.popped (_ ++ runningTasks (p.workers.set i PoolWorker.exited))
      rw [runningTasks_set_exited _ i hw]
      exact once
    · -- the worker pops the front task
      split at hs
      · rename_i t rest ht
        cases hs
        refine ⟨by simpa using size, ?_, ids, ?_, value, ?_⟩
        · show p.accepted = (p.popped ++ [t]) ++ rest
          rw [fifo, ht, List.append_assoc]; rfl
        · show List.Perm (p.popped ++ [t])
            (_ ++ runningTasks (p.workers.set i (PoolWorker.running t)))
          refine (List.perm_append_singleton t p.popped).trans ?_
          refine ((once.cons t).trans List.perm_middle.symm).trans ?_
          exact List.Perm.append_left _ (runningTasks_set_running t _ i hw).symm
        · rintro ⟨w, hw1, he⟩
          rcases List.mem_or_eq_of_mem_set hw1 with hm | rfl
          · have := (exit ⟨w, hm, he⟩).2
            rw [ht] at this
            cases this
          · simp [PoolWorker.isExited] at he
      · cases hs
  · rename_i t hw
    cases hs
    refine ⟨by simpa using size, fifo, ids, ?_, ?_, ?_⟩
    · show List.Perm p.popped (List.map Prod.fst (p.completed ++ [(t, t.call ())])
        ++ runningTasks (p.workers.set i PoolWorker.waiting))
      rw [List.map_append, List.append_assoc]
      refine once.trans (List.Perm.append_left _ ?_)
      exact runningTasks_set_waiting t _ i hw
    · intro x hx
      rcases List.mem_append.mp hx with h | h
      · exact value x h
      · simp only [List.mem_singleton] at h
        subst h; rfl
    · rintro ⟨w, hw1, he⟩
      rcases List.mem_or_eq_of_mem_set hw1 with hm | rfl
      · exact exit ⟨w, hm, he⟩
      · simp [PoolWorker.isExited] at he
  · cases hs
  · cases hs

theorem ThreadPool.pool_step_inv {α : Type} (p p1 : ThreadPool α) (n : Nat) (e : PoolEvent α)
    (hi : p.Inv n) (hs : p.step e = some p1) : p1.Inv n := by
  cases e with
  | enqueue f =>
    simp only [ThreadPool.step] at hs
    split at hs
    · rename_i p2 id heq
      cases hs
      exact ThreadPool.enqueue_inv p _ n id f hi heq
    · cases hs
      exact hi
  | worker i => exact ThreadPool.workerStep_inv p p1 n i hi hs
  | destroy =>
    simp only [ThreadPool.step, Option.some.injEq] at hs
    subst hs
    obtain ⟨size, fifo, ids, once, value, exit⟩ := hi
    exact ⟨size, fifo, ids, once, value, fun h => ⟨rfl, (exit h).2⟩⟩

theorem ThreadPool.pool_run_inv {α : Type} (n : Nat) (es : List (PoolEvent α)) :
    ∀ (p p1 : ThreadPool α), p.Inv n → ThreadPool.run es p = some p1 → p1.Inv n := by
  induction es with
  | nil =>
    intro p p1 hi hr
    simp only [ThreadPool.run, Option.some.injEq] at hr
    subst hr
    exact hi
  | cons e es ih =>
    intro p p1 hi hr
    cases hs : p.step e with
    | none => simp [ThreadPool.run, hs] at hr
    | some p2 =>
      simp only [ThreadPool.run, hs] at hr
      exact ih p2 p1 (ThreadPool.pool_step_inv p p2 n e hi hs) hr

/-! ## The thread pool: claims -/

/-- C15: `enqueue` on a pool whose `stop` flag is set throws the
`std::runtime_error` of a closed pool and leaves the pool, its queue included,
as it was; on a pool that is not stopped it does not throw and appends exactly
one task, the bound callable, at the tail of the queue. -/
theorem C15_enqueue (α : Type) (p : ThreadPool α) (f : Unit → α) :
    (p.stop = true →
      p.enqueue f = Except.error PoolError.runtime_error ∧
      p.step (PoolEvent.enqueue f) = some p) ∧
    (p.stop = false →
      ∃ p1 id, p.enqueue f = Except.ok (p1, id) ∧
        p1.tasks = p.tasks ++ [{ id := id, call := f }] ∧
        p1.tasks.length = p.tasks.length + 1 ∧
        p1.stop = false ∧ p1.workers = p.workers) := by
  constructor
  · intro h
    simp [ThreadPool.enqueue, ThreadPool.step, h]
  · intro h
    refine ⟨{ p with
        tasks := p.tasks ++ [{ id := p.accepted.length, call := f }]
        accepted := p.accepted ++ [{ id := p.accepted.length, call := f }] },
      p.accepted.length, by simp [ThreadPool.enqueue, h], rfl, by simp, h, rfl⟩

/-- Witness for C15: a fresh pool of 4 workers accepts a task; after the
destructor has set `stop` the same call throws. -/
theorem C15_enqueue_witness :
    (∃ p1 id, (ThreadPool.create 4 : ThreadPool Int).enqueue (fun _ => 1 + 2)
        = Except.ok (p1, id) ∧ p1.tasks.length = 0 + 1) ∧
    (ThreadPool.create 4 : ThreadPool Int).shutdown.enqueue (fun _ => 1 + 2)
      = Except.error PoolError.runtime_error :=
  ⟨by
    obtain ⟨p1, id, h1, -, h3, -⟩ :=
      (C15_enqueue Int (ThreadPool.create 4) (fun _ => 1 + 2)).2 rfl
    exact ⟨p1, id, h1, h3⟩,
   ((C15_enqueue Int (ThreadPool.create 4 : ThreadPool Int).shutdown (fun _ => 1 + 2)).1 rfl).1⟩

/-- C16: in every pool state reached from a fresh pool, the accepted tasks are
the tasks removed from the queue so far, in removal order, followed by the
queue: the `i`-th task popped is the `i`-th task accepted, and it carries the
future handle number `i`. -/
theorem C16_queue_fifo (α : Type) (n : Nat) (es : List (PoolEvent α)) (p : ThreadPool α)
    (hr : ThreadPool.run es (ThreadPool.create n) = some p) :
    p.accepted = p.popped ++ p.tasks ∧
    (∀ (i : Nat) (t : PoolTask α), p.popped[i]? = some t → p.accepted[i]? = some t ∧ t.id = i) := by
  have hi := ThreadPool.pool_run_inv n es _ p (ThreadPool.pool_create_inv n) hr
  refine ⟨hi.fifo, fun i t ht => ?_⟩
  have hlt : i < p.popped.length := (List.getElem?_eq_some.mp ht).1
  have ha : p.accepted[i]? = some t := by
    rw [hi.fifo, List.getElem?_append_left hlt]
    exact ht
  refine ⟨ha, ?_⟩
  have hm : (p.accepted.map PoolTask.id)[i]? = some t.id := by
    rw [List.getElem?_map, ha]; rfl
  rw [hi.ids] at hm
  have hlt2 : i < p.accepted.length := (List.getElem?_eq_some.mp ha).1
  rw [List.getElem?_range hlt2] at hm
  exact (Option.some.inj hm).symm

/-- Witness for C16: in the test's pool, after both submissions and one pop by
worker 1, the popped task is the first one accepted. -/
theorem C16_queue_fifo_witness :
    poolAfterPop.popped.map PoolTask.id = [0] ∧
    poolAfterPop.accepted.map PoolTask.id = [0, 1] ∧
    poolAfterPop.accepted = poolAfterPop.popped ++ poolAfterPop.tasks :=
  ⟨by decide, by decide,
   (C16_queue_fifo Int 4 (poolTwoTasks ++ [PoolEvent.worker 1]) poolAfterPop (by rfl)).1⟩

/-- C17 (for every pool size, each accepted task is run and no accepted task is
left in the queue when the destructor returns): a pool of size 0 accepts a task,
and its destructor returns (there is no worker to join) with the task still in
the queue and never run. -/
theorem C17_empty_pool_never_runs :
    (ThreadPool.run [PoolEvent.enqueue (fun _ => (1 : Int) + 2), PoolEvent.destroy]
        (ThreadPool.create 0)).map
      (fun p => (p.destroyed, p.accepted.length, p.tasks.length, p.completed.length))
      = some (true, 1, 1, 0) := by
  decide

/-- C17, amended: in every state reached from a fresh pool, each recorded run
is the run of an accepted task and stored the value of its bound callable, no
task has been run twice, and a worker exits only when `stop` is set and the
queue is empty; when the pool has at least one worker and the destructor has
returned, the queue is empty and every accepted task has been run exactly once. -/
theorem C17_tasks_run_once (α : Type) (n : Nat) (es : List (PoolEvent α)) (p : ThreadPool α)
    (hr : ThreadPool.run es (ThreadPool.create n) = some p) :
    (∀ x ∈ p.completed, x.2 = x.1.call () ∧ x.1 ∈ p.accepted) ∧
    (p.completed.map (fun x => x.1.id)).Nodup ∧
    (∀ (i : Nat) (p1 : ThreadPool α), p.workerStep i = some p1 →
      p1.workers[i]? = some PoolWorker.exited → p.stop = true ∧ p.tasks = []) ∧
    (1 ≤ n → p.destroyed = true →
      p.tasks = [] ∧
      List.Perm (p.completed.map (fun x => x.1.id)) (List.range p.accepted.length)) := by
  have hi := ThreadPool.pool_run_inv n es _ p (ThreadPool.pool_create_inv n) hr
  obtain ⟨size, fifo, ids, once, value, exit⟩ := hi
  have hmap : p.completed.map (fun x => x.1.id) = (p.completed.map Prod.fst).map PoolTask.id := by
    rw [List.map_map]; rfl
  have hpid : (p.popped.map PoolTask.id).Nodup := by
    have h1 : (p.accepted.map PoolTask.id).Nodup := by rw [ids]; exact List.nodup_range _
    rw [fifo, List.map_append] at h1
    exact h1.of_append_left
  have hperm : List.Perm (p.popped.map PoolTask.id)
      ((p.completed.map Prod.fst).map PoolTask.id ++ (runningTasks p.workers).map PoolTask.id) := by
    rw [← List.map_append]
    exact once.map _
  refine ⟨fun x hx => ⟨value x hx, ?_⟩, ?_, ?_, ?_⟩
  · have h1 : x.1 ∈ p.completed.map Prod.fst ++ runningTasks p.workers :=
      List.mem_append_left _ (List.mem_map_of_mem Prod.fst hx)
    rw [fifo]
    exact List.mem_append_left _ (once.symm.subset h1)
  · rw [hmap]
    exact ((hperm.nodup_iff).mp hpid).of_append_left
  · intro i p1 hs hex
    unfold ThreadPool.workerStep at hs
    split at hs
    · split_ifs at hs with h1 h2
      · simpa using h2
      · split at hs
        · cases hs
          simp [List.getElem?_set] at hex
        · cases hs
    · cases hs
      simp [List.getElem?_set] at hex
    · cases hs
    · cases hs
  · intro hn hd
    simp only [ThreadPool.destroyed, Bool.and_eq_true] at hd
    obtain ⟨-, hall⟩ := hd
    have hne : ∃ w, w ∈ p.workers := by
      cases hws : p.workers with
      | nil => rw [hws] at size; simp at size; omega
      | cons w ws => exact ⟨w, by simp⟩
    obtain ⟨w, hw⟩ := hne
    have hq : p.tasks = [] := (exit ⟨w, hw, (List.all_eq_true.mp hall) w hw⟩).2
    have hrun := runningTasks_all_exited p.workers hall
    refine ⟨hq, ?_⟩
    rw [hmap, ← ids, fifo, hq, List.append_nil]
    rw [hrun, List.map_nil, List.append_nil] at hperm
    exact hperm.symm

/-- Witness for C17: the test's pool of 4 workers; after both tasks have run
and the destructor has joined the workers, future 0 holds `1 + 2 = 3`, future 1
holds `3 * 4 = 12`, and the queue is empty. -/
theorem C17_tasks_run_once_witness :
    poolTestFinal.destroyed = true ∧
    poolTestFinal.completed.map (fun x => (x.1.id, x.2)) = [(1, 12), (0, 3)] ∧
    poolTestFinal.tasks = [] :=
  ⟨by decide, by decide,
   ((C17_tasks_run_once Int 4 poolTestSchedule poolTestFinal (by rfl)).2.2.2
      (by decide) (by decide)).1⟩

/-! ## Records and the logger facade: claims -/

theorem twoDigits_length : ∀ n, n < 100 → (twoDigits n).length = 2 := by
  decide

theorem ThreadPool.Inv.completed_id_lt {α : Type} (p : ThreadPool α) (n : Nat) (hi : p.Inv n)
    (x : PoolTask α × α) (hx : x ∈ p.completed) : x.1.id < p.accepted.length := by
  have h1 : x.1 ∈ p.completed.map Prod.fst ++ runningTasks p.workers :=
    List.mem_append_left _ (List.mem_map_of_mem Prod.fst hx)
  have h2 : x.1 ∈ p.accepted := by
    rw [hi.fifo]
    exact List.mem_append_left _ (hi.once.symm.subset h1)
  have h3 : x.1.id ∈ p.accepted.map PoolTask.id := List.mem_map_of_mem PoolTask.id h2
  rw [hi.ids] at h3
  exact List.mem_range.mp h3

/-- C18: for every level, logger name, file, line and payload, `format` returns
`[` time `][` tid `][` LEVEL `][` name `][` file `:` decimal line `]` TAB payload
NEWLINE, where time is the `%H:%M:%S` rendering of the captured time (8
characters for a valid time of day), tid the rendering of the captured thread
id, and LEVEL the 5-character string `DEBUG`, `INFO `, `WARN `, `ERROR` or
`FATAL` of the level. -/
theorem C18_format_layout (rt : Runtime) (cx : CallContext) (level : LogLevel)
    (file : List Char) (line : Nat) (name payload : List Char) :
    (LogMessage.create cx level file line name payload).format rt
      = "[".toList ++ strftimeHMS (rt.localtime cx.now) ++ "][".toList ++ rt.showTid cx.tid
        ++ "][".toList ++ level.ToString ++ "][".toList ++ name ++ "][".toList ++ file
        ++ ":".toList ++ to_string line ++ "]".toList ++ [Char.ofNat 9] ++ payload
        ++ [Char.ofNat 10] ∧
    level.ToString.length = 5 ∧
    [LogLevel.DEBUG, LogLevel.INFO, LogLevel.WARN, LogLevel.ERROR, LogLevel.FATAL].map
        LogLevel.ToString
      = ["DEBUG".toList, "INFO ".toList, "WARN ".toList, "ERROR".toList, "FATAL".toList] ∧
    ((rt.localtime cx.now).tm_hour < 24 → (rt.localtime cx.now).tm_min < 60 →
      (rt.localtime cx.now).tm_sec < 61 → (strftimeHMS (rt.localtime cx.now)).length = 8) := by
  refine ⟨?_, by cases level <;> rfl, rfl, fun hh hm hs => ?_⟩
  · have ht : "]\t".toList = "]".toList ++ [Char.ofNat 9] := by decide
    have hn : "\n".toList = [Char.ofNat 10] := by decide
    simp only [LogMessage.format, LogMessage.create, ht, hn]
    simp [List.append_assoc]
  · simp only [strftimeHMS, List.length_append]
    rw [twoDigits_length _ (by omega), twoDigits_length _ (by omega),
      twoDigits_length _ (by omega)]
    rfl

/-- Witness for C18: the message of `test_logmessage.cpp`. -/
theorem C18_format_layout_witness :
    demoMessage.format demoRuntime
      = "[23:56:27][140677926471488][INFO ][log][test_logmessage.cpp:8]".toList
        ++ [Char.ofNat 9] ++ "This is a test log message".toList ++ [Char.ofNat 10] ∧
    (strftimeHMS (demoRuntime.localtime 86187)).length = 8 :=
  ⟨(C18_format_layout demoRuntime { now := 86187, tid := 140677926471488 } LogLevel.INFO
      "test_logmessage.cpp".toList 8 "log".toList "This is a test log message".toList).1.trans
      (by decide),
   (C18_format_layout demoRuntime { now := 86187, tid := 140677926471488 } LogLevel.INFO
      "test_logmessage.cpp".toList 8 "log".toList
      "This is a test log message".toList).2.2.2 (by decide) (by decide) (by decide)⟩

theorem AsynLogger.call_eq_logAt {β : Type} (level : LogLevel) (rt : Runtime)
    (ship : List Char → β) (lg : AsynLogger) (tp : ThreadPool β) (cx : CallContext)
    (file : List Char) (line : Nat) (ret : List Char) :
    lg.call level rt ship tp cx file line ret
      = AsynLogger.logAt level rt ship lg tp cx file line ret := by
  cases level <;> rfl

theorem AsynLogger.logAt_severe_open {β : Type} (level : LogLevel) (rt : Runtime)
    (ship : List Char → β) (lg : AsynLogger) (tp : ThreadPool β) (cx : CallContext)
    (file : List Char) (line : Nat) (ret : List Char) (hopen : tp.stop = false)
    (hsev : level = LogLevel.ERROR ∨ level = LogLevel.FATAL) :
    AsynLogger.logAt level rt ship lg tp cx file line ret
      = Except.ok
        { ser :=
            { data := lg.record rt cx level file line ret
              tp := { tp with
                tasks := tp.tasks ++
                  [⟨tp.accepted.length, fun _ => ship (lg.record rt cx level file line ret)⟩]
                accepted := tp.accepted ++
                  [⟨tp.accepted.length, fun _ => ship (lg.record rt cx level file line ret)⟩] }
              awaited := some tp.accepted.length
              reported := false }
          pushes := [lg.record rt cx level file line ret] } := by
  have hsev2 : level = LogLevel.FATAL ∨ level = LogLevel.ERROR := hsev.symm
  simp only [AsynLogger.logAt, AsynLogger.serialize, if_pos hsev2, ThreadPool.enqueue, hopen]
  rfl

theorem AsynLogger.logAt_severe_closed {β : Type} (level : LogLevel) (rt : Runtime)
    (ship : List Char → β) (lg : AsynLogger) (tp : ThreadPool β) (cx : CallContext)
    (file : List Char) (line : Nat) (ret : List Char) (hclosed : tp.stop = true)
    (hsev : level = LogLevel.ERROR ∨ level = LogLevel.FATAL) :
    AsynLogger.logAt level rt ship lg tp cx file line ret
      = Except.ok
        { ser :=
            { data := (LogMessage.create cx level file line lg.logger_name_
                (cString ret)).format rt
              tp := tp
              awaited := none
              reported := true }
          pushes := [(LogMessage.create cx level file line lg.logger_name_
            (cString ret)).format rt] } := by
  have hsev2 : level = LogLevel.FATAL ∨ level = LogLevel.ERROR := hsev.symm
  simp only [AsynLogger.logAt, AsynLogger.serialize, if_pos hsev2, ThreadPool.enqueue, hclosed]
  rfl

theorem AsynLogger.logAt_mild {β : Type} (level : LogLevel) (rt : Runtime)
    (ship : List Char → β) (lg : AsynLogger) (tp : ThreadPool β) (cx : CallContext)
    (file : List Char) (line : Nat) (ret : List Char)
    (hsev : ¬ (level = LogLevel.ERROR ∨ level = LogLevel.FATAL)) :
    AsynLogger.logAt level rt ship lg tp cx file line ret
      = Except.ok
        { ser :=
            { data := (LogMessage.create cx level file line lg.logger_name_
                (cString ret)).format rt
              tp := tp
              awaited := none
              reported := false }
          pushes := [(LogMessage.create cx level file line lg.logger_name_
            (cString ret)).format rt] } := by
  have hsev2 : ¬ (level = LogLevel.FATAL ∨ level = LogLevel.ERROR) := fun h => hsev h.symm
  simp only [AsynLogger.logAt, AsynLogger.serialize, if_neg hsev2]

/-- C19: the log call of a level returns normally and pushes the formatted
record to the worker once.  For `ERROR` and `FATAL` it calls `enqueue` once:
with the pool open exactly one task is added, at the tail of the queue, whose
callable is the remote-ship function applied to that same record, and the call
then blocks on the future of that task, which is not fulfilled when the task is
submitted and is fulfilled once the task has been run; with the pool closed the
call to `enqueue` is rejected.  For `DEBUG`, `INFO` and `WARN` it submits
nothing and waits for nothing, whatever the state of the pool. -/
theorem C19_remote_ship (β : Type) (rt : Runtime) (ship : List Char → β) (lg : AsynLogger)
    (tp : ThreadPool β) (cx : CallContext) (level : LogLevel) (file : List Char) (line : Nat)
    (ret : List Char) :
    ∃ r, lg.call level rt ship tp cx file line ret = Except.ok r ∧
      r.pushes = [r.ser.data] ∧
      r.ser.data
        = (LogMessage.create cx level file line lg.logger_name_ (cString ret)).format rt ∧
      ((level = LogLevel.ERROR ∨ level = LogLevel.FATAL) →
        (tp.stop = false →
          ∃ t, r.ser.tp.tasks = tp.tasks ++ [t] ∧ r.ser.tp.accepted = tp.accepted ++ [t] ∧
            t.call () = ship r.ser.data ∧ r.ser.awaited = some t.id ∧
            (∀ n, tp.Inv n → r.ser.mayReturn r.ser.tp = false) ∧
            (∀ (now : ThreadPool β) (v : β), (t, v) ∈ now.completed →
              r.ser.mayReturn now = true)) ∧
        (tp.stop = true → r.ser.tp = tp ∧ r.ser.reported = true)) ∧
      (¬ (level = LogLevel.ERROR ∨ level = LogLevel.FATAL) →
        r.ser.tp = tp ∧ r.ser.awaited = none ∧ r.ser.reported = false ∧
        ∀ now, r.ser.mayReturn now = true) := by
  rw [AsynLogger.call_eq_logAt]
  by_cases hsev : level = LogLevel.ERROR ∨ level = LogLevel.FATAL
  · cases hstop : tp.stop with
    | false =>
      refine ⟨_, AsynLogger.logAt_severe_open level rt ship lg tp cx file line ret hstop hsev,
        rfl, rfl, fun _ => ⟨fun _ => ?_, fun h => by cases h⟩, fun h => absurd hsev h⟩
      refine ⟨_, rfl, rfl, rfl, rfl, fun n hi => ?_, fun now v hv => ?_⟩
      · simp only [Serialized.mayReturn]
        rw [Bool.eq_false_iff]
        intro hany
        obtain ⟨x, hx, heq⟩ := List.any_eq_true.mp hany
        have hlt := ThreadPool.Inv.completed_id_lt tp n hi x hx
        simp only [beq_iff_eq] at heq
        omega
      · simp only [Serialized.mayReturn]
        exact List.any_eq_true.mpr ⟨(_, v), hv, by simp⟩
    | true =>
      refine ⟨_, AsynLogger.logAt_severe_closed level rt ship lg tp cx file line ret hstop hsev,
        rfl, rfl, fun _ => ⟨fun h => ?_, fun _ => ?_⟩, fun h => absurd hsev h⟩
      · cases h
      · exact ⟨rfl, rfl⟩
  · exact ⟨_, AsynLogger.logAt_mild level rt ship lg tp cx file line ret hsev,
      rfl, rfl, fun h => absurd h hsev, fun _ => ⟨rfl, rfl, rfl, fun _ => rfl⟩⟩

/-- Witness for C19: an `ERROR` call on a fresh pool of 4 workers. -/
theorem C19_remote_ship_witness :
    ∃ r, demoLogger.call LogLevel.ERROR demoRuntime id (ThreadPool.create 4)
        { now := 3661, tid := 7 } "f.c".toList 10 "x=7".toList = Except.ok r ∧
      r.pushes = [r.ser.data] ∧
      ∃ t, r.ser.tp.tasks = (ThreadPool.create 4 : ThreadPool (List Char)).tasks ++ [t] ∧
        t.call () = r.ser.data := by
  obtain ⟨r, h1, h2, -, h4, -⟩ := C19_remote_ship (List Char) demoRuntime id demoLogger
    (ThreadPool.create 4) { now := 3661, tid := 7 } LogLevel.ERROR "f.c".toList 10
    "x=7".toList
  obtain ⟨t, g1, -, g3, -⟩ := (h4 (Or.inl rfl)).1 rfl
  exact ⟨r, h1, h2, t, g1, g3⟩

/-- C20: with the pool closed, an `ERROR` or `FATAL` log call returns normally
(the closed-pool error of `enqueue` is caught), prints the closed-pool message,
leaves the pool as it was, waits for nothing, and still pushes the formatted
record to the worker exactly once, the same record it pushes with an open pool. -/
theorem C20_closed_pool (β : Type) (rt : Runtime) (ship : List Char → β) (lg : AsynLogger)
    (tp : ThreadPool β) (cx : CallContext) (level : LogLevel) (file : List Char) (line : Nat)
    (ret : List Char) (hclosed : tp.stop = true)
    (hsev : level = LogLevel.ERROR ∨ level = LogLevel.FATAL) :
    tp.enqueue (fun _ => ship ((LogMessage.create cx level file line lg.logger_name_
        (cString ret)).format rt)) = Except.error PoolError.runtime_error ∧
    ∃ r, lg.call level rt ship tp cx file line ret = Except.ok r ∧
      r.ser.reported = true ∧ r.ser.tp = tp ∧ r.ser.awaited = none ∧
      r.pushes
        = [(LogMessage.create cx level file line lg.logger_name_ (cString ret)).format rt] ∧
      ∀ (tpo : ThreadPool β), tpo.stop = false →
        ∃ ro, lg.call level rt ship tpo cx file line ret = Except.ok ro ∧
          ro.pushes = r.pushes ∧ ro.ser.reported = false := by
  refine ⟨by simp [ThreadPool.enqueue, hclosed], ?_⟩
  simp only [AsynLogger.call_eq_logAt]
  refine ⟨_, AsynLogger.logAt_severe_closed level rt ship lg tp cx file line ret hclosed hsev,
    rfl, rfl, rfl, rfl, fun tpo ho => ?_⟩
  exact ⟨_, AsynLogger.logAt_severe_open level rt ship lg tpo cx file line ret ho hsev,
    rfl, rfl⟩

/-- Witness for C20: a `FATAL` call after the pool's destructor has set `stop`. -/
theorem C20_closed_pool_witness :
    ∃ r, demoLogger.call LogLevel.FATAL demoRuntime id
        (ThreadPool.create 4 : ThreadPool (List Char)).shutdown
        { now := 3661, tid := 7 } "f.c".toList 10 "x=7".toList = Except.ok r ∧
      r.ser.reported = true ∧
      r.pushes = ["[01:01:01][7][FATAL][L1][f.c:10]".toList ++ [Char.ofNat 9] ++ "x=7".toList
        ++ [Char.ofNat 10]] := by
  obtain ⟨r, h1, h2, -, -, h5, -⟩ := (C20_closed_pool (List Char) demoRuntime id demoLogger
    (ThreadPool.create 4 : ThreadPool (List Char)).shutdown { now := 3661, tid := 7 }
    LogLevel.FATAL "f.c".toList 10 "x=7".toList rfl (Or.inr rfl)).2
  exact ⟨r, h1, h2, h5.trans (by decide)⟩

/-! ## Sinks: claims -/

theorem flushSinks_spec {σ : Type} (flush : σ → List Char → σ) (data : List Char)
    (es : List (Option σ)) :
    ∀ (k : Nat),
      (flushSinks flush data k es).1 = es.map (Option.map (fun e => flush e data)) ∧
      (∀ c ∈ (flushSinks flush data k es).2, c.2 = data) ∧
      (∀ i ∈ (flushSinks flush data k es).2.map Prod.fst, k ≤ i) ∧
      ((flushSinks flush data k es).2.map Prod.fst).Pairwise (fun a b => a < b) ∧
      (∀ i, i ∈ (flushSinks flush data k es).2.map Prod.fst ↔
        (k ≤ i ∧ ∃ e, es[i - k]? = some (some e))) := by
  induction es with
  | nil =>
    intro k
    simp [flushSinks]
  | cons x xs ih =>
    intro k
    obtain ⟨h1, h2, h3, h4, h5⟩ := ih (k + 1)
    have hidx : ∀ i, k + 1 ≤ i → (x :: xs)[i - k]? = xs[i - (k + 1)]? := by
      intro i hi
      have : i - k = (i - (k + 1)) + 1 := by omega
      rw [this, List.getElem?_cons_succ]
    cases x with
    | none =>
      simp only [flushSinks]
      refine ⟨by simp [h1], h2, fun i hi => Nat.le_of_succ_le (h3 i hi), h4, fun i => ?_⟩
      rw [h5 i]
      constructor
      · rintro ⟨hk, e, he⟩
        exact ⟨Nat.le_of_succ_le hk, e, by rw [hidx i hk]; exact he⟩
      · rintro ⟨hk, e, he⟩
        rcases Nat.eq_or_lt_of_le hk with heq | hlt
        · subst heq
          simp at he
        · exact ⟨hlt, e, by rw [← hidx i hlt]; exact he⟩
    | some e0 =>
      simp only [flushSinks]
      refine ⟨by simp [h1], ?_, ?_, ?_, fun i => ?_⟩
      · intro c hc
        rcases List.mem_cons.mp hc with rfl | hc
        · rfl
        · exact h2 c hc
      · intro i hi
        simp only [List.map_cons, List.mem_cons] at hi
        rcases hi with rfl | hi
        · exact Nat.le_refl _
        · exact Nat.le_of_succ_le (h3 i hi)
      · simp only [List.map_cons, List.pairwise_cons]
        exact ⟨fun i hi => h3 i hi, h4⟩
      · simp only [List.map_cons, List.mem_cons]
        rw [h5 i]
        constructor
        · rintro (rfl | ⟨hk, e, he⟩)
          · exact ⟨Nat.le_refl _, e0, by simp⟩
          · exact ⟨Nat.le_of_succ_le hk, e, by rw [hidx i hk]; exact he⟩
        · rintro ⟨hk, e, he⟩
          rcases Nat.eq_or_lt_of_le hk with heq | hlt
          · exact Or.inl heq.symm
          · exact Or.inr ⟨hlt, e, by rw [← hidx i hlt]; exact he⟩

/-- C21: for every sink list and every consumer buffer, `RealFlush` leaves the
buffer as it is, calls `Flush` on the non-null sinks only, once each and in
sink-list order, every time with the readable bytes of the buffer
(`Begin()`, `ReadableSize()`), and each non-null sink ends in the state its own
`Flush` of that slice produces. -/
theorem C21_fan_out (σ : Type) (flush : σ → List Char → σ) (flushes_ : List (Option σ))
    (buffer : Buffer) :
    (AsynLogger.RealFlush flush flushes_ buffer).2.2 = buffer ∧
    (AsynLogger.RealFlush flush flushes_ buffer).1
      = flushes_.map (Option.map (fun e => flush e buffer.readable)) ∧
    (∀ c ∈ (AsynLogger.RealFlush flush flushes_ buffer).2.1, c.2 = buffer.readable) ∧
    ((AsynLogger.RealFlush flush flushes_ buffer).2.1.map Prod.fst).Pairwise
      (fun a b => a < b) ∧
    (∀ i, i ∈ (AsynLogger.RealFlush flush flushes_ buffer).2.1.map Prod.fst ↔
      ∃ e, flushes_[i]? = some (some e)) := by
  unfold AsynLogger.RealFlush
  split_ifs with hempty
  · have hnil : flushes_ = [] := List.isEmpty_iff.mp hempty
    subst hnil
    simp
  · obtain ⟨h1, h2, -, h4, h5⟩ := flushSinks_spec flush buffer.readable flushes_ 0
    refine ⟨rfl, h1, h2, h4, fun i => ?_⟩
    have := h5 i
    simpa using this

/-- Witness for C21: three sinks that record what they are given, the second
handle null, and the buffer holding `hello`. -/
theorem C21_fan_out_witness :
    AsynLogger.RealFlush (fun (e : List Char) d => e ++ d)
        [some "A:".toList, none, some "B:".toList] bufHello
      = ([some "A:hello".toList, none, some "B:hello".toList],
         [(0, "hello".toList), (2, "hello".toList)], bufHello) ∧
    (AsynLogger.RealFlush (fun (e : List Char) d => e ++ d)
        [some "A:".toList, none, some "B:".toList] bufHello).2.2 = bufHello :=
  ⟨by decide,
   (C21_fan_out (List Char) (fun e d => e ++ d) [some "A:".toList, none, some "B:".toList]
      bufHello).1⟩

/-! ## Lemmas on decimal numerals and file names -/

theorem digitChar_spec : ∀ k, k < 10 →
    (Nat.digitChar k).toNat - 48 = k ∧ (Nat.digitChar k).isDigit = true := by
  decide

theorem toDigitsCore_spec : ∀ (fuel n : Nat), n < fuel →
    ∃ D : List Char, (∀ ds, Nat.toDigitsCore 10 fuel n ds = D ++ ds) ∧
      (∀ c ∈ D, c.isDigit = true) ∧ ofDigits D = n := by
  intro fuel
  induction fuel with
  | zero => intro n h; omega
  | succ fuel ih =>
    intro n hn
    have hd := digitChar_spec (n % 10) (Nat.mod_lt _ (by decide))
    by_cases h0 : n / 10 = 0
    · refine ⟨[Nat.digitChar (n % 10)], fun ds => by simp [Nat.toDigitsCore, h0], ?_, ?_⟩
      · intro c hc
        simp only [List.mem_singleton] at hc
        subst hc
        exact hd.2
      · simp only [ofDigits, List.foldl_cons, List.foldl_nil, hd.1]
        omega
    · obtain ⟨D, hD, hdig, hval⟩ := ih (n / 10) (by omega)
      refine ⟨D ++ [Nat.digitChar (n % 10)], fun ds => ?_, ?_, ?_⟩
      · simp [Nat.toDigitsCore, h0, hD]
      · intro c hc
        rcases List.mem_append.mp hc with h | h
        · exact hdig c h
        · simp only [List.mem_singleton] at h
          subst h
          exact hd.2
      · simp only [ofDigits] at hval ⊢
        rw [List.foldl_append, hval]
        simp only [List.foldl_cons, List.foldl_nil, hd.1]
        omega

theorem to_string_digits (n : Nat) :
    (∀ c ∈ to_string n, c.isDigit = true) ∧ ofDigits (to_string n) = n := by
  obtain ⟨D, hD, hdig, hval⟩ := toDigitsCore_spec (n + 1) n (Nat.lt_succ_self n)
  have h : to_string n = D := by
    simp only [to_string, Nat.toDigits, hD, List.append_nil]
  rw [h]
  exact ⟨hdig, hval⟩

theorem to_string_spec (n : Nat) : (∀ c ∈ to_string n, c ≠ '-') ∧ ofDigits (to_string n) = n := by
  refine ⟨fun c hc heq => ?_, (to_string_digits n).2⟩
  have := (to_string_digits n).1 c hc
  rw [heq] at this
  exact absurd this (by decide)

theorem dateDigits_digits (t : Tm) : ∀ c ∈ dateDigits t, c.isDigit = true := by
  intro c hc
  simp only [dateDigits, List.mem_append] at hc
  rcases hc with ((((h | h) | h) | h) | h) | h <;> exact (to_string_digits _).1 c h

theorem to_string_injective (a b : Nat) (h : to_string a = to_string b) : a = b := by
  have ha := (to_string_spec a).2
  rw [h, (to_string_spec b).2] at ha
  exact ha.symm

theorem dateDigits_no_dash (t : Tm) : ∀ c ∈ dateDigits t, c ≠ '-' := by
  intro c hc
  simp only [dateDigits, List.mem_append] at hc
  rcases hc with ((((h | h) | h) | h) | h) | h <;> exact (to_string_spec _).1 c h

theorem dash_split (D1 : List Char) : ∀ (D2 s1 s2 : List Char),
    (∀ c ∈ D1, c ≠ '-') → (∀ c ∈ D2, c ≠ '-') →
    D1 ++ '-' :: s1 = D2 ++ '-' :: s2 → s1 = s2 := by
  induction D1 with
  | nil =>
    intro D2 s1 s2 _ h2 h
    cases D2 with
    | nil => simpa using h
    | cons d D2 =>
      simp only [List.nil_append, List.cons_append, List.cons.injEq] at h
      exact absurd h.1.symm (h2 d (by simp))
  | cons d D1 ih =>
    intro D2 s1 s2 h1 h2 h
    cases D2 with
    | nil =>
      simp only [List.nil_append, List.cons_append, List.cons.injEq] at h
      exact absurd h.1 (h1 d (by simp))
    | cons e D2 =>
      simp only [List.cons_append, List.cons.injEq] at h
      exact ih D2 s1 s2 (fun c hc => h1 c (List.mem_cons_of_mem _ hc))
        (fun c hc => h2 c (List.mem_cons_of_mem _ hc)) h.2

theorem rollName_injective (base : List Char) (t1 t2 : Tm) (k1 k2 : Nat)
    (h : rollName base t1 k1 = rollName base t2 k2) : k1 = k2 := by
  simp only [rollName, List.append_assoc] at h
  have h1 := List.append_cancel_left h
  have h2 := dash_split _ _ _ _ (dateDigits_no_dash t1) (dateDigits_no_dash t2) h1
  exact to_string_injective k1 k2 (List.append_cancel_right h2)

/-! ## Lemmas on the rolling sink -/

theorem fwriteAt_last (pre : List RolledFile) (f : RolledFile) (d : List Char) :
    fwriteAt (pre ++ [f]) pre.length d = pre ++ [{ f with records := f.records ++ [d] }] := by
  induction pre with
  | nil => rfl
  | cons x xs ih => simp [fwriteAt, ih]

theorem RollFileFlush.InitLogFile_roll (rt : Runtime) (fopen : Nat → List Char → Bool)
    (now : Nat) (s : RollFileFlush) (h : s.fs_ = none ∨ s.max_size_ ≤ s.cur_size_)
    (ho : fopen now (rollName s.basename_ (rt.localtime now) s.cnt_) = true) :
    s.InitLogFile rt fopen now =
      { cnt_ := addSz s.cnt_ 1, cur_size_ := 0, max_size_ := s.max_size_,
        basename_ := s.basename_, fs_ := some s.files.length,
        files := s.files ++ [⟨rollName s.basename_ (rt.localtime now) s.cnt_, []⟩] } := by
  simp only [RollFileFlush.InitLogFile, RollFileFlush.CreateFilename]
  rw [if_pos h, if_pos ho]

theorem RollFileFlush.InitLogFile_fail (rt : Runtime) (fopen : Nat → List Char → Bool)
    (now : Nat) (s : RollFileFlush) (h : s.fs_ = none ∨ s.max_size_ ≤ s.cur_size_)
    (ho : fopen now (rollName s.basename_ (rt.localtime now) s.cnt_) = false) :
    s.InitLogFile rt fopen now =
      { cnt_ := addSz s.cnt_ 1, cur_size_ := 0, max_size_ := s.max_size_,
        basename_ := s.basename_, fs_ := none, files := s.files } := by
  simp only [RollFileFlush.InitLogFile, RollFileFlush.CreateFilename]
  rw [if_pos h, if_neg (by rw [ho]; exact Bool.false_ne_true)]

theorem RollFileFlush.InitLogFile_keep (rt : Runtime) (fopen : Nat → List Char → Bool)
    (now : Nat) (s : RollFileFlush) (h : ¬ (s.fs_ = none ∨ s.max_size_ ≤ s.cur_size_)) :
    s.InitLogFile rt fopen now = s := by
  simp only [RollFileFlush.InitLogFile]
  rw [if_neg h]

/-- When `fs_` is null after `InitLogFile`, a roll was due and its `fopen` failed. -/
theorem RollFileFlush.InitLogFile_none (rt : Runtime) (fopen : Nat → List Char → Bool)
    (now : Nat) (s : RollFileFlush) (h : (s.InitLogFile rt fopen now).fs_ = none) :
    (s.fs_ = none ∨ s.max_size_ ≤ s.cur_size_) ∧
    fopen now (rollName s.basename_ (rt.localtime now) s.cnt_) = false ∧
    s.InitLogFile rt fopen now =
      { cnt_ := addSz s.cnt_ 1, cur_size_ := 0, max_size_ := s.max_size_,
        basename_ := s.basename_, fs_ := none, files := s.files } := by
  by_cases hr : s.fs_ = none ∨ s.max_size_ ≤ s.cur_size_
  · cases ho : fopen now (rollName s.basename_ (rt.localtime now) s.cnt_) with
    | false => exact ⟨hr, rfl, RollFileFlush.InitLogFile_fail rt fopen now s hr ho⟩
    | true =>
      rw [RollFileFlush.InitLogFile_roll rt fopen now s hr ho] at h
      cases h
  · rw [RollFileFlush.InitLogFile_keep rt fopen now s hr] at h
    exact absurd (Or.inl h) hr

theorem RollFileFlush.InitLogFile_cur_le (rt : Runtime) (fopen : Nat → List Char → Bool)
    (now : Nat) (s : RollFileFlush) :
    (s.InitLogFile rt fopen now).cur_size_ ≤ s.max_size_ ∧
    (s.InitLogFile rt fopen now).max_size_ = s.max_size_ := by
  by_cases hr : s.fs_ = none ∨ s.max_size_ ≤ s.cur_size_
  · cases ho : fopen now (rollName s.basename_ (rt.localtime now) s.cnt_) with
    | false =>
      rw [RollFileFlush.InitLogFile_fail rt fopen now s hr ho]
      exact ⟨Nat.zero_le _, rfl⟩
    | true =>
      rw [RollFileFlush.InitLogFile_roll rt fopen now s hr ho]
      exact ⟨Nat.zero_le _, rfl⟩
  · rw [RollFileFlush.InitLogFile_keep rt fopen now s hr]
    exact ⟨by omega, rfl⟩

theorem RollFileFlush.InitLogFile_inv (rt : Runtime) (fopen : Nat → List Char → Bool)
    (base : List Char) (now : Nat) (s : RollFileFlush) (hi : RollFileFlush.Inv rt base s)
    (hopen : (s.InitLogFile rt fopen now).fs_ ≠ none) :
    RollFileFlush.Inv rt base (s.InitLogFile rt fopen now) := by
  by_cases h : s.fs_ = none ∨ s.max_size_ ≤ s.cur_size_
  · cases ho : fopen now (rollName s.basename_ (rt.localtime now) s.cnt_) with
    | false =>
      rw [RollFileFlush.InitLogFile_fail rt fopen now s h ho] at hopen
      exact absurd rfl hopen
    | true =>
      rw [RollFileFlush.InitLogFile_roll rt fopen now s h ho]
      obtain ⟨base_eq, cnt_eq, open_last, names⟩ := hi
      refine ⟨base_eq, ?_, ?_, ?_⟩
      · simp only [List.length_append, List.length_singleton, cnt_eq, addSz, SIZE_MOD]
        omega
      · simp
      · intro i f hf
        simp only [List.getElem?_append] at hf
        split_ifs at hf with hlt
        · exact names i f hf
        · have hlen : i = s.files.length := by
            by_contra hne
            have : 1 ≤ i - s.files.length := by omega
            rw [List.getElem?_eq_none (by simpa using this)] at hf
            cases hf
          subst hlen
          simp only [Nat.sub_self, List.getElem?_cons_zero, Option.some.injEq] at hf
          subst hf
          exact ⟨now, by simp only [base_eq, cnt_eq]⟩
  · rw [RollFileFlush.InitLogFile_keep rt fopen now s h]
    exact hi

theorem RollFileFlush.Flush_fault (rt : Runtime) (fopen : Nat → List Char → Bool) (now : Nat)
    (s : RollFileFlush) (data : List Char) (h : (s.InitLogFile rt fopen now).fs_ = none) :
    s.Flush rt fopen now data = (some Fault.nullStream, s.InitLogFile rt fopen now) := by
  simp only [RollFileFlush.Flush, h]

theorem RollFileFlush.Flush_open (rt : Runtime) (fopen : Nat → List Char → Bool) (now : Nat)
    (s : RollFileFlush) (data : List Char) (i : Nat)
    (h : (s.InitLogFile rt fopen now).fs_ = some i) :
    s.Flush rt fopen now data =
      (none,
        { s.InitLogFile rt fopen now with
          files := fwriteAt (s.InitLogFile rt fopen now).files i data
          cur_size_ := addSz (s.InitLogFile rt fopen now).cur_size_ data.length }) := by
  simp only [RollFileFlush.Flush, h]

theorem RollFileFlush.Flush_fault_iff (rt : Runtime) (fopen : Nat → List Char → Bool)
    (now : Nat) (s : RollFileFlush) (data : List Char) :
    (s.Flush rt fopen now data).1 = none ↔ (s.InitLogFile rt fopen now).fs_ ≠ none := by
  cases h : (s.InitLogFile rt fopen now).fs_ with
  | none =>
    rw [RollFileFlush.Flush_fault rt fopen now s data h]
    simp
  | some i =>
    rw [RollFileFlush.Flush_open rt fopen now s data i h]
    simp

/-- The shape of a `Flush` with a file open after `InitLogFile`: that file is
the last one opened, and it alone changes, by gaining the record. -/
theorem RollFileFlush.Flush_shape (rt : Runtime) (fopen : Nat → List Char → Bool)
    (base : List Char) (now : Nat) (s : RollFileFlush) (data : List Char)
    (hi : RollFileFlush.Inv rt base s) (hopen : (s.InitLogFile rt fopen now).fs_ ≠ none) :
    ∃ (pre : List RolledFile) (fl : RolledFile),
      (s.InitLogFile rt fopen now).files = pre ++ [fl] ∧
      (s.InitLogFile rt fopen now).fs_ = some pre.length ∧
      s.Flush rt fopen now data =
        (none,
          { s.InitLogFile rt fopen now with
            files := pre ++ [{ fl with records := fl.records ++ [data] }]
            cur_size_ := addSz (s.InitLogFile rt fopen now).cur_size_ data.length }) := by
  have hi1 := RollFileFlush.InitLogFile_inv rt fopen base now s hi hopen
  have hne : (s.InitLogFile rt fopen now).files.length ≠ 0 := by
    intro h0
    have := hi1.open_last
    rw [if_pos h0] at this
    exact hopen this
  rcases List.eq_nil_or_concat (s.InitLogFile rt fopen now).files with hnil | ⟨pre, fl, hcat0⟩
  · rw [hnil] at hne
    exact absurd rfl hne
  · have hcat : (s.InitLogFile rt fopen now).files = pre ++ [fl] := by
      rw [hcat0, List.concat_eq_append]
    have hfs : (s.InitLogFile rt fopen now).fs_ = some pre.length := by
      have := hi1.open_last
      rw [if_neg hne] at this
      rw [this, hcat]
      simp
    refine ⟨pre, fl, hcat, hfs, ?_⟩
    rw [RollFileFlush.Flush_open rt fopen now s data pre.length hfs, hcat, fwriteAt_last]

theorem RollFileFlush.Flush_inv (rt : Runtime) (fopen : Nat → List Char → Bool)
    (base : List Char) (now : Nat) (s s1 : RollFileFlush) (data : List Char)
    (hi : RollFileFlush.Inv rt base s) (hf : s.Flush rt fopen now data = (none, s1)) :
    RollFileFlush.Inv rt base s1 := by
  have hopen : (s.InitLogFile rt fopen now).fs_ ≠ none :=
    (RollFileFlush.Flush_fault_iff rt fopen now s data).mp (by rw [hf])
  obtain ⟨pre, fl, hcat, hfs, hflush⟩ :=
    RollFileFlush.Flush_shape rt fopen base now s data hi hopen
  obtain ⟨base_eq, cnt_eq, open_last, names⟩ :=
    RollFileFlush.InitLogFile_inv rt fopen base now s hi hopen
  rw [hflush, Prod.mk.injEq] at hf
  rw [← hf.2]
  rw [hcat] at cnt_eq open_last names
  refine ⟨base_eq, by simpa using cnt_eq, by simpa using open_last, ?_⟩
  intro i f hf
  simp only [List.getElem?_append] at hf
  split_ifs at hf with hlt
  · exact names i f (by simp only [List.getElem?_append, if_pos hlt]; exact hf)
  · have hlen : i = pre.length := by
      by_contra hne
      have : 1 ≤ i - pre.length := by omega
      rw [List.getElem?_eq_none (by simpa using this)] at hf
      cases hf
    subst hlen
    simp only [Nat.sub_self, List.getElem?_cons_zero, Option.some.injEq] at hf
    subst hf
    exact names pre.length fl (by simp)

theorem RollFileFlush.create_inv_roll (rt : Runtime) (base : List Char) (max_size : Nat) :
    RollFileFlush.Inv rt base (RollFileFlush.create base max_size) := by
  refine ⟨rfl, by simp [RollFileFlush.create, SIZE_MOD], rfl, ?_⟩
  intro i f hf
  simp [RollFileFlush.create] at hf

/-- Where a sequence of `Flush` calls leads: either no call is flagged, and the
invariant holds at the end, or some call found `fs_` null after its
`InitLogFile`, and the sequence ends in the state that `InitLogFile` left, the
invariant holding before it.  A property `Q` kept by every unflagged `Flush`
is carried along. -/
theorem RollFileFlush.flushAll_reach (rt : Runtime) (fopen : Nat → List Char → Bool)
    (base : List Char) (Q : RollFileFlush → Prop) (calls : List (Nat × List Char)) :
    (∀ (s s1 : RollFileFlush) (c : Nat × List Char), c ∈ calls → RollFileFlush.Inv rt base s →
      Q s → s.Flush rt fopen c.1 c.2 = (none, s1) → Q s1) →
    ∀ (s : RollFileFlush), RollFileFlush.Inv rt base s → Q s →
      (∃ s1, RollFileFlush.flushAll rt fopen s calls = (none, s1) ∧
        RollFileFlush.Inv rt base s1 ∧ Q s1) ∨
      (∃ s0 now, RollFileFlush.Inv rt base s0 ∧ Q s0 ∧
        (s0.InitLogFile rt fopen now).fs_ = none ∧
        RollFileFlush.flushAll rt fopen s calls
          = (some Fault.nullStream, s0.InitLogFile rt fopen now)) := by
  induction calls with
  | nil =>
    intro _ s hi hq
    exact Or.inl ⟨s, rfl, hi, hq⟩
  | cons c cs ih =>
    intro hQ s hi hq
    cases hfs : (s.InitLogFile rt fopen c.1).fs_ with
    | none =>
      refine Or.inr ⟨s, c.1, hi, hq, hfs, ?_⟩
      simp only [RollFileFlush.flushAll, RollFileFlush.Flush_fault rt fopen c.1 s c.2 hfs]
    | some i =>
      have hfl := RollFileFlush.Flush_open rt fopen c.1 s c.2 i hfs
      have hi1 := RollFileFlush.Flush_inv rt fopen base c.1 s _ c.2 hi hfl
      have hq1 := hQ s _ c (List.mem_cons_self _ _) hi hq hfl
      have := ih (fun s s1 c hc => hQ s s1 c (List.mem_cons_of_mem _ hc)) _ hi1 hq1
      simp only [RollFileFlush.flushAll, hfl]
      exact this

theorem getLast?_snoc {α : Type} (l : List α) (x : α) : (l ++ [x]).getLast? = some x := by
  induction l with
  | nil => rfl
  | cons a l ih =>
    cases hl : l ++ [x] with
    | nil => simp at hl
    | cons b t =>
      rw [hl] at ih
      simp only [List.cons_append, hl, List.getLast?_cons_cons]
      exact ih

theorem RolledFile.size_append (f : RolledFile) (d : List Char) :
    ({ f with records := f.records ++ [d] } : RolledFile).size = f.size + d.length := by
  simp [RolledFile.size]

theorem RollFileFlush.InitLogFile_size (rt : Runtime) (fopen : Nat → List Char → Bool)
    (now : Nat) (s : RollFileFlush) (hs : s.SizeInv) (hpos : 0 < s.max_size_)
    (hopen : (s.InitLogFile rt fopen now).fs_ ≠ none) :
    (s.InitLogFile rt fopen now).SizeInv ∧
    (s.InitLogFile rt fopen now).max_size_ = s.max_size_ ∧
    (s.InitLogFile rt fopen now).cur_size_ < s.max_size_ := by
  by_cases h : s.fs_ = none ∨ s.max_size_ ≤ s.cur_size_
  · cases ho : fopen now (rollName s.basename_ (rt.localtime now) s.cnt_) with
    | false =>
      rw [RollFileFlush.InitLogFile_fail rt fopen now s h ho] at hopen
      exact absurd rfl hopen
    | true =>
      rw [RollFileFlush.InitLogFile_roll rt fopen now s h ho]
      refine ⟨⟨fun f hf => ?_, fun f hf init last hrec => ?_⟩, rfl, hpos⟩
      · rw [getLast?_snoc, Option.some.injEq] at hf
        subst hf
        rfl
      · rcases List.mem_append.mp hf with hm | hm
        · exact hs.below f hm init last hrec
        · simp only [List.mem_singleton] at hm
          subst hm
          simp at hrec
  · rw [RollFileFlush.InitLogFile_keep rt fopen now s h]
    exact ⟨hs, rfl, by omega⟩

theorem RollFileFlush.Flush_size (rt : Runtime) (fopen : Nat → List Char → Bool)
    (base : List Char) (now : Nat) (s s1 : RollFileFlush) (data : List Char)
    (hi : RollFileFlush.Inv rt base s) (hs : s.SizeInv) (hpos : 0 < s.max_size_)
    (hfit : s.max_size_ + data.length < SIZE_MOD)
    (hf : s.Flush rt fopen now data = (none, s1)) :
    s1.SizeInv ∧ s1.max_size_ = s.max_size_ := by
  have hopen : (s.InitLogFile rt fopen now).fs_ ≠ none :=
    (RollFileFlush.Flush_fault_iff rt fopen now s data).mp (by rw [hf])
  obtain ⟨pre, fl, hcat, -, hflush⟩ :=
    RollFileFlush.Flush_shape rt fopen base now s data hi hopen
  obtain ⟨⟨cur, below⟩, hmax, hlt⟩ := RollFileFlush.InitLogFile_size rt fopen now s hs hpos hopen
  rw [hcat] at cur below
  have hcur : (s.InitLogFile rt fopen now).cur_size_ = fl.size := cur fl (getLast?_snoc pre fl)
  rw [hflush, Prod.mk.injEq] at hf
  rw [← hf.2]
  refine ⟨⟨fun f hf => ?_, fun f hf init last hrec => ?_⟩, hmax⟩
  · rw [getLast?_snoc, Option.some.injEq] at hf
    subst hf
    rw [RolledFile.size_append]
    show addSz (s.InitLogFile rt fopen now).cur_size_ data.length = fl.size + data.length
    rw [addSz_of_lt _ _ (by omega), hcur]
  · show (init.map List.length).sum < (s.InitLogFile rt fopen now).max_size_
    rw [hmax]
    rcases List.mem_append.mp hf with hm | hm
    · have := below f (List.mem_append_left _ hm) init last hrec
      rw [hmax] at this
      exact this
    · simp only [List.mem_singleton] at hm
      subst hm
      have hinit : fl.records = init := (List.append_inj' hrec rfl).1
      rw [← hinit]
      have : (fl.records.map List.length).sum = fl.size := rfl
      rw [this, ← hcur]
      exact hlt

theorem RollFileFlush.create_size (base : List Char) (m : Nat) :
    (RollFileFlush.create base m).SizeInv := by
  refine ⟨fun f hf => ?_, fun f hf => ?_⟩
  · simp [RollFileFlush.create] at hf
  · simp [RollFileFlush.create] at hf

/-- Every state a sequence of `Flush` calls on a fresh sink ends in keeps
`max_size_`, and either the invariant holds in it, or it is the state left by
an `InitLogFile` whose `fopen` failed, the invariant holding before. -/
theorem RollFileFlush.reach_create (rt : Runtime) (fopen : Nat → List Char → Bool)
    (base : List Char) (m : Nat) (calls : List (Nat × List Char)) :
    ((RollFileFlush.flushAll rt fopen (RollFileFlush.create base m) calls).1 = none ∧
      RollFileFlush.Inv rt base
        (RollFileFlush.flushAll rt fopen (RollFileFlush.create base m) calls).2 ∧
      (RollFileFlush.flushAll rt fopen (RollFileFlush.create base m) calls).2.max_size_ = m) ∨
    (∃ s0 now, RollFileFlush.Inv rt base s0 ∧ s0.max_size_ = m ∧
      (s0.fs_ = none ∨ s0.max_size_ ≤ s0.cur_size_) ∧
      fopen now (rollName s0.basename_ (rt.localtime now) s0.cnt_) = false ∧
      RollFileFlush.flushAll rt fopen (RollFileFlush.create base m) calls
        = (some Fault.nullStream,
            { cnt_ := addSz s0.cnt_ 1, cur_size_ := 0, max_size_ := s0.max_size_,
              basename_ := s0.basename_, fs_ := none, files := s0.files })) := by
  have hQ : ∀ (s s1 : RollFileFlush) (c : Nat × List Char), c ∈ calls →
      RollFileFlush.Inv rt base s → s.max_size_ = m →
      s.Flush rt fopen c.1 c.2 = (none, s1) → s1.max_size_ = m := by
    intro s s1 c _ _ hm hf
    cases hfs : (s.InitLogFile rt fopen c.1).fs_ with
    | none =>
      rw [RollFileFlush.Flush_fault rt fopen c.1 s c.2 hfs] at hf
      cases hf
    | some i =>
      rw [RollFileFlush.Flush_open rt fopen c.1 s c.2 i hfs, Prod.mk.injEq] at hf
      rw [← hf.2]
      exact (RollFileFlush.InitLogFile_cur_le rt fopen c.1 s).2.trans hm
  rcases RollFileFlush.flushAll_reach rt fopen base (fun s => s.max_size_ = m) calls hQ _
    (RollFileFlush.create_inv_roll rt base m) rfl with ⟨s1, h1, hi1, hm1⟩ | ⟨s0, now, hi0, hm0, hn, h0⟩
  · rw [h1]
    exact Or.inl ⟨rfl, hi1, hm1⟩
  · obtain ⟨hr, ho, heq⟩ := RollFileFlush.InitLogFile_none rt fopen now s0 hn
    rw [heq] at h0
    exact Or.inr ⟨s0, now, hi0, hm0, hr, ho, h0⟩

/-- As `reach_create`, with the size accounting, for `max_size > 0` and records
that do not wrap `cur_size_` around. -/
theorem RollFileFlush.reach_create_size (rt : Runtime) (fopen : Nat → List Char → Bool)
    (base : List Char) (m : Nat) (calls : List (Nat × List Char)) (hpos : 0 < m)
    (hfit : ∀ c ∈ calls, m + c.2.length < SIZE_MOD) :
    ((RollFileFlush.flushAll rt fopen (RollFileFlush.create base m) calls).1 = none ∧
      RollFileFlush.Inv rt base
        (RollFileFlush.flushAll rt fopen (RollFileFlush.create base m) calls).2 ∧
      (RollFileFlush.flushAll rt fopen (RollFileFlush.create base m) calls).2.SizeInv ∧
      (RollFileFlush.flushAll rt fopen (RollFileFlush.create base m) calls).2.max_size_ = m) ∨
    (∃ s0 now, RollFileFlush.Inv rt base s0 ∧ s0.SizeInv ∧ s0.max_size_ = m ∧
      (s0.fs_ = none ∨ s0.max_size_ ≤ s0.cur_size_) ∧
      fopen now (rollName s0.basename_ (rt.localtime now) s0.cnt_) = false ∧
      RollFileFlush.flushAll rt fopen (RollFileFlush.create base m) calls
        = (some Fault.nullStream,
            { cnt_ := addSz s0.cnt_ 1, cur_size_ := 0, max_size_ := s0.max_size_,
              basename_ := s0.basename_, fs_ := none, files := s0.files })) := by
  have hQ : ∀ (s s1 : RollFileFlush) (c : Nat × List Char), c ∈ calls →
      RollFileFlush.Inv rt base s → (s.SizeInv ∧ s.max_size_ = m) →
      s.Flush rt fopen c.1 c.2 = (none, s1) → (s1.SizeInv ∧ s1.max_size_ = m) := by
    intro s s1 c hc hi hq hf
    obtain ⟨h1, h2⟩ := RollFileFlush.Flush_size rt fopen base c.1 s s1 c.2 hi hq.1
      (by rw [hq.2]; exact hpos) (by rw [hq.2]; exact hfit c hc) hf
    exact ⟨h1, h2.trans hq.2⟩
  rcases RollFileFlush.flushAll_reach rt fopen base (fun s => s.SizeInv ∧ s.max_size_ = m) calls
    hQ _ (RollFileFlush.create_inv_roll rt base m) ⟨RollFileFlush.create_size base m, rfl⟩
    with ⟨s1, h1, hi1, hq1⟩ | ⟨s0, now, hi0, hq0, hn, h0⟩
  · rw [h1]
    exact Or.inl ⟨rfl, hi1, hq1.1, hq1.2⟩
  · obtain ⟨hr, ho, heq⟩ := RollFileFlush.InitLogFile_none rt fopen now s0 hn
    rw [heq] at h0
    exact Or.inr ⟨s0, now, hi0, hq0.1, hq0.2, hr, ho, h0⟩

/-- The shape of a `Flush` with a file open after `InitLogFile`, in a state
that satisfies the invariant unless `fs_` is null. -/
theorem RollFileFlush.Flush_shape_weak (rt : Runtime) (fopen : Nat → List Char → Bool)
    (base : List Char) (now : Nat) (s : RollFileFlush) (data : List Char)
    (hw : s.fs_ ≠ none → RollFileFlush.Inv rt base s)
    (hopen : (s.InitLogFile rt fopen now).fs_ ≠ none) :
    ∃ (pre : List RolledFile) (fl : RolledFile),
      (s.InitLogFile rt fopen now).files = pre ++ [fl] ∧
      (s.InitLogFile rt fopen now).fs_ = some pre.length ∧
      (s.Flush rt fopen now data).2.files
        = pre ++ [{ fl with records := fl.records ++ [data] }] := by
  by_cases hfs : s.fs_ = none
  · have hr : s.fs_ = none ∨ s.max_size_ ≤ s.cur_size_ := Or.inl hfs
    cases ho : fopen now (rollName s.basename_ (rt.localtime now) s.cnt_) with
    | false =>
      rw [RollFileFlush.InitLogFile_fail rt fopen now s hr ho] at hopen
      exact absurd rfl hopen
    | true =>
      have hroll := RollFileFlush.InitLogFile_roll rt fopen now s hr ho
      refine ⟨s.files, ⟨rollName s.basename_ (rt.localtime now) s.cnt_, []⟩, ?_, ?_, ?_⟩
      · rw [hroll]
      · rw [hroll]
      · rw [RollFileFlush.Flush_open rt fopen now s data s.files.length (by rw [hroll])]
        rw [hroll]
        exact fwriteAt_last _ _ _
  · obtain ⟨pre, fl, h1, h2, h3⟩ :=
      RollFileFlush.Flush_shape rt fopen base now s data (hw hfs) hopen
    exact ⟨pre, fl, h1, h2, by rw [h3]⟩

/-! ## The rolling sink: claims -/

/-- C23: for every rolling sink with base name `b`, every outcome of the `fopen`
calls and every sequence of `Flush` calls, the counter starts at 1 and grows by
exactly 1 at every roll: it is one more than the number of files opened as long
as no `fopen` has failed, and two more in the state a failed `fopen` leaves; the
`k`-th file opened is named `b`, then date and time digits, then `-`, the
decimal numeral of `k` and `.log` (as long as `k` is representable in
`size_t`); and two files opened by the sink have different names. -/
theorem C23_file_names (rt : Runtime) (fopen : Nat → List Char → Bool) (base : List Char)
    (m : Nat) (calls : List (Nat × List Char)) :
    (RollFileFlush.create base m).cnt_ = 1 ∧
    ((RollFileFlush.flushAll rt fopen (RollFileFlush.create base m) calls).1 = none →
      (RollFileFlush.flushAll rt fopen (RollFileFlush.create base m) calls).2.cnt_
        = ((RollFileFlush.flushAll rt fopen (RollFileFlush.create base m)
            calls).2.files.length + 1) % SIZE_MOD) ∧
    ((RollFileFlush.flushAll rt fopen (RollFileFlush.create base m) calls).1 ≠ none →
      (RollFileFlush.flushAll rt fopen (RollFileFlush.create base m) calls).2.cnt_
        = ((RollFileFlush.flushAll rt fopen (RollFileFlush.create base m)
            calls).2.files.length + 2) % SIZE_MOD) ∧
    (∀ (i : Nat) (f : RolledFile),
      (RollFileFlush.flushAll rt fopen (RollFileFlush.create base m) calls).2.files[i]?
        = some f →
      i + 1 < SIZE_MOD →
      ∃ digits : List Char, (∀ c ∈ digits, c.isDigit = true) ∧
        f.name = base ++ digits ++ "-".toList ++ to_string (i + 1) ++ ".log".toList) ∧
    (∀ (i j : Nat) (fi fj : RolledFile),
      (RollFileFlush.flushAll rt fopen (RollFileFlush.create base m) calls).2.files[i]?
        = some fi →
      (RollFileFlush.flushAll rt fopen (RollFileFlush.create base m) calls).2.files[j]?
        = some fj →
      i + 1 < SIZE_MOD → j + 1 < SIZE_MOD → i ≠ j → fi.name ≠ fj.name) := by
  have hfacts :
      ((RollFileFlush.flushAll rt fopen (RollFileFlush.create base m) calls).1 = none →
        (RollFileFlush.flushAll rt fopen (RollFileFlush.create base m) calls).2.cnt_
          = ((RollFileFlush.flushAll rt fopen (RollFileFlush.create base m)
              calls).2.files.length + 1) % SIZE_MOD) ∧
      ((RollFileFlush.flushAll rt fopen (RollFileFlush.create base m) calls).1 ≠ none →
        (RollFileFlush.flushAll rt fopen (RollFileFlush.create base m) calls).2.cnt_
          = ((RollFileFlush.flushAll rt fopen (RollFileFlush.create base m)
              calls).2.files.length + 2) % SIZE_MOD) ∧
      (∀ (i : Nat) (f : RolledFile),
        (RollFileFlush.flushAll rt fopen (RollFileFlush.create base m) calls).2.files[i]?
          = some f →
        ∃ now, f.name = rollName base (rt.localtime now) ((i + 1) % SIZE_MOD)) := by
    rcases RollFileFlush.reach_create rt fopen base m calls with
      ⟨hnone, hi, _⟩ | ⟨s0, t0, hi0, _, _, _, heq⟩
    · exact ⟨fun _ => hi.cnt_eq, fun h => absurd hnone h, hi.names⟩
    · rw [heq]
      refine ⟨fun h => (by cases h), fun _ => ?_, hi0.names⟩
      show addSz s0.cnt_ 1 = (s0.files.length + 2) % SIZE_MOD
      rw [hi0.cnt_eq]
      simp only [addSz, SIZE_MOD]
      omega
  obtain ⟨hok, hflt, hnames⟩ := hfacts
  refine ⟨rfl, hok, hflt, fun i f hf hlt => ?_, fun i j fi fj hfi hfj hi1 hj1 hne heq => ?_⟩
  · obtain ⟨now, hname⟩ := hnames i f hf
    rw [Nat.mod_eq_of_lt hlt] at hname
    refine ⟨dateDigits (rt.localtime now), dateDigits_digits _, ?_⟩
    rw [hname]
    simp [rollName]
  · obtain ⟨n1, h1⟩ := hnames i fi hfi
    obtain ⟨n2, h2⟩ := hnames j fj hfj
    rw [Nat.mod_eq_of_lt hi1] at h1
    rw [Nat.mod_eq_of_lt hj1] at h2
    rw [h1, h2] at heq
    have := rollName_injective base _ _ _ _ heq
    omega

/-- Witness for C23: the sink with `max_size` 10 after `rollCalls` has opened
two files, numbered 1 and 2. -/
theorem C23_file_names_witness :
    rollAfterCalls.files.map RolledFile.name
      = ["jzq/197011245728-1.log".toList, "jzq/197011245729-2.log".toList] ∧
    rollAfterCalls.cnt_ = (rollAfterCalls.files.length + 1) % SIZE_MOD ∧
    "jzq/197011245728-1.log".toList ≠ "jzq/197011245729-2.log".toList :=
  ⟨by decide,
   (C23_file_names demoRuntime alwaysOpens "jzq/".toList 10 rollCalls).2.1 (by rfl),
   (C23_file_names demoRuntime alwaysOpens "jzq/".toList 10 rollCalls).2.2.2.2 0 1
     ⟨"jzq/197011245728-1.log".toList, ["0123456789ab".toList]⟩
     ⟨"jzq/197011245729-2.log".toList, ["x".toList, "y".toList]⟩
     (by decide) (by decide) (by simp [SIZE_MOD]) (by simp [SIZE_MOD]) (by decide)⟩

/-- C24: for a rolling sink with `max_size > 0` (record lengths such that
`cur_size` does not wrap around) and every outcome of the `fopen` calls, a
`Flush` never splits its record: when a file is open after `InitLogFile` the
whole record is appended to that one file and no other file changes, and
when none is open no file changes; in every file the bytes before its last
record are fewer than `max_size`, so a file exceeds `max_size` only by its last
record; while a file is open `cur_size` is the size of that file, and when it
has reached `max_size` the next `Flush` opens a new file for its record and
leaves the others as they are.  When every `fopen` succeeds a file is open at
every write. -/
theorem C24_record_not_split (rt : Runtime) (fopen : Nat → List Char → Bool)
    (base : List Char) (m : Nat) (calls : List (Nat × List Char)) (now : Nat)
    (data : List Char) (s : RollFileFlush)
    (hs : s = (RollFileFlush.flushAll rt fopen (RollFileFlush.create base m) calls).2)
    (hpos : 0 < m) (hfit : ∀ c ∈ calls, m + c.2.length < SIZE_MOD) :
    ((s.Flush rt fopen now data).1 = none →
      ∃ (pre : List RolledFile) (fl : RolledFile),
        (s.InitLogFile rt fopen now).files = pre ++ [fl] ∧
        (s.InitLogFile rt fopen now).fs_ = some pre.length ∧
        (s.Flush rt fopen now data).2.files
          = pre ++ [{ fl with records := fl.records ++ [data] }]) ∧
    ((s.Flush rt fopen now data).1 ≠ none → (s.Flush rt fopen now data).2.files = s.files) ∧
    (∀ f ∈ s.files, ∀ (init : List (List Char)) (last : List Char),
      f.records = init ++ [last] → f.size - last.length < m) ∧
    (s.fs_ ≠ none → ∀ f, s.files.getLast? = some f → s.cur_size_ = f.size) ∧
    (m ≤ s.cur_size_ → (s.Flush rt fopen now data).1 = none →
      ∃ name, (s.Flush rt fopen now data).2.files
        = s.files ++ [{ name := name, records := [data] }]) ∧
    ((∀ t name, fopen t name = true) → (s.Flush rt fopen now data).1 = none) := by
  have hfacts : s.max_size_ = m ∧
      (s.fs_ ≠ none → RollFileFlush.Inv rt base s ∧ s.SizeInv) ∧
      (∀ f ∈ s.files, ∀ (init : List (List Char)) (last : List Char),
        f.records = init ++ [last] → (init.map List.length).sum < m) := by
    rcases RollFileFlush.reach_create_size rt fopen base m calls hpos hfit with
      ⟨_, hi, hsz, hm⟩ | ⟨s0, t0, _, hsz0, hm0, _, _, heq⟩
    · rw [hs]
      refine ⟨hm, fun _ => ⟨hi, hsz⟩, fun f hf init last hrec => ?_⟩
      have := hsz.below f hf init last hrec
      rw [hm] at this
      exact this
    · rw [heq] at hs
      subst hs
      refine ⟨hm0, fun h => absurd rfl h, fun f hf init last hrec => ?_⟩
      have := hsz0.below f hf init last hrec
      rw [hm0] at this
      exact this
  obtain ⟨hmS, hw, hbelow⟩ := hfacts
  refine ⟨fun hok => ?_, fun hflt => ?_, fun f hf init last hrec => ?_, fun hfs => (hw hfs).2.cur,
    fun hge hok => ?_, fun hall => ?_⟩
  · exact RollFileFlush.Flush_shape_weak rt fopen base now s data (fun h => (hw h).1)
      ((RollFileFlush.Flush_fault_iff rt fopen now s data).mp hok)
  · have hn : (s.InitLogFile rt fopen now).fs_ = none := by
      by_contra h
      exact hflt ((RollFileFlush.Flush_fault_iff rt fopen now s data).mpr h)
    rw [RollFileFlush.Flush_fault rt fopen now s data hn,
      (RollFileFlush.InitLogFile_none rt fopen now s hn).2.2]
  · have hb := hbelow f hf init last hrec
    have : f.size = (init.map List.length).sum + last.length := by
      simp [RolledFile.size, hrec]
    omega
  · have hroll : s.fs_ = none ∨ s.max_size_ ≤ s.cur_size_ := Or.inr (by rw [hmS]; exact hge)
    have hopen := (RollFileFlush.Flush_fault_iff rt fopen now s data).mp hok
    cases ho : fopen now (rollName s.basename_ (rt.localtime now) s.cnt_) with
    | false =>
      rw [RollFileFlush.InitLogFile_fail rt fopen now s hroll ho] at hopen
      exact absurd rfl hopen
    | true =>
      have hr := RollFileFlush.InitLogFile_roll rt fopen now s hroll ho
      refine ⟨rollName s.basename_ (rt.localtime now) s.cnt_, ?_⟩
      rw [RollFileFlush.Flush_open rt fopen now s data s.files.length (by rw [hr]), hr]
      exact fwriteAt_last _ _ _
  · refine (RollFileFlush.Flush_fault_iff rt fopen now s data).mpr (fun h => ?_)
    have := (RollFileFlush.InitLogFile_none rt fopen now s h).2.1
    rw [hall] at this
    cases this

/-- Witness for C24: the test's sink, `max_size` 1000, after one `Flush` of the
10,000-byte record has exactly one file, holding the whole record; and the sink
with `max_size` 10, whose first file overshot, opened a second file at the next
call. -/
theorem C24_record_not_split_witness :
    (rollDemo.Flush demoRuntime alwaysOpens 86187 record10000).2.files.map RolledFile.records
      = [[record10000]] ∧
    record10000.length = 10000 ∧
    rollAfterCalls.files.map RolledFile.size = [12, 2] ∧
    (∀ f ∈ rollAfterCalls.files, ∀ (init : List (List Char)) (last : List Char),
      f.records = init ++ [last] → f.size - last.length < 10) :=
  ⟨by
    obtain ⟨pre, fl, h1, -, h3⟩ := (C24_record_not_split demoRuntime alwaysOpens
      "jzq/".toList 1000 [] 86187 record10000 rollDemo rfl (by decide)
      (fun c hc => by simp at hc)).1 (by rfl)
    rw [h3]
    have h0 : (rollDemo.InitLogFile demoRuntime alwaysOpens 86187).files
        = [] ++ [⟨rollName "jzq/".toList (demoRuntime.localtime 86187) 1, []⟩] := by
      rw [RollFileFlush.InitLogFile_roll demoRuntime alwaysOpens 86187 rollDemo (Or.inl rfl) rfl]
      rfl
    rw [h0] at h1
    obtain ⟨hp, hf⟩ := List.append_inj' h1 rfl
    simp only [List.cons.injEq, and_true] at hf
    rw [← hp, ← hf]
    rfl,
   by rw [record10000, List.length_replicate],
   by decide,
   (C24_record_not_split demoRuntime alwaysOpens "jzq/".toList 10 rollCalls 0 []
      rollAfterCalls rfl (by decide) (by
        intro c hc
        simp only [rollCalls, List.mem_cons, List.mem_singleton, List.not_mem_nil,
          or_false] at hc
        rcases hc with rfl | rfl | rfl <;> simp [SIZE_MOD])).2.2.1⟩

/-! ## Backup client, registry and configuration: claims -/

/-- C25: for every sequence of connect outcomes, `start_log_backup` makes at
most 5 connect attempts and closes the socket once; if the first success is the
`i`-th attempt with `i <= 5`, it makes `i` attempts and writes the record
exactly once; if the first 5 attempts all fail, it makes exactly 5 attempts and
writes nothing. -/
theorem C25_bounded_retry (connect : Nat → Bool) (msg : List Char) :
    (start_log_backup connect msg).attempts ≤ 5 ∧
    (start_log_backup connect msg).closes = 1 ∧
    (∀ i, 1 ≤ i → i ≤ 5 → (∀ k, k + 1 < i → connect k = false) → connect (i - 1) = true →
      start_log_backup connect msg = { attempts := i, writes := [msg], closes := 1 }) ∧
    ((∀ k, k < 5 → connect k = false) →
      start_log_backup connect msg = { attempts := 5, writes := [], closes := 1 }) := by
  refine ⟨?_, ?_, ?_, ?_⟩
  · cases h0 : connect 0 <;> cases h1 : connect 1 <;> cases h2 : connect 2 <;>
      cases h3 : connect 3 <;> cases h4 : connect 4 <;>
      simp [start_log_backup, connectLoop, h0, h1, h2, h3, h4]
  · simp only [start_log_backup]
    split_ifs <;> rfl
  · intro i h1 h5 hfail hok
    have hi : i = 1 ∨ i = 2 ∨ i = 3 ∨ i = 4 ∨ i = 5 := by omega
    rcases hi with rfl | rfl | rfl | rfl | rfl
    · simp only [Nat.sub_self] at hok
      simp [start_log_backup, connectLoop, hok]
    · have f0 := hfail 0 (by omega)
      simp [start_log_backup, connectLoop, f0, hok]
    · have f0 := hfail 0 (by omega)
      have f1 := hfail 1 (by omega)
      simp [start_log_backup, connectLoop, f0, f1, hok]
    · have f0 := hfail 0 (by omega)
      have f1 := hfail 1 (by omega)
      have f2 := hfail 2 (by omega)
      simp [start_log_backup, connectLoop, f0, f1, f2, hok]
    · have f0 := hfail 0 (by omega)
      have f1 := hfail 1 (by omega)
      have f2 := hfail 2 (by omega)
      have f3 := hfail 3 (by omega)
      simp [start_log_backup, connectLoop, f0, f1, f2, f3, hok]
  · intro hfail
    simp [start_log_backup, connectLoop, hfail 0 (by omega), hfail 1 (by omega),
      hfail 2 (by omega), hfail 3 (by omega), hfail 4 (by omega)]

/-- Witness for C25: the third attempt is the first to succeed; and no attempt
succeeds. -/
theorem C25_bounded_retry_witness :
    start_log_backup (fun k => k == 2) "record".toList
      = { attempts := 3, writes := ["record".toList], closes := 1 } ∧
    start_log_backup (fun _ => false) "record".toList
      = { attempts := 5, writes := [], closes := 1 } :=
  ⟨(C25_bounded_retry (fun k => k == 2) "record".toList).2.2.1 3 (by decide) (by decide)
      (fun k hk => by
        have : k = 0 ∨ k = 1 := by omega
        rcases this with rfl | rfl <;> rfl)
      (by decide),
   (C25_bounded_retry (fun _ => false) "record".toList).2.2.2 (fun _ _ => rfl)⟩

theorem mapFind_mapAssign {V : Type} (m : List (List Char × V)) (k n : List Char) (v : V) :
    mapFind (mapAssign m k v) n = if k = n then some v else mapFind m n := by
  induction m with
  | nil => simp [mapAssign, mapFind]
  | cons x xs ih =>
    obtain ⟨k1, v1⟩ := x
    simp only [mapAssign]
    by_cases h1 : k1 = k
    · subst h1
      simp only [if_true, mapFind]
      split_ifs <;> rfl
    · simp only [if_neg h1, mapFind, ih]
      by_cases h2 : k1 = n
      · subst h2
        simp [h1, Ne.symm h1]
      · simp [h2]

theorem LoggerManager.addAll_find (ls : List AsynLogger) :
    ∀ (r : LoggerManager) (n : List Char), r.GetLogger n = none → (∀ l ∈ ls, l.Name ≠ n) →
      (r.addAll ls).GetLogger n = none := by
  induction ls with
  | nil => intro r n h _; exact h
  | cons l ls ih =>
    intro r n h hne
    refine ih (r.AddLogger l) n ?_ (fun x hx => hne x (List.mem_cons_of_mem _ hx))
    unfold LoggerManager.AddLogger
    split_ifs
    · exact h
    · simp only [LoggerManager.GetLogger, mapFind_mapAssign]
      rw [if_neg (hne l (by simp))]
      exact h

/-- C26: for every registry state and logger `l`: when a logger named
`l.Name()` is registered, `AddLogger(l)` leaves the registry unchanged; when the
name is new, `GetLogger(l.Name())` afterwards returns `l` and the lookup of
every other name is unchanged; `GetLogger` of a name that is not registered
returns the null handle, in particular in the registry reached by any sequence
of `AddLogger` calls for a name that is neither `default_logger` nor the name of
an added logger. -/
theorem C26_registry (r : LoggerManager) (l : AsynLogger) :
    (r.LoggerExists l.Name = true → r.AddLogger l = r) ∧
    (r.LoggerExists l.Name = false →
      (r.AddLogger l).GetLogger l.Name = some l ∧
      (r.AddLogger l).default_logger_ = r.default_logger_ ∧
      ∀ n, n ≠ l.Name → (r.AddLogger l).GetLogger n = r.GetLogger n) ∧
    (∀ n, r.LoggerExists n = false → r.GetLogger n = none) ∧
    (∀ (ls : List AsynLogger) (n : List Char), n ≠ "default_logger".toList →
      (∀ x ∈ ls, x.Name ≠ n) → (LoggerManager.create.addAll ls).GetLogger n = none) := by
  refine ⟨fun h => ?_, fun h => ?_, fun n h => ?_, fun ls n hn hls => ?_⟩
  · simp [LoggerManager.AddLogger, h]
  · simp only [LoggerManager.AddLogger, h, Bool.false_eq_true, if_false,
      LoggerManager.GetLogger, mapFind_mapAssign, if_true, true_and]
    intro n hn
    rw [if_neg (Ne.symm hn)]
  · simpa [LoggerManager.LoggerExists, LoggerManager.GetLogger] using h
  · refine LoggerManager.addAll_find ls _ n ?_ hls
    simp only [LoggerManager.GetLogger, LoggerManager.create, mapFind_mapAssign]
    rw [if_neg (Ne.symm hn)]
    rfl

/-- Witness for C26: the test's `AddLogger` of `test_logger` on the fresh
registry, and a second `AddLogger` under the same name. -/
theorem C26_registry_witness :
    (LoggerManager.create.AddLogger testLogger).GetLogger "test_logger".toList
      = some testLogger ∧
    (LoggerManager.create.AddLogger testLogger).AddLogger
        { logger_name_ := "test_logger".toList, asyntype_ := .ASYNC_UNSAFE }
      = LoggerManager.create.AddLogger testLogger :=
  ⟨((C26_registry LoggerManager.create testLogger).2.1 (by decide)).1,
   (C26_registry (LoggerManager.create.AddLogger testLogger)
      { logger_name_ := "test_logger".toList, asyntype_ := .ASYNC_UNSAFE }).1 (by decide)⟩

theorem jsonMember_missing (root : List (List Char × JsonScalar)) (key : List Char)
    (h : mapFind root key = none) : jsonMember root key = JsonScalar.null := by
  simp [jsonMember, h]

theorem JsonData.fromRoot_missing (root : List (List Char × JsonScalar)) (d : JsonData)
    (hd : JsonData.fromRoot root = .ok d) :
    (mapFind root "buffer_size".toList = none → d.buffer_size = 0) ∧
    (mapFind root "threshold".toList = none → d.threshold = 0) ∧
    (mapFind root "linear_growth".toList = none → d.linear_growth = 0) ∧
    (mapFind root "flush_log".toList = none → d.flush_log = 0) ∧
    (mapFind root "backup_addr".toList = none → d.backup_addr = []) ∧
    (mapFind root "backup_port".toList = none → d.backup_port = 0) ∧
    (mapFind root "thread_count".toList = none → d.thread_count = 0) := by
  simp only [JsonData.fromRoot, bind, Except.bind, pure, Except.pure] at hd
  split at hd
  · cases hd
  rename_i v1 h1
  split at hd
  · cases hd
  rename_i v2 h2
  split at hd
  · cases hd
  rename_i v3 h3
  split at hd
  · cases hd
  rename_i v4 h4
  split at hd
  · cases hd
  rename_i v5 h5
  split at hd
  · cases hd
  rename_i v6 h6
  split at hd
  · cases hd
  rename_i v7 h7
  simp only [Except.ok.injEq] at hd
  subst hd
  refine ⟨fun hm => ?_, fun hm => ?_, fun hm => ?_, fun hm => ?_, fun hm => ?_,
    fun hm => ?_, fun hm => ?_⟩
  · rw [jsonMember_missing _ _ hm] at h1
    simp only [JsonScalar.asInt64, Except.ok.injEq] at h1
    exact h1.symm
  · rw [jsonMember_missing _ _ hm] at h2
    simp only [JsonScalar.asInt64, Except.ok.injEq] at h2
    subst h2
    rfl
  · rw [jsonMember_missing _ _ hm] at h3
    simp only [JsonScalar.asInt64, Except.ok.injEq] at h3
    subst h3
    rfl
  · rw [jsonMember_missing _ _ hm] at h4
    simp only [JsonScalar.asInt64, Except.ok.injEq] at h4
    subst h4
    rfl
  · rw [jsonMember_missing _ _ hm] at h5
    simp only [JsonScalar.asString, Except.ok.injEq] at h5
    exact h5.symm
  · rw [jsonMember_missing _ _ hm] at h6
    simp only [JsonScalar.asInt, Except.ok.injEq] at h6
    subst h6
    rfl
  · rw [jsonMember_missing _ _ hm] at h7
    simp only [JsonScalar.asInt, Except.ok.injEq] at h7
    subst h7
    rfl

theorem JsonData.load_of_root (root : List (List Char × JsonScalar)) (r : Bool) (o : LoadOutcome)
    (d : JsonData)
    (ho : o = match JsonData.fromRoot root with
      | .ok d => { reported := r, data := some d, thrown := none }
      | .error e => { reported := r, data := none, thrown := some e })
    (hd : o.data = some d) : o.reported = r ∧ o.thrown = none ∧ JsonData.fromRoot root = .ok d := by
  cases hf : JsonData.fromRoot root with
  | error e =>
    rw [hf] at ho
    subst ho
    cases hd
  | ok d1 =>
    rw [hf] at ho
    subst ho
    simp only [Option.some.injEq] at hd
    subst hd
    exact ⟨rfl, rfl, rfl⟩

/-- C27 (loading reports an error whenever one of the seven keys is missing):
for the object that has every key but `thread_count`, the loader prints nothing,
throws nothing and yields a configuration whose `thread_count` is 0; for the
empty object it yields the all-zero configuration. -/
theorem C27_missing_key_not_reported :
    mapFind configNoThreads "thread_count".toList = none ∧
    JsonData.load (.object configNoThreads)
      = { reported := false
          data := some
            { buffer_size := 4096, threshold := 65536, linear_growth := 4096, flush_log := 2,
              backup_addr := "127.0.0.1".toList, backup_port := 8080, thread_count := 0 }
          thrown := none } ∧
    JsonData.load (.object [])
      = { reported := false
          data := some { buffer_size := 0, threshold := 0, linear_growth := 0 }
          thrown := none } := by
  refine ⟨by decide, by rfl, by rfl⟩

/-- C27, amended: the loader prints an error message exactly when the file
cannot be read or its content cannot be parsed.  When the file cannot be read
the data members are left uninitialised and nothing is thrown; when the content
cannot be parsed the data members are still assigned, from what the parser left
in `root`.  A key missing from the JSON object is not reported: for an object
the loader prints nothing, and whenever it yields a configuration (from an
object or from unparsable content) nothing was thrown and every missing key
has silently taken the default of the null value, 0 for the six numeric keys
and the empty string for `backup_addr`. -/
theorem C27_missing_key_defaults (f : ConfigFile) :
    ((JsonData.load f).reported = true ↔ f = .unreadable ∨ ∃ root, f = .unparsable root) ∧
    (f = .unreadable → (JsonData.load f).data = none ∧ (JsonData.load f).thrown = none) ∧
    (∀ members, f = .object members → (JsonData.load f).reported = false) ∧
    (∀ (members : List (List Char × JsonScalar)) (d : JsonData),
      f = .object members ∨ f = .unparsable members → (JsonData.load f).data = some d →
      (JsonData.load f).thrown = none ∧
      (mapFind members "buffer_size".toList = none → d.buffer_size = 0) ∧
      (mapFind members "threshold".toList = none → d.threshold = 0) ∧
      (mapFind members "linear_growth".toList = none → d.linear_growth = 0) ∧
      (mapFind members "flush_log".toList = none → d.flush_log = 0) ∧
      (mapFind members "backup_addr".toList = none → d.backup_addr = []) ∧
      (mapFind members "backup_port".toList = none → d.backup_port = 0) ∧
      (mapFind members "thread_count".toList = none → d.thread_count = 0)) := by
  have hobj : ∀ members, (JsonData.load (.object members)).reported = false := by
    intro members
    simp only [JsonData.load]
    split <;> rfl
  have hunp : ∀ root, (JsonData.load (.unparsable root)).reported = true := by
    intro root
    simp only [JsonData.load]
    split <;> rfl
  refine ⟨?_, ?_, ?_, ?_⟩
  · cases f with
    | unreadable => exact ⟨fun _ => Or.inl rfl, fun _ => rfl⟩
    | unparsable root => exact ⟨fun _ => Or.inr ⟨root, rfl⟩, fun _ => hunp root⟩
    | object members =>
      constructor
      · intro h
        rw [hobj members] at h
        cases h
      · intro h
        rcases h with h | ⟨root, h⟩ <;> cases h
  · intro h
    subst h
    exact ⟨rfl, rfl⟩
  · intro members h
    subst h
    exact hobj members
  · intro members d h hd
    rcases h with h | h
    · subst h
      obtain ⟨-, ht, hr⟩ := JsonData.load_of_root members false _ d (by simp only [JsonData.load]) hd
      exact ⟨ht, JsonData.fromRoot_missing members d hr⟩
    · subst h
      obtain ⟨-, ht, hr⟩ := JsonData.load_of_root members true _ d (by simp only [JsonData.load]) hd
      exact ⟨ht, JsonData.fromRoot_missing members d hr⟩

/-- Witness for C27: the object without `thread_count` yields a configuration
whose `thread_count` is 0, and unparsable content that got as far as
`buffer_size` is reported and yields the other six keys at their defaults. -/
theorem C27_missing_key_defaults_witness :
    (∃ d, (JsonData.load (.object configNoThreads)).data = some d ∧ d.thread_count = 0) ∧
    (JsonData.load (.unparsable [("buffer_size".toList, .int 4096)])).reported = true :=
  ⟨⟨_, (by rfl), ((C27_missing_key_defaults (.object configNoThreads)).2.2.2 configNoThreads
      { buffer_size := 4096, threshold := 65536, linear_growth := 4096, flush_log := 2,
        backup_addr := "127.0.0.1".toList, backup_port := 8080, thread_count := 0 }
      (Or.inl rfl) (by rfl)).2.2.2.2.2.2.2 (by decide)⟩,
   (C27_missing_key_defaults (.unparsable [("buffer_size".toList, .int 4096)])).1.mpr
     (Or.inr ⟨_, rfl⟩)⟩

/-! ## Consumer loop variants and batches: claims -/

/-- C28 (in both variants the consumer waits while `stop` is not set and the
producer buffer is empty, so both perform the same swaps): on a fresh worker,
with no push and no stop, the wait predicate is false and the consumer of
`log_sys/src/AsynWorker.hpp` is held, while the consumer of
`src/src/AsynWorker.hpp` skips the wait, since its guard
`IsEmpty() && stop_` is false, swaps the two empty buffers and keeps going round
the loop: 2 swaps in 6 steps, against none. -/
theorem C28_second_variant_spins :
    (AsynWorker.create confSmall .ASYNC_SAFE).stop_ = false ∧
    (AsynWorker.create confSmall .ASYNC_SAFE).buffer_producer_.IsEmpty = true ∧
    (AsynWorker.create confSmall .ASYNC_SAFE).consumerReady = false ∧
    (AsynWorker.create confSmall .ASYNC_SAFE).consumerStep = none ∧
    (AsynWorker.create confSmall .ASYNC_SAFE).consumerStepB
      = some (AsynWorker.create confSmall .ASYNC_SAFE).lockedSection ∧
    ((AsynWorker.create confSmall .ASYNC_SAFE).drainB 6 0).2 = 2 ∧
    (AsynWorker.create confSmall .ASYNC_SAFE).drain 6
      = AsynWorker.create confSmall .ASYNC_SAFE := by
  decide

theorem AsynWorker.runBatch_run (conf : JsonData) (es : List Event) :
    ∀ (w w1 : AsynWorker) (b b1 : List (List Char)),
      AsynWorker.runBatch conf es w b = some (w1, b1) → AsynWorker.run conf es w = some w1 := by
  induction es with
  | nil =>
    intro w w1 b b1 h
    simp only [AsynWorker.runBatch, Option.some.injEq, Prod.mk.injEq] at h
    simp [AsynWorker.run, h.1]
  | cons e es ih =>
    intro w w1 b b1 h
    cases hs : w.step conf e with
    | none => simp [AsynWorker.runBatch, hs] at h
    | some w2 =>
      simp only [AsynWorker.runBatch, hs] at h
      simp only [AsynWorker.run, hs]
      exact ih w2 w1 _ b1 h

theorem AsynWorker.step_batch (conf : JsonData) (w w1 : AsynWorker) (e : Event)
    (hist b : List (List Char)) (hi : w.Inv hist)
    (hb : bytesOf b = w.buffer_producer_.readable) (hs : w.step conf e = some w1) :
    bytesOf (w.nextBatch e b) = w1.buffer_producer_.readable := by
  unfold AsynWorker.nextBatch
  cases e with
  | push d =>
    simp only [AsynWorker.step] at hs
    split_ifs at hs
    simp only [AsynWorker.Push] at hs
    split at hs
    · rename_i w2 heq
      cases hs
      simp only [Prod.mk.injEq] at heq
      obtain ⟨hok, hw⟩ := heq
      subst hw
      have h6 := (Buffer.Push_fits conf _ d hi.pInv hi.pCap hok).2.2.2.2.2
      show bytesOf (b ++ [d]) = (w.buffer_producer_.Push conf d).2.readable
      rw [h6, bytesOf_append, hb]
    · cases hs
  | stop =>
    simp only [AsynWorker.step, Option.some.injEq] at hs
    subst hs
    exact hb
  | consumer =>
    simp only [AsynWorker.step, AsynWorker.consumerStep] at hs
    cases hpc : w.pc <;> rw [hpc] at hs <;> simp only at hs
    · split_ifs at hs
      cases hs
      have hw := hi.cReset (by rw [hpc]; decide)
      simp only [if_true]
      show bytesOf [] = w.buffer_consumer_.readable
      rw [Buffer.readable_of_empty _ (hw.trans hi.cRead.symm)]
      rfl
    · cases hs
      simp only [if_neg (by decide : ¬ ConsumerPc.flushing = ConsumerPc.waiting)]
      unfold AsynWorker.flushSection
      split_ifs <;> exact hb
    · cases hs
      simp only [if_neg (by decide : ¬ ConsumerPc.checking = ConsumerPc.waiting)]
      unfold AsynWorker.exitCheck
      split_ifs <;> exact hb
    · cases hs

theorem AsynWorker.runBatch_spec (conf : JsonData) (es : List Event) :
    ∀ (w w1 : AsynWorker) (hist b b1 : List (List Char)), w.Inv hist →
      bytesOf b = w.buffer_producer_.readable →
      AsynWorker.runBatch conf es w b = some (w1, b1) →
      bytesOf b1 = w1.buffer_producer_.readable := by
  induction es with
  | nil =>
    intro w w1 hist b b1 _ hb h
    simp only [AsynWorker.runBatch, Option.some.injEq, Prod.mk.injEq] at h
    rw [← h.1, ← h.2]
    exact hb
  | cons e es ih =>
    intro w w1 hist b b1 hi hb h
    cases hs : w.step conf e with
    | none => simp [AsynWorker.runBatch, hs] at h
    | some w2 =>
      simp only [AsynWorker.runBatch, hs] at h
      exact ih w2 w1 _ (w.nextBatch e b) b1 (AsynWorker.step_inv conf w w2 e hist hi hs)
        (AsynWorker.step_batch conf w w2 e hist b hi hb hs) h

theorem Buffer.ToBeEnough_capacity_ge (conf : JsonData) (b : Buffer) (len : Nat)
    (h3 : 3 * b.capacity < SIZE_MOD) (hl : b.capacity + conf.linear_growth < SIZE_MOD) :
    b.capacity ≤ (b.ToBeEnough conf len).capacity := by
  simp only [Buffer.capacity] at *
  simp only [Buffer.ToBeEnough]
  split_ifs
  · have h2 : mulSz 2 b.buffer_.length = 2 * b.buffer_.length :=
      Nat.mod_eq_of_lt (by omega)
    have h4 : addSz (2 * b.buffer_.length) b.buffer_.length = 3 * b.buffer_.length := by
      rw [addSz, Nat.mod_eq_of_lt (by omega)]
      omega
    simp only [vresize_length, h2, h4]
    omega
  · have h4 : addSz conf.linear_growth b.buffer_.length
        = conf.linear_growth + b.buffer_.length := Nat.mod_eq_of_lt (by omega)
    simp only [vresize_length, h4]
    omega
  · exact Nat.le_refl _

theorem AsynWorker.step_capacity (conf : JsonData) (w w1 : AsynWorker) (e : Event) (c0 : Nat)
    (hp : c0 ≤ w.buffer_producer_.capacity) (hc : c0 ≤ w.buffer_consumer_.capacity)
    (hr : w.growthInRange conf = true) (hs : w.step conf e = some w1) :
    c0 ≤ w1.buffer_producer_.capacity ∧ c0 ≤ w1.buffer_consumer_.capacity := by
  simp only [AsynWorker.growthInRange, decide_eq_true_eq] at hr
  cases e with
  | push d =>
    simp only [AsynWorker.step] at hs
    split_ifs at hs
    simp only [AsynWorker.Push] at hs
    split at hs
    · rename_i w2 heq
      cases hs
      simp only [Prod.mk.injEq] at heq
      obtain ⟨-, hw⟩ := heq
      subst hw
      refine ⟨?_, hc⟩
      show c0 ≤ (w.buffer_producer_.Push conf d).2.buffer_.length
      rw [Buffer.Push_capacity]
      exact Nat.le_trans hp
        (Buffer.ToBeEnough_capacity_ge conf w.buffer_producer_ d.length hr.1 hr.2)
    · cases hs
  | stop =>
    simp only [AsynWorker.step, Option.some.injEq] at hs
    subst hs
    exact ⟨hp, hc⟩
  | consumer =>
    simp only [AsynWorker.step, AsynWorker.consumerStep] at hs
    cases hpc : w.pc <;> rw [hpc] at hs <;> simp only at hs
    · split_ifs at hs
      cases hs
      exact ⟨hc, hp⟩
    · cases hs
      unfold AsynWorker.flushSection
      split_ifs
      · exact ⟨hp, hc⟩
      · exact ⟨hp, hc⟩
    · cases hs
      unfold AsynWorker.exitCheck
      split_ifs <;> exact ⟨hp, hc⟩
    · cases hs

theorem AsynWorker.run_capacity (conf : JsonData) (c0 : Nat) (es : List Event) :
    ∀ (w w1 : AsynWorker), c0 ≤ w.buffer_producer_.capacity →
      c0 ≤ w.buffer_consumer_.capacity → AsynWorker.runInRange conf es w = true →
      AsynWorker.run conf es w = some w1 →
      c0 ≤ w1.buffer_producer_.capacity ∧ c0 ≤ w1.buffer_consumer_.capacity := by
  induction es with
  | nil =>
    intro w w1 hp hc _ h
    simp only [AsynWorker.run, Option.some.injEq] at h
    subst h
    exact ⟨hp, hc⟩
  | cons e es ih =>
    intro w w1 hp hc hr h
    cases hs : w.step conf e with
    | none => simp [AsynWorker.run, hs] at h
    | some w2 =>
      simp only [AsynWorker.run, hs] at h
      simp only [AsynWorker.runInRange, hs, Bool.and_eq_true] at hr
      obtain ⟨h1, h2⟩ := AsynWorker.step_capacity conf w w2 e c0 hp hc hr.1 hs
      exact ih w2 w1 h1 h2 hr.2 h

/-- C29: in every worker state reached with the consumer about to swap, the
consumer buffer is empty with both cursors at 0; immediately after the swap the
producer buffer is empty with `read_pos = write_pos = 0` and `WriteableSize(P)`
equal to its capacity, the consumer buffer holds exactly the records pushed
since the previous swap, and (no resize along the way having wrapped around in
`size_t`) that capacity is at least the configured initial capacity. -/
theorem C29_state_at_swap (conf : JsonData) (type : AsynType) (es : List Event)
    (w w1 : AsynWorker) (b : List (List Char))
    (hr : AsynWorker.runBatch conf es (AsynWorker.create conf type) [] = some (w, b))
    (hpc : w.pc = ConsumerPc.waiting)
    (hs : w.step conf Event.consumer = some w1) :
    (w.buffer_consumer_.read_pos_ = 0 ∧ w.buffer_consumer_.write_pos_ = 0 ∧
      w.buffer_consumer_.IsEmpty = true) ∧
    w1 = w.lockedSection ∧
    (w1.buffer_producer_.read_pos_ = 0 ∧ w1.buffer_producer_.write_pos_ = 0 ∧
      w1.buffer_producer_.IsEmpty = true ∧
      w1.buffer_producer_.WriteableSize = w1.buffer_producer_.capacity) ∧
    w1.buffer_consumer_.readable = bytesOf b ∧
    (AsynWorker.runInRange conf es (AsynWorker.create conf type) = true →
      (Buffer.create conf).capacity ≤ w1.buffer_producer_.capacity) := by
  have hrun := AsynWorker.runBatch_run conf es _ w [] b hr
  have hi := AsynWorker.reachable_inv conf type es w hrun
  have hb := AsynWorker.runBatch_spec conf es _ w [] [] b (AsynWorker.create_inv conf type)
    (by
      obtain ⟨-, -, h3, h4⟩ := Buffer.create_spec conf
      show bytesOf [] = (Buffer.create conf).readable
      rw [Buffer.readable_of_empty _ (h4.trans h3.symm)]
      rfl) hr
  have hcw := hi.cReset (by rw [hpc]; decide)
  have hw1 : w1 = w.lockedSection := by
    simp only [AsynWorker.step, AsynWorker.consumerStep, hpc] at hs
    split_ifs at hs
    exact (Option.some.inj hs).symm
  have hempty : w.buffer_consumer_.IsEmpty = true := by
    simp [Buffer.IsEmpty, hcw, hi.cRead]
  refine ⟨⟨hi.cRead, hcw, hempty⟩, hw1, ?_, ?_, fun hrange => ?_⟩
  · subst hw1
    refine ⟨hi.cRead, hcw, hempty, ?_⟩
    show w.buffer_consumer_.WriteableSize = w.buffer_consumer_.capacity
    simp only [Buffer.WriteableSize, Buffer.capacity, hcw]
    exact subSz_zero _ hi.cCap
  · subst hw1
    exact hb.symm
  · subst hw1
    exact (AsynWorker.run_capacity conf (Buffer.create conf).capacity es _ w
      (Nat.le_refl _) (Nat.le_refl _) hrange hrun).2

set_option maxRecDepth 20000 in
/-- Witness for C29: after `demoBatchSchedule` the consumer is about to swap
with `cd` and `ef` pushed since the previous swap; right after the swap the
consumer buffer holds `cdef` and the producer buffer is empty. -/
theorem C29_state_at_swap_witness :
    demoBatchState.2 = ["cd".toList, "ef".toList] ∧
    demoBatchState.1.lockedSection.buffer_consumer_.readable = "cdef".toList ∧
    demoBatchState.1.lockedSection.buffer_producer_.WriteableSize = 4 ∧
    (Buffer.create confSmall).capacity
      ≤ demoBatchState.1.lockedSection.buffer_producer_.capacity :=
  ⟨by decide,
   (C29_state_at_swap confSmall .ASYNC_SAFE demoBatchSchedule demoBatchState.1
      demoBatchState.1.lockedSection demoBatchState.2 (by decide) (by decide)
      (by decide)).2.2.2.1.trans (by decide),
   by decide,
   (C29_state_at_swap confSmall .ASYNC_SAFE demoBatchSchedule demoBatchState.1
      demoBatchState.1.lockedSection demoBatchState.2 (by decide) (by decide)
      (by decide)).2.2.2.2 (by decide)⟩

/-! ## The backup server -/

theorem cString_append_zero (data rest : List Char) :
    cString (data ++ Char.ofNat 0 :: rest) = cString data := by
  induction data with
  | nil => simp [cString, List.takeWhile]
  | cons a l ih =>
    simp only [cString, List.cons_append, List.takeWhile] at ih ⊢
    cases h : (a != Char.ofNat 0)
    · rfl
    · show a :: List.takeWhile (fun c => c != Char.ofNat 0) (l ++ Char.ofNat 0 :: rest)
        = a :: List.takeWhile (fun c => c != Char.ofNat 0) l
      rw [ih]

theorem cString_of_no_zero (data : List Char) (h : Char.ofNat 0 ∉ data) :
    cString data = data := by
  induction data with
  | nil => rfl
  | cons a l ih =>
    simp only [List.mem_cons, not_or] at h
    have ha : (a != Char.ofNat 0) = true := by
      simp only [bne_iff_ne, ne_eq]
      exact fun e => h.1 e.symm
    simp only [cString, List.takeWhile, ha] at ih ⊢
    rw [ih h.2]

theorem set_length_append (data t : List Char) (c : Char) :
    (data ++ t).set data.length c = data ++ t.set 0 c := by
  induction data with
  | nil => rfl
  | cons a l ih => simp only [List.cons_append, List.length_cons, List.set_cons_succ, ih]

theorem TCP_Server.service_in_bounds (stack data client_info : List Char)
    (h0 : 0 < data.length) (h1 : data.length < stack.length) :
    TCP_Server.service stack (.bytes data) client_info
      = (none, some (client_info ++ cString data)) := by
  have hlen : data.length < (data ++ stack.drop data.length).length := by
    simp only [List.length_append, List.length_drop]
    omega
  simp only [TCP_Server.service, h0, hlen, if_true]
  cases ht : stack.drop data.length with
  | nil =>
    have := congrArg List.length ht
    simp only [List.length_drop, List.length_nil] at this
    omega
  | cons x t =>
    rw [set_length_append]
    simp only [List.set_cons_zero]
    rw [cString_append_zero]

set_option maxRecDepth 40000 in
/-- C30 (counterexample): a message of three bytes whose second byte is zero is
handed to the persist callback as the client address followed by its first byte
only, and a read that fills the whole buffer (r = 1024) stores the terminator
at index 1024, outside the 1024-byte buffer. -/
theorem C30_not_all_bytes_or_in_bounds :
    TCP_Server.threadRoutine demoStack
      (.bytes [Char.ofNat 97, Char.ofNat 0, Char.ofNat 98]) "10.0.0.7".toList 4242
      = (none, some "10.0.0.7:4242a".toList) ∧
    record1024.length = BUF_SIZE ∧ demoStack.length = BUF_SIZE ∧
    (TCP_Server.threadRoutine demoStack (.bytes record1024) "10.0.0.7".toList 4242).1
      = some Fault.outOfBounds := by
  refine ⟨?_, ?_, ?_, ?_⟩
  · rw [TCP_Server.threadRoutine, TCP_Server.service_in_bounds _ _ _ (by decide) (by
      rw [demoStack, List.length_replicate]; decide)]
    decide
  · rw [record1024, List.length_replicate, BUF_SIZE]
  · rw [demoStack, List.length_replicate, BUF_SIZE]
  · simp only [TCP_Server.threadRoutine, TCP_Server.service, record1024, demoStack,
      List.length_append, List.length_drop, List.length_replicate]
    rfl

/-- C30 (amended): when the single read returns r bytes with 0 < r < 1024, no
access leaves the 1024-byte buffer and the string handed to the persist callback
is `client_ip`, a colon and the decimal `client_port`, followed by the received
bytes up to the first zero byte: all r bytes when none of them is zero, and the
bytes before the first zero otherwise. -/
theorem C30_persisted_string (stack data client_ip : List Char) (client_port : Nat)
    (hstack : stack.length = BUF_SIZE) (h0 : 0 < data.length)
    (h1 : data.length < BUF_SIZE) :
    TCP_Server.threadRoutine stack (.bytes data) client_ip client_port
      = (none, some (client_ip ++ ":".toList ++ to_string client_port ++ cString data)) ∧
    (Char.ofNat 0 ∉ data → cString data = data) ∧
    (∀ pre rest : List Char, data = pre ++ Char.ofNat 0 :: rest → Char.ofNat 0 ∉ pre →
      cString data = pre) := by
  refine ⟨?_, cString_of_no_zero data, ?_⟩
  · rw [TCP_Server.threadRoutine,
      TCP_Server.service_in_bounds _ _ _ h0 (by rw [hstack]; exact h1)]
  · intro pre rest hd hp
    rw [hd, cString_append_zero, cString_of_no_zero pre hp]

set_option maxRecDepth 40000 in
/-- Witness for C30: the three bytes `abc` received from 10.0.0.7, port 4242,
are persisted as `10.0.0.7:4242abc`. -/
theorem C30_persisted_string_witness :
    TCP_Server.threadRoutine demoStack (.bytes "abc".toList) "10.0.0.7".toList 4242
      = (none, some "10.0.0.7:4242abc".toList) :=
  (C30_persisted_string demoStack "abc".toList "10.0.0.7".toList 4242
    (by rw [demoStack, List.length_replicate, BUF_SIZE]) (by decide) (by decide)).1.trans
    (by decide)

end asynlog
